import Mathlib

/-!
Image-generation job engine: limiter, task store, worker.

A shallow embedding of the Go sources

* `common/rate_limit_rpm.go`   (sliding-window RPM limiter, Redis script and in-memory slot),
* `model/image_generation_task.go` (task rows and their store transitions),
* `service/image_task_service.go`, `service/image_generation_service.go`,
  `service/image_storage_service.go` (worker process step, adapters, artifact sink),

followed by the theorems about them.

Conventions.  A `time.Time` is its Unix time in nanoseconds (`Int`), a
`time.Duration` is a number of nanoseconds (`Int`).  Go `int`/`int64` values are
unbounded `Int`s: all clock readings and sums stay far inside the 64-bit range.
-/

namespace RateLimit

/-! ## Time helpers -/

/-- Go `Time.UnixMilli`: milliseconds since the epoch, rounded down. -/
def unixMilli (t : Int) : Int := t / 1000000

/-- Go `Duration.Milliseconds`: `int64(d) / 1e6`, rounded toward zero. -/
def durationMilliseconds (d : Int) : Int := Int.tdiv d 1000000

/-- Go `time.Duration(ms) * time.Millisecond`. -/
def millisToDuration (ms : Int) : Int := ms * 1000000

/-! ## In-memory slot (`acquireRPMSlotMemory`, lines 133-181) -/

/-- The scan of lines 150-156: the index of the first timestamp that is newer than
`windowStart`, counted from `i`; `0` when the loop never breaks. -/
def findValidIdx (windowStart : Int) : List Int → Nat → Nat
  | [], _ => 0
  | ts :: rest, i => if ts > windowStart then i else findValidIdx windowStart rest (i + 1)

/-- The pruning step of lines 149-162 on the slot's slice of timestamps. -/
def pruneTimestamps (timestamps : List Int) (windowStart : Int) : List Int :=
  let validIdx := findValidIdx windowStart timestamps 0
  if validIdx > 0 then
    timestamps.drop validIdx
  else
    match timestamps.getLast? with
    | some newest => if newest ≤ windowStart then [] else timestamps
    | none => timestamps

/-- What one in-memory acquire yields: the two returned values and the slot's
timestamps when the call returns. -/
structure SlotResult where
  acquired : Bool
  retryAfter : Int
  timestamps : List Int
  deriving DecidableEq, Repr

/-- The critical section of `acquireRPMSlotMemory` (lines 136-180) on one slot.
`now` is the reading of `time.Now()`, `window` the duration argument.  `none` is the
index-out-of-range panic of `slot.timestamps[0]` on an empty slice. -/
def slotAcquire (timestamps : List Int) (rpm : Int) (window : Int) (now : Int) :
    Option SlotResult :=
  let nowMs := unixMilli now
  let windowStart := unixMilli (now - window)
  let pruned := pruneTimestamps timestamps windowStart
  if (pruned.length : Int) < rpm then
    some { acquired := true, retryAfter := 0, timestamps := pruned ++ [nowMs] }
  else
    match pruned with
    | [] => none
    | oldestTs :: _ =>
      let retryAfterMs := oldestTs + durationMilliseconds window - nowMs
      let retryAfterMs := if retryAfterMs < 0 then 0 else retryAfterMs
      some { acquired := false, retryAfter := millisToDuration retryAfterMs, timestamps := pruned }

/-- What `cleanExpiredMemoryRPMSlots` (lines 118-130) does to the slot of one key at
clock reading `now`: when the newest timestamp is more than 10 minutes old the map
entry is deleted, and the next acquire starts from a new, empty slot. -/
def sweepSlot (timestamps : List Int) (now : Int) : List Int :=
  match timestamps.getLast? with
  | some newest => if unixMilli now - newest > 10 * 60 * 1000 then [] else timestamps
  | none => timestamps

/-- What touches the slot of one key: a call of `acquireRPMSlotMemory`, or a tick of the
sweeper that the first call starts (`initMemoryRPMCleaner`, line 134). -/
inductive SlotEvent where
  | acquire (now : Int)
  | sweep (now : Int)
  deriving DecidableEq, Repr

/-- The clock reading of an event. -/
def SlotEvent.time : SlotEvent → Int
  | SlotEvent.acquire now => now
  | SlotEvent.sweep now => now

/-- The clock readings of the acquires among the events. -/
def acquireTimes : List SlotEvent → List Int
  | [] => []
  | SlotEvent.acquire now :: rest => now :: acquireTimes rest
  | SlotEvent.sweep _ :: rest => acquireTimes rest

/-- Successive events on the slot of one key, each starting from the timestamps the
previous one left.  The events run one after the other: a tick does not fall between
the `LoadOrStore` of an acquire and its critical section.  The trace pairs the reading
of every acquire with the result of its call; `none` when one of the calls panics. -/
def slotTrace (rpm window : Int) : List Int → List SlotEvent → Option (List (Int × SlotResult))
  | _, [] => some []
  | timestamps, SlotEvent.sweep now :: rest =>
    slotTrace rpm window (sweepSlot timestamps now) rest
  | timestamps, SlotEvent.acquire now :: rest =>
    match slotAcquire timestamps rpm window now with
    | none => none
    | some r =>
      match slotTrace rpm window r.timestamps rest with
      | none => none
      | some tr => some ((now, r) :: tr)

/-- A timestamp the pruning step keeps: strictly newer than `windowStart`. -/
def newerThan (windowStart ts : Int) : Bool := decide (ts > windowStart)

/-- Membership of a millisecond timestamp in the rolling interval `(t - w, t]`. -/
def inWindow (t w ts : Int) : Bool := decide (t - w < ts ∧ ts ≤ t)

/-- How many admitted calls of a trace carry a millisecond timestamp in the rolling
interval `(t - w, t]`. -/
def admittedIn (tr : List (Int × SlotResult)) (t w : Int) : Nat :=
  tr.countP (fun c => c.2.acquired && inWindow t w (unixMilli c.1))

/-! ## Redis sorted set and the Lua script (`acquireRPMSlotRedis`, lines 35-91) -/

/-- One entry of a Redis sorted set.  The script adds the member `now` printed as a
decimal integer, so a member is represented by the integer it prints. -/
structure ZEntry where
  member : Int
  score : Int
  deriving DecidableEq, Repr

/-- A Redis key holding a sorted set: entries in ascending score order, members
pairwise distinct, and the key's expiry deadline in milliseconds when one is set. -/
structure RedisKey where
  zset : List ZEntry
  expireAt : Option Int
  deriving DecidableEq, Repr

/-- The key that does not exist. -/
def RedisKey.absent : RedisKey := { zset := [], expireAt := none }

/-- A key whose deadline has passed is gone when a command reaches it. -/
def RedisKey.live (k : RedisKey) (serverNow : Int) : RedisKey :=
  match k.expireAt with
  | some deadline => if serverNow > deadline then RedisKey.absent else k
  | none => k

/-- Redis `ZREMRANGEBYSCORE key -inf max`: drops the entries with `score ≤ max`; a
sorted set left empty is deleted together with its deadline. -/
def zremrangebyscoreUpTo (k : RedisKey) (max : Int) : RedisKey :=
  let kept := k.zset.filter (fun e => decide (e.score > max))
  if kept.isEmpty then RedisKey.absent else { k with zset := kept }

/-- Redis `ZCARD key`. -/
def zcard (k : RedisKey) : Int := k.zset.length

/-- Ordered insertion by score. -/
def zinsert (e : ZEntry) : List ZEntry → List ZEntry
  | [] => [e]
  | x :: rest => if e.score < x.score then e :: x :: rest else x :: zinsert e rest

/-- Redis `ZADD key score member`: a member already present only has its score
replaced, otherwise the entry is added. -/
def zadd (k : RedisKey) (score member : Int) : RedisKey :=
  { k with zset := zinsert { member := member, score := score }
                     (k.zset.filter (fun e => decide (e.member ≠ member))) }

/-- The entry the script adds for the millisecond timestamp `t`. -/
def ZEntry.ofStamp (t : Int) : ZEntry := { member := t, score := t }

/-- Redis `EXPIRE key ttl` at server time `serverNow` (milliseconds): a deadline that
is not in the future deletes the key. -/
def expire (k : RedisKey) (ttl serverNow : Int) : RedisKey :=
  if k.zset.isEmpty then k
  else if ttl ≤ 0 then RedisKey.absent
  else { k with expireAt := some (serverNow + ttl * 1000) }

/-- The Lua script of lines 42-73, run atomically on the key; the server's clock is
the caller's `now`.  Returns the two-element reply and the key afterwards. -/
def rpmScript (k : RedisKey) (now windowStart maxRequests ttl : Int) : (Int × Int) × RedisKey :=
  let k := zremrangebyscoreUpTo (k.live now) windowStart
  let currentCount := zcard k
  if currentCount < maxRequests then
    let k := zadd k now now
    let k := expire k ttl now
    ((1, 0), k)
  else
    match k.zset with
    | oldest :: _ =>
      let oldestTime := oldest.score
      let retryAfter := oldestTime + (ttl * 1000) - now
      let retryAfter := if retryAfter < 0 then 0 else retryAfter
      ((0, retryAfter), k)
    | [] => ((0, ttl * 1000), k)

/-- Go `int(window.Seconds())`: whole seconds of the duration, rounded toward zero. -/
def durationSeconds (d : Int) : Int := Int.tdiv d 1000000000

/-- The function `acquireRPMSlotRedis` on the key's state when the script runs without error:
the returned `(acquired, retryAfter)` and the key afterwards. -/
def acquireRPMSlotRedis (k : RedisKey) (rpm window now : Int) : (Bool × Int) × RedisKey :=
  let nowMs := unixMilli now
  let windowStart := unixMilli (now - window)
  let ttlSeconds := durationSeconds window
  let reply := rpmScript k nowMs windowStart rpm ttlSeconds
  ((decide (reply.1.1 = 1), millisToDuration reply.1.2), reply.2)

/-- Successive Redis acquires on one key, one per clock reading. -/
def redisTrace (rpm window : Int) : RedisKey → List Int → List (Bool × Int)
  | _, [] => []
  | k, now :: rest =>
    let r := acquireRPMSlotRedis k rpm window now
    r.1 :: redisTrace rpm window r.2 rest

/-! ## The entry point (`AcquireRPMSlot`, lines 14-32) -/

/-- The limiter's state: the in-process map `memoryRPMStore` and the Redis keys. -/
structure Limiter where
  memory : String → Option (List Int)
  redis : String → RedisKey

/-- The three values `AcquireRPMSlot` returns. -/
structure Acquired where
  acquired : Bool
  retryAfter : Int
  err : Option String
  deriving DecidableEq, Repr

/-- The function `acquireRPMSlotMemory` on the map: `LoadOrStore` creates an empty slot for a
new key, then the critical section runs on the slot.  `none` is a panic: of
`make([]int64, 0, rpm)` for a negative `rpm`, or of the critical section. -/
def acquireRPMSlotMemory (memory : String → Option (List Int)) (key : String)
    (rpm window now : Int) : Option (Acquired × (String → Option (List Int))) :=
  if rpm < 0 then none
  else
    let timestamps := (memory key).getD []
    match slotAcquire timestamps rpm window now with
    | none => none
    | some r =>
      some ({ acquired := r.acquired, retryAfter := r.retryAfter, err := none },
            fun k => if k = key then some r.timestamps else memory k)

/-- The function `AcquireRPMSlot`.  `useRedis` is `RedisEnabled && RDB != nil`, `redisErr` the
error of the script run when it fails, `nowRedis` and `nowMemory` the clock readings
of the two paths.  `none` is a panic of the in-memory path. -/
def AcquireRPMSlot (st : Limiter) (useRedis : Bool) (redisErr : Option String)
    (key : String) (rpm window nowRedis nowMemory : Int) : Option (Acquired × Limiter) :=
  if rpm = 0 then
    some ({ acquired := true, retryAfter := 0, err := none }, st)
  else
    let viaMemory : Option (Acquired × Limiter) :=
      match acquireRPMSlotMemory st.memory key rpm window nowMemory with
      | none => none
      | some (a, memory) => some (a, { st with memory := memory })
    if useRedis then
      match redisErr with
      | none =>
        let r := acquireRPMSlotRedis (st.redis key) rpm window nowRedis
        some ({ acquired := r.1.1, retryAfter := r.1.2, err := none },
              { st with redis := fun k => if k = key then r.2 else st.redis k })
      | some _ => viaMemory
    else viaMemory

end RateLimit

namespace TaskStore

/-! ## Task rows (`model/image_generation_task.go`) -/

/-- Go `Time.Unix`: seconds since the epoch, rounded down. -/
def unixSec (t : Int) : Int := t / 1000000000

/-- One row of `image_generation_tasks`; a nil `*int64` is `none`. -/
structure ImageGenerationTask where
  id : String
  userID : Int
  modelID : String
  prompt : String
  resolution : String
  aspectRatio : String
  referenceImage : String
  count : Int
  status : String
  errorMessage : String
  imageURLs : List String
  attempts : Int
  lastError : String
  nextAttemptAt : Option Int
  createdAt : Int
  updatedAt : Int
  completedAt : Option Int
  deriving DecidableEq, Repr

/-- The table: its rows, in storage order.  `id` is the primary key. -/
abbrev Store := List ImageGenerationTask

/-- An `UPDATE ... WHERE cond`: the table afterwards and `RowsAffected`. -/
def updateWhere (cond : ImageGenerationTask → Bool)
    (set : ImageGenerationTask → ImageGenerationTask) (db : Store) : Store × Nat :=
  (db.map (fun r => if cond r then set r else r), db.countP cond)

/-- The hook `BeforeCreate` together with the column defaults of the struct tags
(`count` defaults to 1). -/
def BeforeCreate (t : ImageGenerationTask) (now : Int) : ImageGenerationTask :=
  { t with
    createdAt := if t.createdAt = 0 then unixSec now else t.createdAt
    updatedAt := if t.updatedAt = 0 then unixSec now else t.updatedAt
    count := if t.count = 0 then 1 else t.count }

/-- The method `Insert`: `DB.Create(t)`.  A row with the same primary key makes the insert
fail and leaves the table as it was. -/
def Insert (db : Store) (t : ImageGenerationTask) (now : Int) : Option String × Store :=
  if db.any (fun r => r.id == t.id) then (some "duplicate primary key", db)
  else (none, db ++ [BeforeCreate t now])

/-- The claim scan's `WHERE`: pending, and `next_attempt_at` null or not after `now`
(seconds). -/
def eligible (now : Int) (r : ImageGenerationTask) : Bool :=
  r.status == "pending" &&
    (match r.nextAttemptAt with
     | none => true
     | some due => decide (due ≤ now))

/-- Row order of the claim scan: `ORDER BY created_at ASC`, then the primary key that
`First` appends. -/
def scansBefore (a b : ImageGenerationTask) : Bool :=
  decide (a.createdAt < b.createdAt) || (decide (a.createdAt = b.createdAt) && decide (a.id < b.id))

/-- The first row of a result set in the claim scan's order. -/
def firstOrdered : List ImageGenerationTask → Option ImageGenerationTask
  | [] => none
  | r :: rest =>
    match firstOrdered rest with
    | none => some r
    | some m => if scansBefore r m then some r else some m

/-- What `ClaimNextPending` returns: a task, `nil, nil`, or an error. -/
inductive ClaimResult where
  | task (t : ImageGenerationTask)
  | null
  | error (msg : String)
  deriving DecidableEq, Repr

/-- The row a claim at clock reading `stamp` leaves behind. -/
def claimed (r : ImageGenerationTask) (stamp : Int) : ImageGenerationTask :=
  { r with status := "running", updatedAt := unixSec stamp }

/-- First statement of the lock-free path (lines 226-230): the unlocked read of the
candidate. -/
def claimSelect (db : Store) (now : Int) : Option ImageGenerationTask :=
  firstOrdered (db.filter (eligible (unixSec now)))

/-- Second statement (lines 240-246): `SET status = running, updated_at = now WHERE id = ?
AND status = pending`. -/
def claimUpdate (db : Store) (id : String) (stamp : Int) : Store × Nat :=
  updateWhere (fun r => r.id == id && r.status == "pending")
    (fun r => { r with status := "running", updatedAt := unixSec stamp }) db

/-- Third statement (line 258): the re-read by primary key. -/
def claimReread (db : Store) (id : String) : ClaimResult :=
  match db.find? (fun r => r.id == id) with
  | none => ClaimResult.error "record not found"
  | some t => ClaimResult.task t

/-- The lock-free path of `ClaimNextPending` (lines 225-263) run without interruption;
`now` and `stamp` are its two clock readings. -/
def ClaimNextPendingCAS (db : Store) (now stamp : Int) : ClaimResult × Store :=
  match claimSelect db now with
  | none => (ClaimResult.null, db)
  | some task =>
    let upd := claimUpdate db task.id stamp
    if upd.2 = 0 then (ClaimResult.null, upd.1)
    else (claimReread upd.1 task.id, upd.1)

/-- The row-locking path (lines 195-223): select and `Save` in one transaction. -/
def ClaimNextPendingLocked (db : Store) (now stamp : Int) : ClaimResult × Store :=
  match claimSelect db now with
  | none => (ClaimResult.null, db)
  | some task =>
    let task := { task with status := "running", updatedAt := unixSec stamp }
    (ClaimResult.task task, db.map (fun r => if r.id == task.id then task else r))

/-- The function `ClaimNextPending`; `skipLocked` is
`UsingPostgreSQL || (UsingMySQL && !UsingSQLite)`. -/
def ClaimNextPending (skipLocked : Bool) (db : Store) (now stamp : Int) : ClaimResult × Store :=
  if skipLocked then ClaimNextPendingLocked db now stamp else ClaimNextPendingCAS db now stamp

/-- The method `MarkRunning`. -/
def MarkRunning (db : Store) (taskID : String) (now : Int) : Store :=
  (updateWhere (fun r => r.id == taskID)
    (fun r => { r with status := "running", updatedAt := unixSec now }) db).1

/-- The method `MarkSuccess`. -/
def MarkSuccess (db : Store) (taskID : String) (imageURLs : List String) (now : Int) : Store :=
  (updateWhere (fun r => r.id == taskID)
    (fun r => { r with status := "succeeded", imageURLs := imageURLs,
                       updatedAt := unixSec now, completedAt := some (unixSec now) }) db).1

/-- The method `MarkFailed`. -/
def MarkFailed (db : Store) (taskID : String) (errorMsg : String) (now : Int) : Store :=
  (updateWhere (fun r => r.id == taskID)
    (fun r => { r with status := "failed", errorMessage := errorMsg, lastError := errorMsg,
                       updatedAt := unixSec now, completedAt := some (unixSec now),
                       nextAttemptAt := none }) db).1

/-- The method `ScheduleRetry`; `nextAttemptAt` is a `time.Time`. -/
def ScheduleRetry (db : Store) (taskID : String) (nextAttemptAt : Int) (errorMsg : String)
    (now : Int) : Store :=
  (updateWhere (fun r => r.id == taskID)
    (fun r => { r with status := "pending", attempts := r.attempts + 1, lastError := errorMsg,
                       nextAttemptAt := some (unixSec nextAttemptAt),
                       updatedAt := unixSec now }) db).1

/-- The function `ResetZombieRunning`; `now` and `stamp` are its two clock readings, `staleAfter`
a duration.  Returns `RowsAffected` and the table. -/
def ResetZombieRunning (db : Store) (staleAfter : Int) (now stamp : Int) : Nat × Store :=
  let staleTime := unixSec (now - staleAfter)
  let upd := updateWhere (fun r => r.status == "running" && decide (r.updatedAt < staleTime))
    (fun r => { r with status := "pending", nextAttemptAt := some (unixSec stamp),
                       updatedAt := unixSec stamp }) db
  (upd.2, upd.1)

/-- A freshly created task, as `CreateImageTask` stores it at second 100. -/
def sampleTask : ImageGenerationTask :=
  { id := "t1", userID := 1, modelID := "m1", prompt := "cat", resolution := "1K",
    aspectRatio := "1:1", referenceImage := "", count := 1, status := "pending",
    errorMessage := "", imageURLs := [], attempts := 0, lastError := "",
    nextAttemptAt := none, createdAt := 100, updatedAt := 100, completedAt := none }

/-! ## Store transitions as data -/

/-- The store transitions, with their arguments. -/
inductive StoreOp where
  | insert (t : ImageGenerationTask)
  | claimNextPending (skipLocked : Bool)
  | markRunning (taskID : String)
  | markSuccess (taskID : String) (imageURLs : List String)
  | markFailed (taskID : String) (errorMsg : String)
  | scheduleRetry (taskID : String) (nextAttemptAt : Int) (errorMsg : String)
  | resetZombieRunning (staleAfter : Int)

/-- The table after one transition made at clock readings `now`, `stamp`. -/
def applyOp (db : Store) (now stamp : Int) : StoreOp → Store
  | StoreOp.insert t => (Insert db t now).2
  | StoreOp.claimNextPending skipLocked => (ClaimNextPending skipLocked db now stamp).2
  | StoreOp.markRunning taskID => MarkRunning db taskID now
  | StoreOp.markSuccess taskID imageURLs => MarkSuccess db taskID imageURLs now
  | StoreOp.markFailed taskID errorMsg => MarkFailed db taskID errorMsg now
  | StoreOp.scheduleRetry taskID nextAttemptAt errorMsg =>
    ScheduleRetry db taskID nextAttemptAt errorMsg now
  | StoreOp.resetZombieRunning staleAfter => (ResetZombieRunning db staleAfter now stamp).2

/-- Data-model invariant 1 on a table: a pending or running row has no
`completed_at`. -/
def OpenRowsIncomplete (db : Store) : Prop :=
  ∀ r ∈ db, (r.status = "pending" ∨ r.status = "running") → r.completedAt = none

/-- The transitions that keep invariant 1 whatever their arguments are, and the
condition under which the others do: an inserted task must itself satisfy it, and
`MarkRunning` / `ScheduleRetry` must address rows that have no `completed_at`. -/
def keepsOpenRowsIncomplete (db : Store) : StoreOp → Prop
  | StoreOp.insert t => (t.status = "pending" ∨ t.status = "running") → t.completedAt = none
  | StoreOp.markRunning taskID => ∀ r ∈ db, r.id = taskID → r.completedAt = none
  | StoreOp.scheduleRetry taskID _ _ => ∀ r ∈ db, r.id = taskID → r.completedAt = none
  | _ => True

/-! ## Concurrent lock-free claims -/

/-- Where a worker stands inside the lock-free `ClaimNextPending`. -/
inductive ClaimPC where
  | start
  | selected (task : ImageGenerationTask)
  | updated (id : String)
  | returned (res : ClaimResult)
  deriving DecidableEq, Repr

/-- The next database statement of a worker, executed atomically at clock reading
`now`: the worker's new position and the table. -/
def claimStep (db : Store) (now : Int) : ClaimPC → ClaimPC × Store
  | ClaimPC.start =>
    match claimSelect db now with
    | none => (ClaimPC.returned ClaimResult.null, db)
    | some task => (ClaimPC.selected task, db)
  | ClaimPC.selected task =>
    let upd := claimUpdate db task.id now
    if upd.2 = 0 then (ClaimPC.returned ClaimResult.null, upd.1)
    else (ClaimPC.updated task.id, upd.1)
  | ClaimPC.updated id => (ClaimPC.returned (claimReread db id), db)
  | ClaimPC.returned res => (ClaimPC.returned res, db)

/-- An upper bound on the statements a worker still has to execute. -/
def ClaimPC.stepsLeft : ClaimPC → Nat
  | ClaimPC.start => 3
  | ClaimPC.selected _ => 2
  | ClaimPC.updated _ => 1
  | ClaimPC.returned _ => 0

/-- The workers of a pool (numbered from 0) and the table they share. -/
structure Pool where
  db : Store
  workers : Nat → ClaimPC

/-- All `n` workers about to call `ClaimNextPending`. -/
def Pool.init (db : Store) : Pool := { db := db, workers := fun _ => ClaimPC.start }

/-- Worker `i` of `n` executes its next statement. -/
def Pool.step (n : Nat) (p : Pool) (i : Nat) (now : Int) : Pool :=
  if i < n then
    let s := claimStep p.db now (p.workers i)
    { db := s.2, workers := fun j => if j = i then s.1 else p.workers j }
  else p

/-- An interleaving: which worker moves at which clock reading, in order. -/
def Pool.run (n : Nat) : Pool → List (Nat × Int) → Pool
  | p, [] => p
  | p, (i, now) :: rest => Pool.run n (Pool.step n p i now) rest

/-- An interleaving of four workers, three statements each. -/
def sampleSchedule : List (Nat × Int) :=
  [(0, 200000000000), (1, 200000000000), (2, 200000000000), (1, 201000000000),
   (3, 201000000000), (0, 201000000000), (1, 202000000000), (2, 202000000000),
   (3, 202000000000), (2, 203000000000), (0, 203000000000), (3, 203000000000)]

/-- What the pool looks like while the single eligible row `R` of `db` is being
claimed: nobody has updated yet, or exactly one worker `w` has. -/
def ClaimInv (n : Nat) (db : Store) (R : ImageGenerationTask) (p : Pool) : Prop :=
  (p.db = db ∧ ∀ i < n, p.workers i = ClaimPC.start ∨ p.workers i = ClaimPC.selected R) ∨
  (∃ w < n, ∃ stamp,
    p.db = db.map (fun q => if q.id = R.id then claimed R stamp else q) ∧
    (p.workers w = ClaimPC.updated R.id ∨
      p.workers w = ClaimPC.returned (ClaimResult.task (claimed R stamp))) ∧
    ∀ i < n, i ≠ w →
      (p.workers i = ClaimPC.start ∨ p.workers i = ClaimPC.selected R ∨
        p.workers i = ClaimPC.returned ClaimResult.null))

end TaskStore

namespace ImageWorker

open TaskStore

/-! ## Errors and the retry classifier (`service/image_task_service.go`) -/

/-- A non-nil Go `error`: its message, whether it is the sentinel
`context.DeadlineExceeded` itself, and whether it is a `net.Error` whose `Timeout()`
is true. -/
structure GoError where
  msg : String
  isDeadlineExceeded : Bool
  isNetTimeout : Bool
  deriving DecidableEq, Repr

/-- An error made by `fmt.Errorf`: a new value, neither the sentinel nor a
`net.Error`, also when it wraps one with `%w`. -/
def errorf (msg : String) : GoError :=
  { msg := msg, isDeadlineExceeded := false, isNetTimeout := false }

/-- The UTF-8 bytes of one character. -/
def utf8Bytes (c : Char) : List Nat :=
  let n := c.toNat
  if n < 128 then [n]
  else if n < 2048 then [192 + n / 64, 128 + n % 64]
  else if n < 65536 then [224 + n / 4096, 128 + (n / 64) % 64, 128 + n % 64]
  else [240 + n / 262144, 128 + (n / 4096) % 64, 128 + (n / 64) % 64, 128 + n % 64]

/-- A Go string is its sequence of bytes. -/
def goBytes (s : String) : List Nat := s.toList.flatMap utf8Bytes

/-- The helper `toLower` (lines 324-334): bytes `A`..`Z` are moved to `a`..`z`. -/
def toLower (s : List Nat) : List Nat :=
  s.map (fun c => if 65 ≤ c ∧ c ≤ 90 then c + 32 else c)

/-- The helper `containsIgnoreCase` (lines 312-321): the loop over `i` from 0 to
`len(s) - len(substr)` comparing `s[i:i+len(substr)]` with `substr`. -/
def containsIgnoreCase (s substr : List Nat) : Bool :=
  let s := toLower s
  let substr := toLower substr
  (List.range (s.length + 1 - substr.length)).any
    (fun i => (s.drop i).take substr.length == substr)

/-- The helper `contains` (lines 306-309). -/
def contains (s substr : List Nat) : Bool :=
  decide (s.length ≥ substr.length) &&
    (s == substr || (decide (s.length > substr.length) && containsIgnoreCase s substr))

/-- The list `retryableStatusCodes` of `isRetryableImageError`. -/
def retryableStatusCodes : List String :=
  ["status 429", "status 502", "status 503", "status 504", "status 408"]

/-- The list `retryableKeywords` of `isRetryableImageError`. -/
def retryableKeywords : List String :=
  ["timeout", "deadline exceeded", "connection refused", "connection reset",
   "temporary failure", "rate limit", "too many requests"]

/-- The method `isRetryableImageError` (lines 208-260); `none` is a nil error. -/
def isRetryableImageError (err : Option GoError) : Bool :=
  match err with
  | none => false
  | some e =>
    if e.isDeadlineExceeded then true
    else if e.isNetTimeout then true
    else if retryableStatusCodes.any (fun code => contains (goBytes e.msg) (goBytes code)) then true
    else if retryableKeywords.any (fun kw => contains (goBytes e.msg) (goBytes kw)) then true
    else false

/-- Go `time.Second` in nanoseconds. -/
def second : Int := 1000000000

/-- Go conversion of a float to `time.Duration`: the fraction is dropped. -/
def truncate (q : ℚ) : Int := Int.tdiv q.num q.den

/-- The method `pickImageTaskRetryDelay` (lines 263-280).  `draw` is the value of
`rand.Float64()`; the float arithmetic is carried out exactly, on rationals. -/
def pickImageTaskRetryDelay (attempts : Int) (draw : ℚ) : Int :=
  let baseDelay : Int :=
    if attempts = 0 then 10 * second
    else if attempts = 1 then 30 * second
    else 2 * (60 * second)
  let jitter : ℚ := (baseDelay : ℚ) * (2 / 10)
  let jitterAmount : Int := truncate (draw * jitter * 2 - jitter)
  baseDelay + jitterAmount

/-! ## Artifact sink (`service/image_storage_service.go`) -/

/-- The loop of `StoreGeneratedImages` from position `i`: `storeImage i img` is the outcome
of storing the image at position `i`; a failure keeps the original URL. -/
def storeEach (storeImage : Nat → String → Except GoError String) :
    Nat → List String → List String
  | _, [] => []
  | i, img :: rest =>
    match storeImage i img with
    | Except.error _ => img :: storeEach storeImage (i + 1) rest
    | Except.ok url => url :: storeEach storeImage (i + 1) rest

/-- The method `StoreGeneratedImages` (lines 102-120): the list it returns and its error
value. -/
def StoreGeneratedImages (storeImage : Nat → String → Except GoError String)
    (images : List String) : List String × Option GoError :=
  if images.length = 0 then ([], none)
  else (storeEach storeImage 0 images, none)

/-! ## Provider adapters (`service/image_generation_service.go`) -/

/-- The constants of packages `constant` and `common` that the service reads. -/
structure Constants where
  ChannelTypeOpenAI : Int
  ChannelTypeAzure : Int
  ChannelTypeCustom : Int
  ChannelTypeGemini : Int
  ChannelTypeVertexAi : Int
  ChannelStatusEnabled : Int

/-- What the service reads of a `model.Channel`; `nextKey` is what
`GetNextEnabledKey` returns for it: a key, or the non-nil `Err` of its error. -/
structure Channel where
  id : Int
  type : Int
  status : Int
  nextKey : Except GoError String

/-- One HTTP exchange of an adapter as the adapter observes it, with the decoded
JSON body when a response arrived. -/
inductive HttpExchange (α : Type) where
  | marshalFailed (e : GoError)
  | newRequestFailed (e : GoError)
  | doFailed (e : GoError)
  | readFailed (e : GoError)
  | response (statusCode : Int) (body : String) (decoded : Except GoError α)

/-- One element of `data` in an OpenAI-style response. -/
structure OpenAIDatum where
  url : String
  b64JSON : String

/-- The decoded OpenAI-style response; `error` holds the message of a non-null
`error` object. -/
structure OpenAIResponse where
  data : List OpenAIDatum
  error : Option String

/-- The extraction loop of `generateOpenAI` (lines 228-236). -/
def openAIImageURLs : List OpenAIDatum → List String
  | [] => []
  | item :: rest =>
    if item.url ≠ "" then item.url :: openAIImageURLs rest
    else if item.b64JSON ≠ "" then
      ("data:image/png;base64," ++ item.b64JSON) :: openAIImageURLs rest
    else openAIImageURLs rest

/-- The common head of both adapters after the request is built: key, transport,
status check, decoding, `error` object.  Yields the decoded response. -/
def adapterResponse {α : Type} (apiError : α → Option String) (channel : Channel)
    (exchange : HttpExchange α) : Except GoError α :=
  match channel.nextKey with
  | Except.error e => Except.error e
  | Except.ok _ =>
    match exchange with
    | HttpExchange.marshalFailed e =>
      Except.error (errorf ("marshal request body failed: " ++ e.msg))
    | HttpExchange.newRequestFailed e =>
      Except.error (errorf ("create request failed: " ++ e.msg))
    | HttpExchange.doFailed e => Except.error (errorf ("request failed: " ++ e.msg))
    | HttpExchange.readFailed e => Except.error (errorf ("read response failed: " ++ e.msg))
    | HttpExchange.response statusCode body decoded =>
      if statusCode ≠ 200 then
        Except.error (errorf ("request failed with status " ++ toString statusCode ++ ": " ++ body))
      else
        match decoded with
        | Except.error e => Except.error (errorf ("unmarshal response failed: " ++ e.msg))
        | Except.ok response =>
          match apiError response with
          | some message => Except.error (errorf ("api error: " ++ message))
          | none => Except.ok response

/-- The method `generateOpenAI` (lines 130-243) on the outcome of its HTTP exchange. -/
def generateOpenAI (channel : Channel) (exchange : HttpExchange OpenAIResponse) :
    Except GoError (List String) :=
  match adapterResponse (fun r => r.error) channel exchange with
  | Except.error e => Except.error e
  | Except.ok response =>
    let imageURLs := openAIImageURLs response.data
    if imageURLs.length = 0 then Except.error (errorf "no images returned")
    else Except.ok imageURLs

/-- The `inlineData` object of a Gemini part. -/
structure GeminiInlineData where
  mimeType : String
  data : String

/-- The `fileData` object of a Gemini part. -/
structure GeminiFileData where
  fileURI : String
  mimeType : String

/-- One element of `candidates[].content.parts`. -/
structure GeminiPart where
  text : String
  inlineData : Option GeminiInlineData
  fileData : Option GeminiFileData

/-- The decoded Gemini response: the parts of each candidate, and the message of a
non-null `error` object. -/
structure GeminiResponse where
  candidates : List (List GeminiPart)
  error : Option String

/-- The body of the inner extraction loop of `generateGemini` (lines 400-411). -/
def geminiPartURL (part : GeminiPart) : Option String :=
  match part.inlineData with
  | some inline =>
    if inline.data ≠ "" then
      let mimeType := if inline.mimeType = "" then "image/png" else inline.mimeType
      some ("data:" ++ mimeType ++ ";base64," ++ inline.data)
    else
      match part.fileData with
      | some file => if file.fileURI ≠ "" then some file.fileURI else none
      | none => none
  | none =>
    match part.fileData with
    | some file => if file.fileURI ≠ "" then some file.fileURI else none
    | none => none

/-- The extraction loops of `generateGemini` (lines 397-413). -/
def geminiImageURLs (candidates : List (List GeminiPart)) : List String :=
  (candidates.flatMap id).filterMap geminiPartURL

/-- The method `generateGemini` (lines 246-420) on the outcome of its HTTP exchange. -/
def generateGemini (channel : Channel) (exchange : HttpExchange GeminiResponse) :
    Except GoError (List String) :=
  match adapterResponse (fun r => r.error) channel exchange with
  | Except.error e => Except.error e
  | Except.ok response =>
    let imageURLs := geminiImageURLs response.candidates
    if imageURLs.length = 0 then Except.error (errorf "no images returned")
    else Except.ok imageURLs

/-- Everything outside the process that one generation observes: the ability and
channel lookups of `selectChannel`, the HTTP exchange of each adapter, the storage
service (`none` when `storageService` is nil) with the outcome of storing each image,
and the value of a panic raised during the call, if any. -/
structure World where
  ability : Except GoError Int
  getChannelById : Int → Except GoError Channel
  openAI : HttpExchange OpenAIResponse
  gemini : HttpExchange GeminiResponse
  storage : Option (Nat → String → Except GoError String)
  panicValue : Option String

/-- The method `selectChannel` (lines 99-127). -/
def selectChannel (c : Constants) (w : World) (modelID : String) : Except GoError Channel :=
  match w.ability with
  | Except.error e =>
    Except.error (errorf ("no available channel for model " ++ modelID ++ ": " ++ e.msg))
  | Except.ok channelId =>
    match w.getChannelById channelId with
    | Except.error e => Except.error (errorf ("get channel failed: " ++ e.msg))
    | Except.ok channel =>
      if channel.status ≠ c.ChannelStatusEnabled then
        Except.error (errorf ("channel " ++ toString channel.id ++ " is not enabled"))
      else Except.ok channel

/-- The method `Generate` (lines 30-96).  The deadline of its context shows in the
outcome of the HTTP exchange; the default `task.Count = 1` only shapes the request. -/
def Generate (c : Constants) (w : World) (task : ImageGenerationTask) :
    Except GoError (List String) :=
  if task.prompt = "" then Except.error (errorf "prompt is required")
  else if task.modelID = "" then Except.error (errorf "model_id is required")
  else
    match selectChannel c w task.modelID with
    | Except.error e => Except.error (errorf ("select channel failed: " ++ e.msg))
    | Except.ok channel =>
      let generated :=
        if channel.type = c.ChannelTypeOpenAI ∨ channel.type = c.ChannelTypeAzure ∨
            channel.type = c.ChannelTypeCustom then generateOpenAI channel w.openAI
        else if channel.type = c.ChannelTypeGemini ∨ channel.type = c.ChannelTypeVertexAi then
          generateGemini channel w.gemini
        else generateOpenAI channel w.openAI
      match generated with
      | Except.error e => Except.error e
      | Except.ok imageURLs =>
        match w.storage with
        | none => Except.ok imageURLs
        | some storeImage =>
          match StoreGeneratedImages storeImage imageURLs with
          | (_, some _) => Except.ok imageURLs
          | (storedURLs, none) => Except.ok storedURLs

/-! ## The worker's process step (`processTask`, lines 142-205) -/

/-- The method `processTask` on the table.  `now` is the clock reading of the step, `draw` the
jitter draw of a retry.  Store writes succeed. -/
def processTask (c : Constants) (maxRetries : Int) (w : World) (draw : ℚ) (db : Store)
    (task : ImageGenerationTask) (now : Int) : Store :=
  if task.attempts ≥ maxRetries then
    MarkFailed db task.id ("max retries (" ++ toString maxRetries ++ ") exceeded") now
  else
    match w.panicValue with
    | some v => MarkFailed db task.id ("panic during task processing: " ++ v) now
    | none =>
      match Generate c w task with
      | Except.error err =>
        if isRetryableImageError (some err) && decide (task.attempts + 1 < maxRetries) then
          let delay := pickImageTaskRetryDelay (task.attempts + 1) draw
          ScheduleRetry db task.id (now + delay) err.msg now
        else MarkFailed db task.id err.msg now
      | Except.ok imageURLs => MarkSuccess db task.id imageURLs now

/-! ## Task creation (`controller/image.go`, lines 39-90) -/

/-- The request body of `CreateImageTask`. -/
structure CreateImageTaskRequest where
  model : String
  prompt : String
  resolution : String
  aspectRatio : String
  referenceImage : String
  count : Int

/-- The defaults and the clamp of lines 39-51. -/
def applyDefaults (req : CreateImageTaskRequest) : CreateImageTaskRequest :=
  let req := if req.resolution = "" then { req with resolution := "1K" } else req
  let req := if req.aspectRatio = "" then { req with aspectRatio := "1:1" } else req
  let req := if req.count ≤ 0 then { req with count := 1 } else req
  if req.count > 4 then { req with count := 4 } else req

/-- The task record built in lines 70-85 for an admitted request. -/
def newImageTask (userID : Int) (req : CreateImageTaskRequest) (taskID : String) (now : Int) :
    ImageGenerationTask :=
  let req := applyDefaults req
  { id := taskID, userID := userID, modelID := req.model, prompt := req.prompt,
    resolution := req.resolution, aspectRatio := req.aspectRatio,
    referenceImage := req.referenceImage, count := req.count, status := "pending",
    errorMessage := "", imageURLs := [], attempts := 0, lastError := "",
    nextAttemptAt := none, createdAt := unixSec now, updatedAt := unixSec now,
    completedAt := none }

/-! ## The engine as a transition system -/

/-- What can happen to the table while the engine runs: an admitted create request is
stored, a worker claims, a worker's process step runs for a task it holds, the zombie
detector sweeps. -/
inductive EngineEvent where
  | create (userID : Int) (req : CreateImageTaskRequest) (taskID : String)
  | claim (skipLocked : Bool)
  | process (task : ImageGenerationTask) (w : World) (draw : ℚ)
  | sweep (staleAfter : Int)

/-- The table after one event at clock reading `now`. -/
def engineStep (c : Constants) (maxRetries : Int) (db : Store) (now : Int) :
    EngineEvent → Store
  | EngineEvent.create userID req taskID =>
    (TaskStore.Insert db (newImageTask userID req taskID now) now).2
  | EngineEvent.claim skipLocked => (ClaimNextPending skipLocked db now now).2
  | EngineEvent.process task w draw => processTask c maxRetries w draw db task now
  | EngineEvent.sweep staleAfter => (ResetZombieRunning db staleAfter now now).2

/-- The table after a sequence of events, each with its clock reading. -/
def engineRun (c : Constants) (maxRetries : Int) : Store → List (EngineEvent × Int) → Store
  | db, [] => db
  | db, (ev, now) :: rest => engineRun c maxRetries (engineStep c maxRetries db now ev) rest

/-- Invariant I1 on a table: a succeeded row has at least one image URL and a
`completed_at`. -/
def SucceededComplete (db : Store) : Prop :=
  ∀ r ∈ db, r.status = "succeeded" → r.imageURLs ≠ [] ∧ r.completedAt ≠ none

/-- The channel constants as the upstream project defines them. -/
def sampleConstants : Constants :=
  { ChannelTypeOpenAI := 1, ChannelTypeAzure := 3, ChannelTypeCustom := 8,
    ChannelTypeGemini := 24, ChannelTypeVertexAi := 41, ChannelStatusEnabled := 1 }

/-- A world in which the provider answers `{"data":[{"url":"https://x/1.png"}]}` and no
storage service is configured. -/
def sampleWorld : World :=
  { ability := Except.ok 7
    getChannelById := fun id =>
      Except.ok { id := id, type := 1, status := 1, nextKey := Except.ok "sk-test" }
    openAI := HttpExchange.response 200 "" (Except.ok
      { data := [{ url := "https://x/1.png", b64JSON := "" }], error := none })
    gemini := HttpExchange.doFailed (errorf "unused")
    storage := none
    panicValue := none }

end ImageWorker

namespace TaskStore

/-! ## Row-by-row comparison of tables -/

/-- Row-by-row relation between a table and the table after a transition that
keeps the rows in place. -/
def Rowwise (R : ImageGenerationTask → ImageGenerationTask → Prop) (db db' : Store) : Prop :=
  List.Forall₂ R db db'

/-- A status change that only ever leads from `pending` to `running`. -/
def OnlyPendingToRunning (r r' : ImageGenerationTask) : Prop :=
  r'.id = r.id ∧ (r'.status = r.status ∨ (r.status = "pending" ∧ r'.status = "running"))

/-- Agreement of two rows on the fields a terminal write is compared on: all the
fields named in the idempotence property except `completed_at`. -/
def SameOutcome (a b : ImageGenerationTask) : Prop :=
  b.id = a.id ∧ b.status = a.status ∧ b.errorMessage = a.errorMessage ∧
    b.lastError = a.lastError ∧ b.nextAttemptAt = a.nextAttemptAt ∧
    b.attempts = a.attempts ∧ b.imageURLs = a.imageURLs

end TaskStore

namespace ImageWorker

open TaskStore

/-! ## Invariant I2 and the errors of the key-rotation hook -/

/-- Invariant I2 on a table: a failed row has an error message and no
`next_attempt_at`. -/
def FailedComplete (db : Store) : Prop :=
  ∀ r ∈ db, r.status = "failed" → r.errorMessage ≠ "" ∧ r.nextAttemptAt = none

/-- The errors that `GetNextEnabledKey` returns in this world carry a non-empty
message.  It is the one error `Generate` passes on without wrapping it. -/
def KeyErrorsNamed (w : World) : Prop :=
  ∀ (id : Int) (channel : Channel) (e : GoError),
    w.getChannelById id = Except.ok channel → channel.nextKey = Except.error e → e.msg ≠ ""

/-- A world in which the provider answers `401 unauthorized`. -/
def unauthorizedWorld : World :=
  { sampleWorld with openAI := HttpExchange.response 401 "unauthorized" (Except.error (errorf "")) }

end ImageWorker

namespace ImageWorker

open TaskStore

/-! ## Worlds with a failing provider -/

/-- A world in which the provider answers `503` with the body `upstream busy`. -/
def busyWorld : World :=
  { sampleWorld with openAI := HttpExchange.response 503 "upstream busy" (Except.error (errorf "")) }

end ImageWorker

namespace ImageWorker

open TaskStore

/-! ## One worker and the zombie detector, step by step -/

/-- The table together with the task the worker holds between `ClaimNextPending` and the
end of `processTask`. -/
structure WorkerState where
  db : Store
  held : Option ImageGenerationTask

/-- The steps of a sequential run: a create request is stored, the worker's ticker case
claims (lines 121-132), the worker runs `processTask` on the task it claimed (line 136)
in a world that decides the generation outcome, the zombie detector sweeps. -/
inductive WorkerStep where
  | create (userID : Int) (req : CreateImageTaskRequest) (taskID : String)
  | claim (skipLocked : Bool)
  | process (w : World) (draw : ℚ)
  | sweep (staleAfter : Int)

/-- One step at clock reading `now`.  The worker claims only when it holds no task, and
`processTask` runs on the task it holds. -/
def workerStep (c : Constants) (maxRetries : Int) (s : WorkerState) (now : Int) :
    WorkerStep → WorkerState
  | WorkerStep.create userID req taskID =>
    { s with db := (TaskStore.Insert s.db (newImageTask userID req taskID now) now).2 }
  | WorkerStep.claim skipLocked =>
    match s.held with
    | some _ => s
    | none =>
      match ClaimNextPending skipLocked s.db now now with
      | (ClaimResult.task t, db) => { db := db, held := some t }
      | (_, db) => { db := db, held := none }
  | WorkerStep.process w draw =>
    match s.held with
    | none => s
    | some t => { db := processTask c maxRetries w draw s.db t now, held := none }
  | WorkerStep.sweep staleAfter =>
    { s with db := (ResetZombieRunning s.db staleAfter now now).2 }

/-- A sequential run: the steps one after the other, each with its clock reading. -/
def workerRun (c : Constants) (maxRetries : Int) :
    WorkerState → List (WorkerStep × Int) → WorkerState
  | s, [] => s
  | s, (step, now) :: rest => workerRun c maxRetries (workerStep c maxRetries s now step) rest

/-- The columns `id` and `attempts` of the table. -/
def ledger (db : Store) : List (String × Int) := db.map (fun r => (r.id, r.attempts))

/-- The effect of `ScheduleRetry` on one entry of the ledger. -/
def bump (taskID : String) (p : String × Int) : String × Int :=
  if p.1 == taskID then (p.1, p.2 + 1) else p

/-- The ledger is within bounds, gives one count per id, and lists the held task with
the count the worker read. -/
def AttemptsInv (maxRetries : Int) (l : List (String × Int))
    (held : Option ImageGenerationTask) : Prop :=
  (∀ p ∈ l, 0 ≤ p.2 ∧ p.2 < maxRetries) ∧
  (∀ p ∈ l, ∀ q ∈ l, p.1 = q.1 → p.2 = q.2) ∧
  (∀ h, held = some h → (h.id, h.attempts) ∈ l)

/-- Every id of the first ledger is in the second with a count at least as large. -/
def Grows (l l' : List (String × Int)) : Prop :=
  ∀ p ∈ l, ∃ q ∈ l', q.1 = p.1 ∧ p.2 ≤ q.2

/-- A create request for one image of a cat. -/
def sampleRequest : CreateImageTaskRequest :=
  { model := "m1", prompt := "cat", resolution := "", aspectRatio := "", referenceImage := "",
    count := 0 }

/-- A run that stores a task at second 100 and claims it at second 101. -/
def sampleStepsBefore : List (WorkerStep × Int) :=
  [(WorkerStep.create 1 sampleRequest "t1", 100000000000),
   (WorkerStep.claim false, 101000000000)]

/-- The run continued: the provider answers `503` at second 102 and the zombie detector
sweeps at second 900. -/
def sampleStepsAfter : List (WorkerStep × Int) :=
  [(WorkerStep.process busyWorld (1 / 2), 102000000000),
   (WorkerStep.sweep 600000000000, 900000000000)]

end ImageWorker

namespace ImageWorker

open TaskStore

/-! ## The ticker case of the worker loop -/

/-- One firing of a worker's ticker: the clock reading of `ClaimNextPending`, the clock
reading of the store write that ends `processTask`, the world that decides the
generation outcome, and the jitter draw. -/
structure Tick where
  now : Int
  later : Int
  w : World
  draw : ℚ

/-- The ticker case of `workerLoop` (lines 121-136): claim, and run `processTask` on the
claimed task.  Returns the table and whether `processTask` ran. -/
def workerTick (c : Constants) (maxRetries : Int) (skipLocked : Bool) (db : Store)
    (tk : Tick) : Store × Bool :=
  match ClaimNextPending skipLocked db tk.now tk.now with
  | (ClaimResult.task task, db') =>
    (processTask c maxRetries tk.w tk.draw db' task tk.later, true)
  | (_, db') => (db', false)

/-- A sequence of firings: the table afterwards and the number of runs of
`processTask`. -/
def tickRun (c : Constants) (maxRetries : Int) (skipLocked : Bool) :
    Store → List Tick → Store × Nat
  | db, [] => (db, 0)
  | db, tk :: rest =>
    ((tickRun c maxRetries skipLocked (workerTick c maxRetries skipLocked db tk).1 rest).1,
      (if (workerTick c maxRetries skipLocked db tk).2 then 1 else 0) +
        (tickRun c maxRetries skipLocked (workerTick c maxRetries skipLocked db tk).1 rest).2)

/-- The generation of `task` in world `w` fails with a retryable error. -/
def FailsRetryably (c : Constants) (w : World) (task : ImageGenerationTask) : Prop :=
  w.panicValue = none ∧
    ∃ e, Generate c w task = Except.error e ∧ isRetryableImageError (some e) = true

/-- Firings that wait for the task: the first comes at `ready` or later, each next one
at least 144 s (the largest backoff delay) after the previous `processTask` ended, and
every draw lies in [0, 1). -/
def Spaced : Int → List Tick → Prop
  | _, [] => True
  | ready, tk :: rest =>
    ready ≤ tk.now ∧ 0 ≤ tk.draw ∧ tk.draw < 1 ∧ Spaced (tk.later + 144 * second) rest

/-- The table after `CreateImageTask` stored one task in the empty table. -/
def freshTable (userID : Int) (req : CreateImageTaskRequest) (taskID : String) (t0 : Int) :
    Store :=
  (TaskStore.Insert [] (newImageTask userID req taskID t0) t0).2

/-- Three firings in which the provider answers `503`, at seconds 101, 300 and 600. -/
def busyTicks : List Tick :=
  [{ now := 101000000000, later := 102000000000, w := busyWorld, draw := 1 / 2 },
   { now := 300000000000, later := 301000000000, w := busyWorld, draw := 1 / 2 },
   { now := 600000000000, later := 601000000000, w := busyWorld, draw := 1 / 2 }]

end ImageWorker

namespace RateLimit

/-! ## The background sweeper (`cleanExpiredMemoryRPMSlots`, lines 117-130) -/

/-- The function `cleanExpiredMemoryRPMSlots` on the map, `now` its clock reading: a
slot whose newest timestamp is more than 10 minutes old is deleted. -/
def cleanExpiredMemoryRPMSlots (memory : String → Option (List Int)) (now : Int) :
    String → Option (List Int) :=
  fun key =>
    match memory key with
    | none => none
    | some timestamps =>
      match timestamps.getLast? with
      | some newest =>
        if unixMilli now - newest > 10 * 60 * 1000 then none else some timestamps
      | none => some timestamps

end RateLimit

namespace ImageWorker

open TaskStore

/-! ## Go strings and JSON values -/

/-- Go `strings.HasPrefix`. -/
def hasPrefix (s pre : String) : Bool := pre.data.isPrefixOf s.data

/-- Go `strings.TrimPrefix`. -/
def trimPrefix (s pre : String) : String :=
  if hasPrefix s pre then ⟨s.data.drop pre.data.length⟩ else s

/-- Go `strings.TrimRight(s, "/")`: the trailing slashes are removed. -/
def trimRightSlash (s : String) : String :=
  ⟨(s.data.reverse.dropWhile (fun c => c == '/')).reverse⟩

/-- Go `strings.Contains(s, sep)` for a separator of one ASCII character. -/
def containsChar (s : String) (sep : Char) : Bool := s.data.contains sep

/-- Go `strings.SplitN(s, sep, 2)` for a separator of one ASCII character: `[s]` when
`sep` does not occur, else the text before and the text after its first occurrence. -/
def splitN2 (s : String) (sep : Char) : List String :=
  if s.data.contains sep then
    [⟨s.data.takeWhile (fun c => c != sep)⟩, ⟨(s.data.dropWhile (fun c => c != sep)).drop 1⟩]
  else [s]

/-- Go `strings.Split(s, sep)[0]` for a separator of one ASCII character. -/
def splitHead (s : String) (sep : Char) : String :=
  ⟨s.data.takeWhile (fun c => c != sep)⟩

/-- A JSON value as the adapters build it: `interface{}` holding a string, an int, a
slice or a `map[string]interface{}`. -/
inductive Json where
  | str (s : String)
  | num (n : Int)
  | arr (items : List Json)
  | obj (fields : List (String × Json))

/-- Go `m[key] = value` on a map kept as its list of entries. -/
def setKey (m : List (String × Json)) (key : String) (value : Json) : List (String × Json) :=
  m.filter (fun e => e.1 != key) ++ [(key, value)]

/-- Go `m[key]` with its `ok` flag. -/
def getKey (m : List (String × Json)) (key : String) : Option Json :=
  (m.find? (fun e => e.1 == key)).map (fun e => e.2)

/-- What an adapter hands to `http.NewRequestWithContext`: the endpoint and the request
body before `common.Marshal`. -/
structure HttpRequest where
  endpoint : String
  body : List (String × Json)

/-! ## The requests of the adapters -/

/-- The request of `generateOpenAI` (lines 142-171); `baseURL` is the channel's base
URL after the fallback of lines 131-134. -/
def openAIRequest (baseURL : String) (task : ImageGenerationTask) : HttpRequest :=
  if task.referenceImage ≠ "" then
    let requestBody :=
      [("image", Json.str task.referenceImage), ("prompt", Json.str task.prompt),
       ("n", Json.num task.count)]
    let requestBody :=
      if task.resolution ≠ "" then setKey requestBody "size" (Json.str task.resolution)
      else requestBody
    { endpoint := trimRightSlash baseURL ++ "/v1/images/edits", body := requestBody }
  else
    let requestBody :=
      [("prompt", Json.str task.prompt), ("model", Json.str task.modelID),
       ("n", Json.num task.count)]
    let requestBody :=
      if task.resolution ≠ "" then setKey requestBody "size" (Json.str task.resolution)
      else requestBody
    let requestBody :=
      if task.aspectRatio ≠ "" then setKey requestBody "aspect_ratio" (Json.str task.aspectRatio)
      else requestBody
    { endpoint := trimRightSlash baseURL ++ "/v1/images/generations", body := requestBody }

/-- The map `imageConfig` of `generateGemini` (lines 276-285). -/
def geminiImageConfig (task : ImageGenerationTask) : List (String × Json) :=
  let imageConfig : List (String × Json) := []
  let imageConfig :=
    if task.resolution ≠ "" then setKey imageConfig "resolution" (Json.str task.resolution)
    else imageConfig
  let imageConfig :=
    if task.aspectRatio ≠ "" then setKey imageConfig "aspectRatio" (Json.str task.aspectRatio)
    else imageConfig
  if task.count > 1 then setKey imageConfig "numberOfImages" (Json.num task.count)
  else imageConfig

/-- The part that `generateGemini` appends for a reference image (lines 296-327). -/
def geminiReferencePart (referenceImage : String) : Json :=
  if hasPrefix referenceImage "http://" || hasPrefix referenceImage "https://" then
    Json.obj [("fileData", Json.obj [("fileUri", Json.str referenceImage)])]
  else
    let parsed : String × String :=
      if hasPrefix referenceImage "data:" then
        match splitN2 referenceImage ',' with
        | [head, data] =>
          if containsChar head ';' then
            if hasPrefix (splitHead head ';') "data:" then
              (trimPrefix (splitHead head ';') "data:", data)
            else ("image/png", data)
          else ("image/png", data)
        | _ => ("image/png", referenceImage)
      else ("image/png", referenceImage)
    Json.obj [("inlineData",
      Json.obj [("mimeType", Json.str parsed.1), ("data", Json.str parsed.2)])]

/-- The request of `generateGemini` (lines 258-329): the `contents` entry with its
final `parts`, and `generationConfig` when line 275 asks for it. -/
def geminiRequest (baseURL : String) (task : ImageGenerationTask) : HttpRequest :=
  let parts : List Json :=
    if task.referenceImage ≠ "" then
      [Json.obj [("text", Json.str task.prompt)], geminiReferencePart task.referenceImage]
    else [Json.obj [("text", Json.str task.prompt)]]
  let requestBody : List (String × Json) :=
    [("contents", Json.arr [Json.obj [("parts", Json.arr parts)]])]
  let requestBody :=
    if task.resolution ≠ "" ∨ task.aspectRatio ≠ "" ∨ task.count > 1 then
      setKey requestBody "generationConfig"
        (Json.obj [("imageConfig", Json.obj (geminiImageConfig task))])
    else requestBody
  { endpoint :=
      trimRightSlash baseURL ++ "/v1beta/models/" ++ task.modelID ++ ":generateContent",
    body := requestBody }

end ImageWorker

namespace ModelRPM

/-! ## Limiter keys (`service/model_rpm_service.go`) -/

/-- The key that `Acquire` builds (line 73): `rpm:user:{userID}:model:{modelID}`. -/
def acquireKey (userID : Int) (modelID : String) : String :=
  "rpm:user:" ++ toString userID ++ ":model:" ++ modelID

/-- The key that `AcquireWithGroup` builds (lines 125-128). -/
def acquireWithGroupKey (userID : Int) (modelID : String) (group : String) : String :=
  if group ≠ "" then
    "rpm:group:" ++ group ++ ":user:" ++ toString userID ++ ":model:" ++ modelID
  else "rpm:user:" ++ toString userID ++ ":model:" ++ modelID

end ModelRPM

namespace ImageWorker

open TaskStore

/-! ## Go `encoding/base64`: `StdEncoding`, RFC 4648 with padding -/

/-- The alphabet of `base64.StdEncoding`. -/
def base64Alphabet : List Char :=
  "ABCDEFGHIJKLMNOPQRSTUVWXYZabcdefghijklmnopqrstuvwxyz0123456789+/".data

/-- The character of a 6-bit value. -/
def base64Char (v : Nat) : Char := base64Alphabet.getD v 'A'

/-- The 6-bit value of a character of the alphabet (the library's `decodeMap`). -/
def base64Value (c : Char) : Option Nat :=
  if base64Alphabet.indexOf c < 64 then some (base64Alphabet.indexOf c) else none

/-- The characters of `StdEncoding.EncodeToString` for a byte slice. -/
def base64EncodeChars : List Nat → List Char
  | [] => []
  | [a] => [base64Char (a / 4), base64Char (a % 4 * 16), '=', '=']
  | [a, b] =>
    [base64Char (a / 4), base64Char (a % 4 * 16 + b / 16), base64Char (b % 16 * 4), '=']
  | a :: b :: c :: rest =>
    base64Char (a / 4) :: base64Char (a % 4 * 16 + b / 16) ::
      base64Char (b % 16 * 4 + c / 64) :: base64Char (c % 64) :: base64EncodeChars rest

/-- Go `StdEncoding.EncodeToString`. -/
def base64Encode (bytes : List Nat) : String := ⟨base64EncodeChars bytes⟩

/-- The quanta of `StdEncoding.Decode` on input without line breaks: four characters
give three bytes, padding is accepted only in the last quantum, anything else is a
`CorruptInputError` (`none`). -/
def base64DecodeQuanta : List Char → Option (List Nat)
  | [] => some []
  | a :: b :: c :: d :: rest =>
    match base64Value a, base64Value b with
    | some x, some y =>
      if c = '=' then
        if d = '=' ∧ rest = [] then some [x * 4 + y / 16] else none
      else
        match base64Value c with
        | none => none
        | some z =>
          if d = '=' then
            if rest = [] then some [x * 4 + y / 16, y % 16 * 16 + z / 4] else none
          else
            match base64Value d with
            | none => none
            | some v =>
              match base64DecodeQuanta rest with
              | none => none
              | some tail =>
                some ((x * 4 + y / 16) :: (y % 16 * 16 + z / 4) :: (z % 4 * 64 + v) :: tail)
    | _, _ => none
  | _ => none

/-- Go `StdEncoding.DecodeString`: carriage returns and line feeds are skipped;
`none` is a `CorruptInputError`. -/
def base64Decode (s : String) : Option (List Nat) :=
  base64DecodeQuanta (s.data.filter (fun c => c != '\n' && c != '\r'))

/-! ## Reading an image (`parseImageData`, lines 148-207) -/

/-- What `parseImageData` observes of a download: the status code, the outcome of
`io.ReadAll` and the `Content-Type` header. -/
structure DownloadResponse where
  statusCode : Int
  body : Except GoError (List Nat)
  contentType : String

/-- What lies outside `parseImageData`: the outcome of `DoDownloadRequest` for a URL,
and the `CorruptInputError` that `DecodeString` reports for a corrupt input. -/
structure SinkWorld where
  download : String → Except GoError DownloadResponse
  corruptInput : String → GoError

/-- The method `parseImageData`: the bytes of the image and its MIME type. -/
def parseImageData (w : SinkWorld) (imageData : String) : Except GoError (List Nat × String) :=
  if hasPrefix imageData "data:" then
    match splitN2 imageData ',' with
    | [head, payload] =>
      let mimeType :=
        if containsChar head ';' then
          if hasPrefix (splitHead head ';') "data:" then trimPrefix (splitHead head ';') "data:"
          else "image/png"
        else "image/png"
      match base64Decode payload with
      | none =>
        Except.error (errorf ("failed to decode base64: " ++ (w.corruptInput payload).msg))
      | some data => Except.ok (data, mimeType)
    | _ => Except.error (errorf "invalid data URL format")
  else if hasPrefix imageData "http://" || hasPrefix imageData "https://" then
    match w.download imageData with
    | Except.error e => Except.error (errorf ("failed to download image: " ++ e.msg))
    | Except.ok resp =>
      if resp.statusCode ≠ 200 then
        Except.error (errorf ("failed to download image: status " ++ toString resp.statusCode))
      else
        match resp.body with
        | Except.error e => Except.error (errorf ("failed to read image data: " ++ e.msg))
        | Except.ok data =>
          Except.ok (data, if resp.contentType = "" then "image/png" else resp.contentType)
  else
    match base64Decode imageData with
    | none =>
      Except.error (errorf ("failed to decode base64: " ++ (w.corruptInput imageData).msg))
    | some data => Except.ok (data, "image/png")

/-- A sink world without network. -/
def offlineSink : SinkWorld :=
  { download := fun _ => Except.error (errorf "no network"),
    corruptInput := fun _ => errorf "illegal base64 data" }

end ImageWorker

namespace RateLimit

/-! ## Pruning on sorted slots -/

theorem findValidIdx_eq (ws : Int) (l : List Int) (i : Nat) :
    findValidIdx ws l i =
      if (∀ x ∈ l, x ≤ ws) then 0 else i + (l.takeWhile (fun x => decide (x ≤ ws))).length := by
  induction l generalizing i with
  | nil => simp [findValidIdx]
  | cons a rest ih =>
    unfold findValidIdx
    by_cases ha : a > ws
    · have : ¬ (∀ x ∈ a :: rest, x ≤ ws) := by
        intro h
        have := h a (List.mem_cons_self _ _)
        omega
      have hna : ¬ a ≤ ws := by omega
      simp [ha, this, List.takeWhile_cons, hna]
    · have hle : a ≤ ws := by omega
      rw [if_neg ha, ih (i + 1)]
      by_cases hall : ∀ x ∈ rest, x ≤ ws
      · have : ∀ x ∈ a :: rest, x ≤ ws := by
          intro x hx
          rcases List.mem_cons.mp hx with h | h
          · omega
          · exact hall x h
        rw [if_pos hall, if_pos this]
      · have : ¬ ∀ x ∈ a :: rest, x ≤ ws := by
          intro h
          exact hall (fun x hx => h x (List.mem_cons_of_mem _ hx))
        rw [if_neg hall, if_neg this]
        simp [List.takeWhile_cons, hle]
        omega

theorem drop_takeWhile_length (p : Int → Bool) (l : List Int) :
    l.drop (l.takeWhile p).length = l.dropWhile p := by
  induction l with
  | nil => rfl
  | cons a rest ih =>
    by_cases ha : p a = true
    · simp [List.takeWhile_cons, List.dropWhile_cons, ha, ih]
    · simp [List.takeWhile_cons, List.dropWhile_cons, ha]

theorem filter_eq_dropWhile_of_sorted (ws : Int) (l : List Int)
    (hs : l.Pairwise (fun a b => a ≤ b)) :
    l.filter (fun x => decide (x > ws)) = l.dropWhile (fun x => decide (x ≤ ws)) := by
  induction l with
  | nil => rfl
  | cons a rest ih =>
    have hrest := (List.pairwise_cons.mp hs).2
    have hhead := (List.pairwise_cons.mp hs).1
    by_cases ha : a > ws
    · have hna : ¬ a ≤ ws := by omega
      have hall : ∀ x ∈ rest, decide (x > ws) = true := by
        intro x hx
        have := hhead x hx
        simp
        omega
      rw [List.dropWhile_cons]
      simp only [hna, decide_False, Bool.false_eq_true, if_false]
      rw [List.filter_cons]
      simp only [ha, decide_True, if_true]
      rw [List.filter_eq_self.mpr hall]
    · have hle : a ≤ ws := by omega
      rw [List.dropWhile_cons, List.filter_cons]
      simp only [ha, hle, decide_True, decide_False, if_true, Bool.false_eq_true, if_false]
      exact ih hrest

/-- On a sorted slot the pruning loop keeps exactly the timestamps newer than
`windowStart`. -/
theorem pruneTimestamps_eq_filter (ws : Int) (l : List Int)
    (hs : l.Pairwise (fun a b => a ≤ b)) :
    pruneTimestamps l ws = l.filter (newerThan ws) := by
  show pruneTimestamps l ws = l.filter (fun x => decide (x > ws))
  rw [filter_eq_dropWhile_of_sorted ws l hs]
  unfold pruneTimestamps
  simp only [findValidIdx_eq, Nat.zero_add]
  by_cases hall : ∀ x ∈ l, x ≤ ws
  · simp only [if_pos hall, lt_irrefl, if_false]
    have hdrop : l.dropWhile (fun x => decide (x ≤ ws)) = [] := by
      rw [List.dropWhile_eq_nil_iff]
      intro x hx
      simpa using hall x hx
    rw [hdrop]
    cases hl : l.getLast? with
    | none => simpa using hl
    | some newest =>
      have hmem : newest ∈ l := List.mem_of_getLast?_eq_some hl
      simp [hall newest hmem]
  · simp only [if_neg hall]
    by_cases hpos : (l.takeWhile (fun x => decide (x ≤ ws))).length > 0
    · rw [if_pos hpos]
      exact drop_takeWhile_length _ l
    · rw [if_neg hpos]
      cases l with
      | nil => rfl
      | cons a rest =>
        have ha : a > ws := by
          by_contra hna
          have hle : a ≤ ws := by omega
          apply hpos
          simp [List.takeWhile_cons, hle]
        have hna : ¬ a ≤ ws := by omega
        have hlast : ∀ newest, (a :: rest).getLast? = some newest → ¬ newest ≤ ws := by
          intro newest hn
          have hmem : newest ∈ a :: rest := List.mem_of_getLast?_eq_some hn
          rcases List.mem_cons.mp hmem with h | h
          · omega
          · have := (List.pairwise_cons.mp hs).1 newest h
            omega
        rw [List.dropWhile_cons]
        simp only [hna, decide_False, Bool.false_eq_true, if_false]
        cases hl : (a :: rest).getLast? with
        | none => rfl
        | some newest => simp [hlast newest hl]

end RateLimit

namespace RateLimit

/-! ## Whole-millisecond windows -/

theorem unixMilli_sub_window (now w : Int) :
    unixMilli (now - millisToDuration w) = unixMilli now - w := by
  unfold unixMilli millisToDuration
  omega

theorem durationMilliseconds_millis (w : Int) :
    durationMilliseconds (millisToDuration w) = w := by
  unfold durationMilliseconds millisToDuration
  exact Int.mul_tdiv_cancel w (by decide)

theorem unixMilli_mono {a b : Int} (h : a ≤ b) : unixMilli a ≤ unixMilli b := by
  unfold unixMilli
  omega

/-- The in-memory acquire in closed form on a sorted slot: it never panics for
`rpm ≥ 1`, and its result is decided by the number of timestamps newer than
`windowStart`. -/
theorem slotAcquire_sorted (timestamps : List Int) (rpm window now : Int)
    (hsorted : timestamps.Pairwise (fun a b => a ≤ b)) (hrpm : 1 ≤ rpm) :
    ∃ r, slotAcquire timestamps rpm window now = some r ∧
      r.acquired = decide
        (((timestamps.filter (newerThan (unixMilli (now - window)))).length : Int)
          < rpm) ∧
      r.timestamps =
        (if ((timestamps.filter (newerThan (unixMilli (now - window)))).length : Int)
            < rpm
         then timestamps.filter (newerThan (unixMilli (now - window)))
                ++ [unixMilli now]
         else timestamps.filter (newerThan (unixMilli (now - window)))) ∧
      (r.acquired = false →
        ∃ oldest, (timestamps.filter
            (newerThan (unixMilli (now - window)))).head? = some oldest ∧
          r.retryAfter = millisToDuration
            (if oldest + durationMilliseconds window - unixMilli now < 0 then 0
             else oldest + durationMilliseconds window - unixMilli now)) := by
  unfold slotAcquire
  simp only [pruneTimestamps_eq_filter _ _ hsorted]
  generalize hP : timestamps.filter (newerThan (unixMilli (now - window))) = P
  by_cases hlt : (P.length : Int) < rpm
  · simp [hlt]
  · simp only [hlt, if_false]
    cases P with
    | nil => simp at hlt; omega
    | cons a rest => simp

theorem slotAcquire_admitted_retryAfter (timestamps : List Int) (rpm window now : Int)
    (r : SlotResult) (hr : slotAcquire timestamps rpm window now = some r)
    (hacq : r.acquired = true) : r.retryAfter = 0 := by
  unfold slotAcquire at hr
  simp only at hr
  split at hr
  · cases hr; rfl
  · split at hr
    · exact absurd hr (by simp)
    · cases hr
      exact absurd hacq (by simp)

/-- C2: on a slot with sorted timestamps and `rpm ≥ 1`, the in-memory acquire
returns, and it admits exactly when fewer than `rpm` timestamps are left after the
pruning step; on admission the slot holds the pruned list with the current
millisecond timestamp appended, on denial exactly the pruned list.  The pruned list
consists of the stored timestamps newer than `windowStart`. -/
theorem slotAcquire_admits_iff_room (timestamps : List Int) (rpm window now : Int)
    (hsorted : timestamps.Pairwise (fun a b => a ≤ b)) (hrpm : 1 ≤ rpm) :
    ∃ r, slotAcquire timestamps rpm window now = some r ∧
      (r.acquired = true ↔
        ((pruneTimestamps timestamps (unixMilli (now - window))).length : Int) < rpm) ∧
      (r.acquired = true →
        r.timestamps = pruneTimestamps timestamps (unixMilli (now - window)) ++ [unixMilli now]) ∧
      (r.acquired = false →
        r.timestamps = pruneTimestamps timestamps (unixMilli (now - window))) ∧
      pruneTimestamps timestamps (unixMilli (now - window)) =
        timestamps.filter (newerThan (unixMilli (now - window))) := by
  obtain ⟨r, hr, hacq, hts, _⟩ := slotAcquire_sorted timestamps rpm window now hsorted hrpm
  refine ⟨r, hr, ?_, ?_, ?_, pruneTimestamps_eq_filter _ _ hsorted⟩
  · rw [hacq, pruneTimestamps_eq_filter _ _ hsorted]
    simp
  · intro ha
    rw [hacq] at ha
    rw [hts, pruneTimestamps_eq_filter _ _ hsorted, if_pos (by simpa using ha)]
  · intro ha
    rw [hacq] at ha
    rw [hts, pruneTimestamps_eq_filter _ _ hsorted, if_neg (by simpa using ha)]

theorem slotAcquire_admits_iff_room_witness :
    ∃ r, slotAcquire [100000, 101000, 160500] 2 60000000000 161000000000 = some r ∧
      (r.acquired = true ↔
        ((pruneTimestamps [100000, 101000, 160500] (unixMilli (161000000000 - 60000000000))).length
          : Int) < 2) ∧
      (r.acquired = true →
        r.timestamps = pruneTimestamps [100000, 101000, 160500] (unixMilli (161000000000 - 60000000000))
          ++ [unixMilli 161000000000]) ∧
      (r.acquired = false →
        r.timestamps = pruneTimestamps [100000, 101000, 160500]
          (unixMilli (161000000000 - 60000000000))) ∧
      pruneTimestamps [100000, 101000, 160500] (unixMilli (161000000000 - 60000000000)) =
        [100000, 101000, 160500].filter (newerThan (unixMilli (161000000000 - 60000000000))) :=
  slotAcquire_admits_iff_room [100000, 101000, 160500] 2 60000000000 161000000000
    (by decide) (by decide)

/-- C4: for `rpm ≥ 1`, a window of `w` whole milliseconds and sorted timestamps none
newer than the current one, the in-memory acquire returns, and when it denies, the
slot keeps at least one timestamp and `retryAfter` is the oldest retained timestamp
plus the window minus the current millisecond timestamp, a duration in
`(0, window]`. -/
theorem slotAcquire_denied_retryAfter (timestamps : List Int) (rpm w now : Int)
    (hrpm : 1 ≤ rpm)
    (hsorted : timestamps.Pairwise (fun a b => a ≤ b))
    (hpast : ∀ ts ∈ timestamps, ts ≤ unixMilli now) :
    ∃ r, slotAcquire timestamps rpm (millisToDuration w) now = some r ∧
      (r.acquired = false →
        ∃ oldest, r.timestamps.head? = some oldest ∧
          r.retryAfter = millisToDuration (oldest + w - unixMilli now) ∧
          0 < r.retryAfter ∧ r.retryAfter ≤ millisToDuration w) := by
  obtain ⟨r, hr, hacq, hts, hretry⟩ :=
    slotAcquire_sorted timestamps rpm (millisToDuration w) now hsorted hrpm
  refine ⟨r, hr, ?_⟩
  intro hdenied
  obtain ⟨oldest, hhead, hval⟩ := hretry hdenied
  rw [hacq] at hdenied
  have hnot : ¬ ((timestamps.filter
      (newerThan (unixMilli (now - millisToDuration w)))).length : Int) < rpm := by
    simpa using hdenied
  rw [if_neg hnot] at hts
  have hmem : oldest ∈ timestamps.filter
      (newerThan (unixMilli (now - millisToDuration w))) :=
    List.mem_of_mem_head? hhead
  rw [List.mem_filter] at hmem
  have hnew : oldest > unixMilli now - w := by
    have := hmem.2
    rw [unixMilli_sub_window] at this
    simpa [newerThan] using this
  have hold : oldest ≤ unixMilli now := hpast oldest hmem.1
  rw [durationMilliseconds_millis] at hval
  have hpos : ¬ oldest + w - unixMilli now < 0 := by omega
  rw [if_neg hpos] at hval
  refine ⟨oldest, by rw [hts]; exact hhead, hval, ?_, ?_⟩
  · rw [hval]; unfold millisToDuration; omega
  · rw [hval]; unfold millisToDuration; omega

theorem slotAcquire_denied_retryAfter_witness :
    slotAcquire [100000, 101000, 160500] 2 (millisToDuration 60000) 160800000000 =
      some { acquired := false, retryAfter := 200000000, timestamps := [101000, 160500] } ∧
    ∃ r, slotAcquire [100000, 101000, 160500] 2 (millisToDuration 60000) 160800000000 = some r ∧
      (r.acquired = false →
        ∃ oldest, r.timestamps.head? = some oldest ∧
          r.retryAfter = millisToDuration (oldest + 60000 - unixMilli 160800000000) ∧
          0 < r.retryAfter ∧ r.retryAfter ≤ millisToDuration 60000) :=
  ⟨by decide,
   slotAcquire_denied_retryAfter [100000, 101000, 160500] 2 60000 160800000000
    (by decide) (by decide) (by decide)⟩

/-! ## The rolling-window bound -/

theorem admittedIn_cons (c : Int × SlotResult) (tr : List (Int × SlotResult)) (t w : Int) :
    admittedIn (c :: tr) t w =
      admittedIn tr t w +
        (if (c.2.acquired && inWindow t w (unixMilli c.1)) = true
          then 1 else 0) := by
  unfold admittedIn
  rw [List.countP_cons]

theorem admittedIn_eq_zero_of_later (tr : List (Int × SlotResult)) (t w : Int)
    (h : ∀ c ∈ tr.map Prod.fst, t < unixMilli c) : admittedIn tr t w = 0 := by
  unfold admittedIn
  rw [List.countP_eq_zero]
  intro c hc
  have := h c.1 (List.mem_map_of_mem Prod.fst hc)
  simp [inWindow]
  intro _ _
  omega

theorem countP_window_filter (S : List Int) (t w n : Int) (htn : n ≤ t) :
    (S.filter (newerThan (n - w))).countP (inWindow t w) =
      S.countP (inWindow t w) := by
  rw [List.countP_filter]
  apply List.countP_congr
  intro s _
  simp [inWindow, newerThan]
  intro h _
  omega

/-- On a sorted slot no timestamp is above the newest one. -/
theorem le_getLast_of_sorted (S : List Int) (newest : Int)
    (hsorted : S.Pairwise (fun a b => a ≤ b)) (hlast : S.getLast? = some newest) :
    ∀ s ∈ S, s ≤ newest := by
  intro s hs
  rcases List.eq_nil_or_concat S with h | ⟨init, x, h⟩
  · rw [h] at hs
    cases hs
  · rw [List.concat_eq_append] at h
    subst h
    simp at hlast
    subst hlast
    rcases List.mem_append.mp hs with hm | hm
    · rw [List.pairwise_append] at hsorted
      exact hsorted.2.2 s hm x (List.mem_singleton_self _)
    · rw [List.mem_singleton] at hm
      rw [hm]

/-- A sweeper tick leaves the slot as it is, or deletes it because its newest
timestamp is more than 10 minutes old. -/
theorem sweepSlot_cases (S : List Int) (now : Int) :
    sweepSlot S now = S ∨
      (sweepSlot S now = [] ∧
        ∃ newest, S.getLast? = some newest ∧ unixMilli now - newest > 10 * 60 * 1000) := by
  unfold sweepSlot
  cases hlast : S.getLast? with
  | none => exact Or.inl rfl
  | some newest =>
    simp only
    by_cases hold : unixMilli now - newest > 10 * 60 * 1000
    · rw [if_pos hold]
      exact Or.inr ⟨rfl, newest, rfl, hold⟩
    · rw [if_neg hold]
      exact Or.inl rfl

/-- The bound of C1 for windows of at most 10 minutes, from any slot that is sorted,
holds at most `rpm` timestamps and none newer than the events to come; the events are
acquires and sweeper ticks in any order. -/
theorem slotTrace_window_bound (rpm w : Int) (hrpm : 1 ≤ rpm) (hw : w ≤ 10 * 60 * 1000) :
    ∀ (events : List SlotEvent) (S : List Int),
      (events.map SlotEvent.time).Pairwise (fun a b => a ≤ b) →
      S.Pairwise (fun a b => a ≤ b) →
      (∀ s ∈ S, ∀ e ∈ events, s ≤ unixMilli e.time) →
      (S.length : Int) ≤ rpm →
      ∃ tr, slotTrace rpm (millisToDuration w) S events = some tr ∧
        tr.map Prod.fst = acquireTimes events ∧
        (∀ c ∈ acquireTimes events, ∃ e ∈ events, e.time = c) ∧
        ∀ t, ((S.countP (inWindow t w) + admittedIn tr t w : Nat) : Int)
          ≤ rpm := by
  intro events
  induction events with
  | nil =>
    intro S _ _ _ hlen
    refine ⟨[], rfl, rfl, ?_, ?_⟩
    · intro c hc
      cases hc
    · intro t
      have := List.countP_le_length (inWindow t w) (l := S)
      simp only [admittedIn, List.countP_nil, Nat.add_zero]
      omega
  | cons ev rest ih =>
    intro S hevents hsorted hpast hlen
    rw [List.map_cons, List.pairwise_cons] at hevents
    have hrest := hevents.2
    have hlater : ∀ e ∈ rest, ev.time ≤ e.time :=
      fun e he => hevents.1 e.time (List.mem_map_of_mem _ he)
    cases ev with
    | sweep now =>
      have hnowS : ∀ s ∈ S, s ≤ unixMilli now :=
        fun s hs => hpast s hs (SlotEvent.sweep now) (List.mem_cons_self _ _)
      rcases sweepSlot_cases S now with hkeep | ⟨hgone, newest, hlast, hold⟩
      · obtain ⟨tr, htr, hfst, hsrc, hbound⟩ := ih S hrest hsorted
          (fun s hs e he => hpast s hs e (List.mem_cons_of_mem _ he)) hlen
        refine ⟨tr, ?_, ?_, ?_, hbound⟩
        · simp only [slotTrace, hkeep]
          exact htr
        · simpa only [acquireTimes] using hfst
        · intro c hc
          simp only [acquireTimes] at hc
          obtain ⟨e, he, hec⟩ := hsrc c hc
          exact ⟨e, List.mem_cons_of_mem _ he, hec⟩
      · obtain ⟨tr, htr, hfst, hsrc, hbound⟩ := ih [] hrest List.Pairwise.nil
          (fun s hs => absurd hs (List.not_mem_nil _)) (by simp; omega)
        refine ⟨tr, ?_, ?_, ?_, ?_⟩
        · simp only [slotTrace, hgone]
          exact htr
        · simpa only [acquireTimes] using hfst
        · intro c hc
          simp only [acquireTimes] at hc
          obtain ⟨e, he, hec⟩ := hsrc c hc
          exact ⟨e, List.mem_cons_of_mem _ he, hec⟩
        · intro t
          have hb := hbound t
          simp only [List.countP_nil, Nat.zero_add] at hb
          by_cases ht : t < unixMilli now
          · have hzero : admittedIn tr t w = 0 := by
              apply admittedIn_eq_zero_of_later
              rw [hfst]
              intro c hc
              obtain ⟨e, he, hec⟩ := hsrc c hc
              have hle : unixMilli now ≤ unixMilli e.time := unixMilli_mono (hlater e he)
              rw [hec] at hle
              omega
            rw [hzero]
            have := List.countP_le_length (inWindow t w) (l := S)
            omega
          · have hzero : S.countP (inWindow t w) = 0 := by
              rw [List.countP_eq_zero]
              intro s hs
              have := le_getLast_of_sorted S newest hsorted hlast s hs
              simp only [inWindow, decide_eq_true_eq, not_and, not_le]
              intro h1
              omega
            rw [hzero]
            simpa using hb
    | acquire now =>
      obtain ⟨r, hr, hacq, hts, -⟩ :=
        slotAcquire_sorted S rpm (millisToDuration w) now hsorted hrpm
      rw [unixMilli_sub_window] at hacq hts
      have hnow : ∀ e ∈ rest, now ≤ e.time := hlater
      have hPsorted : (S.filter (newerThan (unixMilli now - w))).Pairwise
          (fun a b => a ≤ b) := hsorted.filter _
      have hPpast : ∀ s ∈ S.filter (newerThan (unixMilli now - w)),
          s ≤ unixMilli now := by
        intro s hs
        exact hpast s (List.mem_filter.mp hs).1 (SlotEvent.acquire now) (List.mem_cons_self _ _)
      have hPlen : (S.filter (newerThan (unixMilli now - w))).length ≤ S.length :=
        List.length_filter_le _ _
      have hS'sorted : r.timestamps.Pairwise (fun a b => a ≤ b) := by
        rw [hts]
        split
        · rw [List.pairwise_append]
          refine ⟨hPsorted, List.pairwise_singleton _ _, ?_⟩
          intro a ha b hb
          rw [List.mem_singleton] at hb
          rw [hb]
          exact hPpast a ha
        · exact hPsorted
      have hS'past : ∀ s ∈ r.timestamps, ∀ e ∈ rest, s ≤ unixMilli e.time := by
        intro s hs e he
        have hc' : unixMilli now ≤ unixMilli e.time := unixMilli_mono (hnow e he)
        rw [hts] at hs
        split at hs
        · rcases List.mem_append.mp hs with h | h
          · exact le_trans (hPpast s h) hc'
          · rw [List.mem_singleton] at h
            rw [h]
            exact hc'
        · exact le_trans (hPpast s hs) hc'
      have hS'len : (r.timestamps.length : Int) ≤ rpm := by
        rw [hts]
        split
        · rename_i hlt
          simp
          omega
        · omega
      obtain ⟨tr, htr, hfst, hsrc, hbound⟩ := ih r.timestamps hrest hS'sorted hS'past hS'len
      refine ⟨(now, r) :: tr, ?_, ?_, ?_, ?_⟩
      · simp [slotTrace, hr, htr]
      · simp [hfst, acquireTimes]
      · intro c hc
        simp only [acquireTimes, List.mem_cons] at hc
        rcases hc with rfl | hc
        · exact ⟨SlotEvent.acquire c, List.mem_cons_self _ _, rfl⟩
        · obtain ⟨e, he, hec⟩ := hsrc c hc
          exact ⟨e, List.mem_cons_of_mem _ he, hec⟩
      · intro t
        rw [admittedIn_cons]
        by_cases htn : unixMilli now ≤ t
        · have hb := hbound t
          rw [← countP_window_filter S t w (unixMilli now) htn]
          rw [hts] at hb
          by_cases hlt : ((S.filter (newerThan (unixMilli now - w))).length : Int) < rpm
          · rw [if_pos hlt, List.countP_append, List.countP_singleton] at hb
            simp only [hacq, hlt, decide_True, Bool.true_and]
            omega
          · rw [if_neg hlt] at hb
            simp only [hacq, hlt, decide_False, Bool.false_and, Bool.false_eq_true, if_false]
            omega
        · have hzero : admittedIn tr t w = 0 := by
            apply admittedIn_eq_zero_of_later
            rw [hfst]
            intro c hc
            obtain ⟨e, he, hec⟩ := hsrc c hc
            have := unixMilli_mono (hnow e he)
            rw [hec] at this
            omega
          have hhead : ¬ ((r.acquired && inWindow t w (unixMilli (now, r).1)) = true) := by
            simp [inWindow]
            intro _ _
            omega
          rw [hzero, if_neg hhead]
          have := List.countP_le_length (inWindow t w) (l := S)
          omega

/-- C1. The in-memory limiter breaks the window bound for windows above 10 minutes.
With `rpm = 1` and a 60-minute window, a call at second 100, the sweeper ticks of line
108 five, ten and fifteen minutes later and a call at second 1060 admit both calls: the
third tick deletes the slot, so the interval `(t - window, t]` at `t` = 1060 s holds
the timestamps of two admitted calls.  Without the ticks the second call is denied.
For windows of at most 10 minutes the bound holds: for `rpm ≥ 1`, every run of
acquires and sweeper ticks at non-decreasing clock readings from the empty slot ends
without a panic and has at most `rpm` admitted calls with their millisecond timestamp
in any interval `(t - w, t]`. -/
theorem sweeper_breaks_window_bound :
    (slotTrace 1 (millisToDuration 3600000) []
        [SlotEvent.acquire 100000000000, SlotEvent.sweep 400000000000,
          SlotEvent.sweep 700000000000, SlotEvent.sweep 1000000000000,
          SlotEvent.acquire 1060000000000]).map
        (fun tr => (tr.map (fun c => (unixMilli c.1, c.2.acquired)),
          admittedIn tr 1060000 3600000)) =
      some ([(100000, true), (1060000, true)], 2) ∧
    (slotTrace 1 (millisToDuration 3600000) []
        [SlotEvent.acquire 100000000000, SlotEvent.acquire 1060000000000]).map
        (fun tr => (tr.map (fun c => (unixMilli c.1, c.2.acquired)),
          admittedIn tr 1060000 3600000)) =
      some ([(100000, true), (1060000, false)], 1) ∧
    (∀ (rpm w : Int) (events : List SlotEvent), 1 ≤ rpm → w ≤ 10 * 60 * 1000 →
      (events.map SlotEvent.time).Pairwise (fun a b => a ≤ b) →
      ∃ tr, slotTrace rpm (millisToDuration w) [] events = some tr ∧
        tr.map Prod.fst = acquireTimes events ∧
        ∀ t, (admittedIn tr t w : Int) ≤ rpm) := by
  refine ⟨by decide, by decide, ?_⟩
  intro rpm w events hrpm hw hevents
  obtain ⟨tr, htr, hfst, -, hbound⟩ :=
    slotTrace_window_bound rpm w hrpm hw events [] hevents List.Pairwise.nil
      (fun _ h => absurd h (List.not_mem_nil _)) (by simp; omega)
  refine ⟨tr, htr, hfst, ?_⟩
  intro t
  have := hbound t
  simp at this
  exact_mod_cast this

/-! ## Exactness of `retryAfter` -/

/-- On the slot of one key `sweepSlot` is what `cleanExpiredMemoryRPMSlots` does to the
map: the next acquire reads `(memory key).getD []`. -/
theorem cleanExpiredMemoryRPMSlots_slot (memory : String → Option (List Int)) (key : String)
    (now : Int) :
    (cleanExpiredMemoryRPMSlots memory now key).getD [] =
      sweepSlot ((memory key).getD []) now := by
  unfold cleanExpiredMemoryRPMSlots sweepSlot
  cases hm : memory key with
  | none => rfl
  | some timestamps =>
    simp only [Option.getD_some]
    cases hlast : timestamps.getLast? with
    | none => rfl
    | some newest =>
      simp only
      split <;> rfl

/-- The wait is not kept above 10 minutes: with `rpm = 1` and a 60-minute window a call
at second 100 is denied with `retryAfter` = 3600 s right after the admitted one, and
after the sweeper tick at second 1000 a call at second 1060 is admitted. -/
theorem retryAfter_cut_short_by_sweeper :
    slotAcquire [100000] 1 (millisToDuration 3600000) 100000000000 =
      some { acquired := false, retryAfter := 3600000000000, timestamps := [100000] } ∧
    slotTrace 1 (millisToDuration 3600000) [100000]
        ([1000000000000].map SlotEvent.sweep ++ [SlotEvent.acquire 1060000000000]) =
      some [(1060000000000,
        { acquired := true, retryAfter := 0, timestamps := [1060000] })] := by
  decide

end RateLimit

namespace RateLimit

/-! ## The entry point and the Redis path -/

/-- C3: with `rpm = 0`, `AcquireRPMSlot` returns admitted, a zero `retryAfter` and no
error for every key, window, limiter state, Redis setting and clock reading, and the
limiter state is the one it was called with. -/
theorem AcquireRPMSlot_unlimited (st : Limiter) (useRedis : Bool) (redisErr : Option String)
    (key : String) (window nowRedis nowMemory : Int) :
    AcquireRPMSlot st useRedis redisErr key 0 window nowRedis nowMemory =
      some ({ acquired := true, retryAfter := 0, err := none }, st) := by
  simp [AcquireRPMSlot]

/-- C6 at its failing input: `rpm = 2`, a 60 s window and three calls in the same
millisecond (100000 ms).  The in-memory slot admits two and denies the third with a
60 s `retryAfter`; the Redis script admits all three, because its three `ZADD`s name
the same member and the sorted set never grows beyond one entry. -/
theorem redis_script_admits_repeated_millisecond :
    (slotTrace 2 60000000000 []
        [SlotEvent.acquire 100000000000, SlotEvent.acquire 100000000000,
          SlotEvent.acquire 100000000000]).map
        (fun tr => tr.map (fun c => (c.2.acquired, c.2.retryAfter))) =
      some [(true, 0), (true, 0), (false, 60000000000)] ∧
    redisTrace 2 60000000000 RedisKey.absent [100000000000, 100000000000, 100000000000] =
      [(true, 0), (true, 0), (true, 0)] ∧
    (rpmScript (rpmScript RedisKey.absent 100000 40000 2 60).2 100000 40000 2 60).2.zset =
      [{ member := 100000, score := 100000 }] := by
  decide

/-! ## Where the two paths agree: strictly increasing millisecond timestamps -/

theorem durationSeconds_seconds (ttl : Int) :
    durationSeconds (millisToDuration (ttl * 1000)) = ttl := by
  unfold durationSeconds millisToDuration
  have : ttl * 1000 * 1000000 = ttl * 1000000000 := by ring
  rw [this]
  exact Int.mul_tdiv_cancel ttl (by decide)

theorem zinsert_last (e : ZEntry) (l : List ZEntry) (h : ∀ x ∈ l, x.score ≤ e.score) :
    zinsert e l = l ++ [e] := by
  induction l with
  | nil => rfl
  | cons x rest ih =>
    have hx : ¬ e.score < x.score := by
      have := h x (List.mem_cons_self _ _)
      omega
    simp only [zinsert, if_neg hx, List.cons_append]
    rw [ih (fun y hy => h y (List.mem_cons_of_mem _ hy))]

theorem filter_score_map (S : List Int) (x : Int) :
    (S.map ZEntry.ofStamp).filter (fun e => decide (e.score > x)) =
      (S.filter (newerThan x)).map ZEntry.ofStamp := by
  induction S with
  | nil => rfl
  | cons a rest ih =>
    by_cases ha : a > x
    · simp [List.filter_cons, ZEntry.ofStamp, newerThan, ha] at ih ⊢
      exact ih
    · simp [List.filter_cons, ZEntry.ofStamp, newerThan, ha] at ih ⊢
      exact ih

theorem filter_member_map (P : List Int) (n : Int) (h : ∀ s ∈ P, s < n) :
    (P.map ZEntry.ofStamp).filter (fun e => decide (e.member ≠ n)) = P.map ZEntry.ofStamp := by
  rw [List.filter_eq_self]
  intro e he
  obtain ⟨s, hs, rfl⟩ := List.mem_map.mp he
  have := h s hs
  simp [ZEntry.ofStamp]
  omega

theorem getLast?_filter_newerThan (S : List Int) (x : Int)
    (hsorted : S.Pairwise (fun a b => a ≤ b)) (hne : S.filter (newerThan x) ≠ []) :
    (S.filter (newerThan x)).getLast? = S.getLast? := by
  induction S with
  | nil => rfl
  | cons a rest ih =>
    have hrest := (List.pairwise_cons.mp hsorted).2
    have hhead := (List.pairwise_cons.mp hsorted).1
    by_cases ha : newerThan x a = true
    · have hall : ∀ b ∈ rest, newerThan x b = true := by
        intro b hb
        have := hhead b hb
        simp only [newerThan, decide_eq_true_eq] at ha ⊢
        omega
      have : (a :: rest).filter (newerThan x) = a :: rest := by
        rw [List.filter_eq_self]
        intro b hb
        rcases List.mem_cons.mp hb with h | h
        · rw [h]; exact ha
        · exact hall b h
      rw [this]
    · have hf : (a :: rest).filter (newerThan x) = rest.filter (newerThan x) := by
        rw [List.filter_cons, if_neg ha]
      rw [hf] at hne ⊢
      rw [ih hrest hne]
      cases rest with
      | nil => simp at hne
      | cons b rest' => simp [List.getLast?_cons_cons]

/-- The key after the expiry check and `ZREMRANGEBYSCORE`, when it mirrored the slot
`S`: it mirrors the pruned slot `P`. -/
theorem pruned_key_mirrors (ttl nowMs : Int) (k : RedisKey) (S : List Int)
    (hsorted : S.Pairwise (fun a b => a ≤ b))
    (hz : k.zset = S.map ZEntry.ofStamp)
    (hexp : ∀ last, S.getLast? = some last → k.expireAt = some (last + ttl * 1000)) :
    (zremrangebyscoreUpTo (k.live nowMs) (nowMs - ttl * 1000)).zset =
      (S.filter (newerThan (nowMs - ttl * 1000))).map ZEntry.ofStamp ∧
    (S.filter (newerThan (nowMs - ttl * 1000)) ≠ [] →
      (zremrangebyscoreUpTo (k.live nowMs) (nowMs - ttl * 1000)).expireAt = k.expireAt) := by
  have hgone : ∀ last, S.getLast? = some last → nowMs > last + ttl * 1000 →
      S.filter (newerThan (nowMs - ttl * 1000)) = [] := by
    intro last hl hgt
    by_contra hne
    have hlast := getLast?_filter_newerThan S _ hsorted hne
    rw [hl] at hlast
    have hmem := List.mem_of_getLast?_eq_some hlast
    have := (List.mem_filter.mp hmem).2
    simp only [newerThan, decide_eq_true_eq] at this
    omega
  have hlive : (k.live nowMs = k) ∨
      (k.live nowMs = RedisKey.absent ∧ S.filter (newerThan (nowMs - ttl * 1000)) = []) := by
    unfold RedisKey.live
    cases hl : S.getLast? with
    | none =>
      have hS : S = [] := by simpa using hl
      subst hS
      cases k.expireAt with
      | none => exact Or.inl rfl
      | some d =>
        simp only
        split
        · exact Or.inr ⟨rfl, rfl⟩
        · exact Or.inl rfl
    | some last =>
      rw [hexp last hl]
      simp only
      split
      · rename_i hgt
        exact Or.inr ⟨rfl, hgone last hl hgt⟩
      · exact Or.inl rfl
  rcases hlive with h | ⟨h, hnil⟩
  · rw [h]
    simp only [zremrangebyscoreUpTo, hz, filter_score_map]
    by_cases hnone : S.filter (newerThan (nowMs - ttl * 1000)) = []
    · simp [hnone, RedisKey.absent]
    · simp [hnone]
  · rw [h, hnil]
    simp [zremrangebyscoreUpTo, RedisKey.absent]

/-- One call on both paths, from a Redis key that mirrors the slot: same result, and
the key mirrors the slot again.  The window is `ttl ≥ 1` whole seconds, and the
call's millisecond timestamp is newer than every stored one. -/
theorem redis_mirrors_memory_step (rpm ttl now : Int) (k : RedisKey) (S : List Int)
    (hrpm : 1 ≤ rpm) (httl : 1 ≤ ttl)
    (hsorted : S.Pairwise (fun a b => a ≤ b)) (hold : ∀ s ∈ S, s < unixMilli now)
    (hz : k.zset = S.map ZEntry.ofStamp)
    (hexp : ∀ last, S.getLast? = some last → k.expireAt = some (last + ttl * 1000)) :
    ∃ r, slotAcquire S rpm (millisToDuration (ttl * 1000)) now = some r ∧
      (acquireRPMSlotRedis k rpm (millisToDuration (ttl * 1000)) now).1 =
        (r.acquired, r.retryAfter) ∧
      (acquireRPMSlotRedis k rpm (millisToDuration (ttl * 1000)) now).2.zset =
        r.timestamps.map ZEntry.ofStamp ∧
      (∀ last, r.timestamps.getLast? = some last →
        (acquireRPMSlotRedis k rpm (millisToDuration (ttl * 1000)) now).2.expireAt =
          some (last + ttl * 1000)) ∧
      r.timestamps.Pairwise (fun a b => a ≤ b) ∧
      (∀ s ∈ r.timestamps, s ≤ unixMilli now) := by
  obtain ⟨r, hr, hacq, hts, hretry⟩ :=
    slotAcquire_sorted S rpm (millisToDuration (ttl * 1000)) now hsorted hrpm
  rw [unixMilli_sub_window] at hacq hts hretry
  rw [durationMilliseconds_millis] at hretry
  obtain ⟨hkz, hke⟩ := pruned_key_mirrors ttl (unixMilli now) k S hsorted hz hexp
  have hPold : ∀ s ∈ S.filter (newerThan (unixMilli now - ttl * 1000)), s < unixMilli now :=
    fun s hs => hold s (List.mem_filter.mp hs).1
  have hPsorted : (S.filter (newerThan (unixMilli now - ttl * 1000))).Pairwise
      (fun a b => a ≤ b) := hsorted.filter _
  refine ⟨r, hr, ?_⟩
  simp only [acquireRPMSlotRedis, rpmScript, unixMilli_sub_window, durationSeconds_seconds]
  generalize hk1 : zremrangebyscoreUpTo (k.live (unixMilli now)) (unixMilli now - ttl * 1000) = k1
    at hkz hke
  generalize hP : S.filter (newerThan (unixMilli now - ttl * 1000)) = P
    at hkz hke hacq hts hretry hPold hPsorted
  have hcard : zcard k1 = (P.length : Int) := by simp [zcard, hkz]
  rw [hcard]
  by_cases hlt : (P.length : Int) < rpm
  · -- admitted on both paths
    rw [if_pos hlt] at hts ⊢
    have hza : (zadd k1 (unixMilli now) (unixMilli now)).zset =
        (P ++ [unixMilli now]).map ZEntry.ofStamp := by
      simp only [zadd, hkz, filter_member_map P _ hPold]
      rw [zinsert_last]
      · simp [ZEntry.ofStamp]
      · intro x hx
        obtain ⟨s, hs, rfl⟩ := List.mem_map.mp hx
        have := hPold s hs
        simp only [ZEntry.ofStamp]
        omega
    have hne : (zadd k1 (unixMilli now) (unixMilli now)).zset.isEmpty = false := by
      rw [hza]; simp
    have httl0 : ¬ ttl ≤ 0 := by omega
    simp only [expire, hne, Bool.false_eq_true, if_false, httl0]
    have hadm : r.acquired = true := by rw [hacq]; simpa using hlt
    refine ⟨?_, ?_, ?_, ?_, ?_⟩
    · rw [slotAcquire_admitted_retryAfter _ _ _ _ r hr hadm, hadm]
      simp [millisToDuration]
    · rw [hza, hts]
    · intro last hl
      rw [hts] at hl
      simp at hl
      rw [← hl]
    · rw [hts, List.pairwise_append]
      refine ⟨hPsorted, List.pairwise_singleton _ _, ?_⟩
      intro a ha b hb
      rw [List.mem_singleton] at hb
      have := hPold a ha
      omega
    · intro s hs
      rw [hts] at hs
      rcases List.mem_append.mp hs with h | h
      · have := hPold s h; omega
      · rw [List.mem_singleton] at h; omega
  · -- denied on both paths
    rw [if_neg hlt] at hts ⊢
    have hden : r.acquired = false := by rw [hacq]; simpa using hlt
    obtain ⟨oldest, hhead, hval⟩ := hretry hden
    obtain ⟨rest, hPc⟩ : ∃ rest, P = oldest :: rest := by
      cases P with
      | nil => simp at hhead
      | cons a rest =>
        simp at hhead
        exact ⟨rest, by rw [hhead]⟩
    have hk1z : k1.zset = ZEntry.ofStamp oldest :: rest.map ZEntry.ofStamp := by
      rw [hkz, hPc]; rfl
    simp only [hk1z]
    refine ⟨?_, ?_, ?_, ?_, ?_⟩
    · rw [hden, hval]
      simp [ZEntry.ofStamp]
    · rw [hts, hPc]; rfl
    · intro last hl
      rw [hts] at hl
      have hne : P ≠ [] := by rw [hPc]; simp
      rw [hke hne]
      apply hexp
      rw [← hl, ← hP]
      exact (getLast?_filter_newerThan S _ hsorted (by rw [hP]; exact hne)).symm
    · rw [hts]; exact hPsorted
    · intro s hs
      rw [hts] at hs
      have := hPold s hs
      omega

/-- For `rpm ≥ 1`, a window of `ttl ≥ 1` whole seconds and calls whose millisecond
timestamps strictly increase, the Redis script from an absent key and the in-memory
slot from empty return the same `(acquired, retryAfter)` at every call. -/
theorem redis_mirrors_memory (rpm ttl : Int) (hrpm : 1 ≤ rpm) (httl : 1 ≤ ttl) :
    ∀ (calls : List Int) (k : RedisKey) (S : List Int),
      calls.Pairwise (fun a b => unixMilli a < unixMilli b) →
      S.Pairwise (fun a b => a ≤ b) → (∀ s ∈ S, ∀ c ∈ calls, s < unixMilli c) →
      k.zset = S.map ZEntry.ofStamp →
      (∀ last, S.getLast? = some last → k.expireAt = some (last + ttl * 1000)) →
      (slotTrace rpm (millisToDuration (ttl * 1000)) S (calls.map SlotEvent.acquire)).map
          (fun tr => tr.map (fun c => (c.2.acquired, c.2.retryAfter))) =
        some (redisTrace rpm (millisToDuration (ttl * 1000)) k calls) := by
  intro calls
  induction calls with
  | nil => intro k S _ _ _ _ _; rfl
  | cons now rest ih =>
    intro k S hcalls hsorted hold hz hexp
    obtain ⟨r, hr, hres, hz', hexp', hsorted', hle⟩ :=
      redis_mirrors_memory_step rpm ttl now k S hrpm httl hsorted
        (fun s hs => hold s hs now (List.mem_cons_self _ _)) hz hexp
    have hnow := (List.pairwise_cons.mp hcalls).1
    have ih' := ih (acquireRPMSlotRedis k rpm (millisToDuration (ttl * 1000)) now).2
      r.timestamps (List.pairwise_cons.mp hcalls).2 hsorted'
      (fun s hs c hc => lt_of_le_of_lt (hle s hs) (hnow c hc)) hz' hexp'
    simp only [List.map_cons, slotTrace, hr, redisTrace]
    cases htr : slotTrace rpm (millisToDuration (ttl * 1000)) r.timestamps
        (rest.map SlotEvent.acquire) with
    | none => rw [htr] at ih'; simp at ih'
    | some tr =>
      rw [htr] at ih'
      simp only [Option.map_some', Option.some.injEq] at ih'
      simp only [Option.map_some', List.map_cons, Option.some.injEq]
      rw [ih', hres]

/-- The agreement from the initial states: an absent Redis key and an empty slot. -/
theorem redis_agrees_on_distinct_milliseconds (rpm ttl : Int) (calls : List Int)
    (hrpm : 1 ≤ rpm) (httl : 1 ≤ ttl)
    (hcalls : calls.Pairwise (fun a b => unixMilli a < unixMilli b)) :
    (slotTrace rpm (millisToDuration (ttl * 1000)) [] (calls.map SlotEvent.acquire)).map
        (fun tr => tr.map (fun c => (c.2.acquired, c.2.retryAfter))) =
      some (redisTrace rpm (millisToDuration (ttl * 1000)) RedisKey.absent calls) :=
  redis_mirrors_memory rpm ttl hrpm httl calls RedisKey.absent [] hcalls List.Pairwise.nil
    (fun _ h => absurd h (List.not_mem_nil _)) rfl (fun _ h => by simp at h)

end RateLimit

namespace TaskStore

/-! ## The claim scan -/

theorem firstOrdered_eq_none (l : List ImageGenerationTask) :
    firstOrdered l = none ↔ l = [] := by
  cases l with
  | nil => simp [firstOrdered]
  | cons r rest =>
    simp only [firstOrdered]
    cases firstOrdered rest with
    | none => simp
    | some m => by_cases h : scansBefore r m = true <;> simp [h]

theorem firstOrdered_some (l : List ImageGenerationTask) (m : ImageGenerationTask)
    (h : firstOrdered l = some m) : m ∈ l ∧ ∀ q ∈ l, m.createdAt ≤ q.createdAt := by
  induction l generalizing m with
  | nil => simp [firstOrdered] at h
  | cons r rest ih =>
    simp only [firstOrdered] at h
    cases hrest : firstOrdered rest with
    | none =>
      simp only [hrest] at h
      have hnil := (firstOrdered_eq_none rest).mp hrest
      cases Option.some.inj h
      subst hnil
      simp
    | some m' =>
      simp only [hrest] at h
      obtain ⟨hm', hmin⟩ := ih m' hrest
      by_cases hb : scansBefore r m' = true
      · rw [if_pos hb] at h
        have hm : r = m := Option.some.inj h
        subst hm
        refine ⟨List.mem_cons_self _ _, ?_⟩
        intro q hq
        have hle : r.createdAt ≤ m'.createdAt := by
          simp only [scansBefore, Bool.or_eq_true, Bool.and_eq_true, decide_eq_true_eq] at hb
          omega
        rcases List.mem_cons.mp hq with hq | hq
        · rw [hq]
        · exact le_trans hle (hmin q hq)
      · rw [if_neg hb] at h
        have hm : m' = m := Option.some.inj h
        subst hm
        refine ⟨List.mem_cons_of_mem _ hm', ?_⟩
        intro q hq
        have hle : m'.createdAt ≤ r.createdAt := by
          simp only [scansBefore, Bool.or_eq_true, Bool.and_eq_true, decide_eq_true_eq,
            not_or, not_and] at hb
          omega
        rcases List.mem_cons.mp hq with hq | hq
        · rw [hq]; exact hle
        · exact hmin q hq

/-- With `id` a key, a row of the table is determined by its `id`. -/
theorem eq_of_id_eq {db : Store} (hkey : (db.map (fun r => r.id)).Nodup)
    {q r : ImageGenerationTask} (hq : q ∈ db) (hr : r ∈ db) (h : q.id = r.id) : q = r :=
  List.inj_on_of_nodup_map hkey hq hr h

theorem claimUpdate_of_pending {db : Store} (hkey : (db.map (fun r => r.id)).Nodup)
    {r : ImageGenerationTask} (hr : r ∈ db) (hp : r.status = "pending") (stamp : Int) :
    (claimUpdate db r.id stamp).1 = db.map (fun q => if q.id = r.id then claimed r stamp else q) ∧
    (claimUpdate db r.id stamp).2 ≠ 0 := by
  constructor
  · simp only [claimUpdate, updateWhere]
    apply List.map_congr_left
    intro q hq
    by_cases hid : q.id = r.id
    · have := eq_of_id_eq hkey hq hr hid
      subst this
      simp [hp, claimed]
    · simp [hid]
  · simp only [claimUpdate, updateWhere]
    have : 0 < db.countP (fun q => q.id == r.id && q.status == "pending") := by
      rw [List.countP_pos_iff]
      exact ⟨r, hr, by simp [hp]⟩
    omega

theorem claimReread_after_update (db : Store) (r r' : ImageGenerationTask)
    (hr : r ∈ db) (hid : r'.id = r.id) :
    claimReread (db.map (fun q => if q.id = r.id then r' else q)) r.id = ClaimResult.task r' := by
  unfold claimReread
  have : (db.map (fun q => if q.id = r.id then r' else q)).find? (fun q => q.id == r.id)
      = some r' := by
    induction db with
    | nil => simp at hr
    | cons a rest ih =>
      rw [List.map_cons, List.find?_cons]
      by_cases ha : a.id = r.id
      · simp [ha, hid]
      · have hmem : r ∈ rest := by
          rcases List.mem_cons.mp hr with h | h
          · rw [h] at ha; exact absurd rfl ha
          · exact h
        have hb : (a.id == r.id) = false := by simp [ha]
        simp only [if_neg ha, hb]
        exact ih hmem
  rw [this]

/-- The lock-free `ClaimNextPending`, run without interruption, in closed form. -/
theorem ClaimNextPendingCAS_of_select {db : Store} (hkey : (db.map (fun r => r.id)).Nodup)
    (now stamp : Int) {r : ImageGenerationTask} (hsel : claimSelect db now = some r) :
    ClaimNextPendingCAS db now stamp =
      (ClaimResult.task (claimed r stamp),
        db.map (fun q => if q.id = r.id then claimed r stamp else q)) := by
  have hmem := (firstOrdered_some _ _ hsel).1
  rw [List.mem_filter] at hmem
  have hp : r.status = "pending" := by
    have := hmem.2
    simp only [eligible, Bool.and_eq_true, beq_iff_eq] at this
    exact this.1
  obtain ⟨hdb, hn⟩ := claimUpdate_of_pending hkey hmem.1 hp stamp
  simp only [ClaimNextPendingCAS, hsel, hn, if_false, hdb]
  rw [claimReread_after_update db r (claimed r stamp) hmem.1 rfl]

/-- The claim C7 as stated fails on `updated_at`: claiming the only row, pending
since second 100, at second 200 returns it with `updated_at = 200`, and that is the
row then stored; neither is the old row with only its status changed. -/
theorem claim_stamps_updatedAt :
    (ClaimNextPending false [sampleTask] 200000000000 200000000000).1 =
      ClaimResult.task { sampleTask with status := "running", updatedAt := 200 } ∧
    (ClaimNextPending false [sampleTask] 200000000000 200000000000).1 ≠
      ClaimResult.task { sampleTask with status := "running" } ∧
    (ClaimNextPending false [sampleTask] 200000000000 200000000000).2 ≠
      [{ sampleTask with status := "running" }] := by
  decide

/-- C7 (amended): on a table keyed by `id`, the lock-free `ClaimNextPending` returns
null with the table unchanged exactly when no row is eligible (pending with
`next_attempt_at` null or not after now); otherwise it returns a row that was eligible
and has the least `created_at` of the eligible rows, with its status set to
`running` and its `updated_at` set to the time of the claim and every other field
(attempts included) as stored, and all other rows are unchanged. -/
theorem ClaimNextPending_lockfree (db : Store) (now stamp : Int)
    (hkey : (db.map (fun r => r.id)).Nodup) :
    (((ClaimNextPending false db now stamp).1 = ClaimResult.null ∧
        (ClaimNextPending false db now stamp).2 = db) ↔
      ∀ r ∈ db, eligible (unixSec now) r = false) ∧
    ((∃ r ∈ db, eligible (unixSec now) r = true) →
      ∃ r ∈ db, eligible (unixSec now) r = true ∧
        (∀ q ∈ db, eligible (unixSec now) q = true → r.createdAt ≤ q.createdAt) ∧
        (ClaimNextPending false db now stamp).1 =
          ClaimResult.task { r with status := "running", updatedAt := unixSec stamp } ∧
        (ClaimNextPending false db now stamp).2 =
          db.map (fun q => if q.id = r.id
            then { r with status := "running", updatedAt := unixSec stamp } else q)) := by
  simp only [ClaimNextPending, Bool.false_eq_true, if_false]
  cases hsel : claimSelect db now with
  | none =>
    have hnil : db.filter (eligible (unixSec now)) = [] := (firstOrdered_eq_none _).mp hsel
    have hnone : ∀ r ∈ db, eligible (unixSec now) r = false := by
      intro r hr
      have := List.filter_eq_nil_iff.mp hnil r hr
      simpa using this
    constructor
    · constructor
      · intro _
        exact hnone
      · intro _
        simp [ClaimNextPendingCAS, hsel]
    · rintro ⟨r, hr, he⟩
      rw [hnone r hr] at he
      exact absurd he (by decide)
  | some r =>
    have hres := ClaimNextPendingCAS_of_select hkey now stamp hsel
    obtain ⟨hmem, hmin⟩ := firstOrdered_some _ _ hsel
    rw [List.mem_filter] at hmem
    constructor
    · rw [hres]
      constructor
      · rintro ⟨h, -⟩
        exact absurd h (by simp)
      · intro h
        rw [h r hmem.1] at hmem
        exact absurd hmem.2 (by decide)
    · intro _
      refine ⟨r, hmem.1, hmem.2, ?_, ?_, ?_⟩
      · intro q hq he
        exact hmin q (List.mem_filter.mpr ⟨hq, he⟩)
      · rw [hres]; rfl
      · rw [hres]; rfl

theorem ClaimNextPending_lockfree_witness :
    (((ClaimNextPending false [sampleTask] 200000000000 200000000000).1 = ClaimResult.null ∧
        (ClaimNextPending false [sampleTask] 200000000000 200000000000).2 = [sampleTask]) ↔
      ∀ r ∈ [sampleTask], eligible (unixSec 200000000000) r = false) ∧
    ((∃ r ∈ [sampleTask], eligible (unixSec 200000000000) r = true) →
      ∃ r ∈ [sampleTask], eligible (unixSec 200000000000) r = true ∧
        (∀ q ∈ [sampleTask], eligible (unixSec 200000000000) q = true →
          r.createdAt ≤ q.createdAt) ∧
        (ClaimNextPending false [sampleTask] 200000000000 200000000000).1 =
          ClaimResult.task { r with status := "running", updatedAt := unixSec 200000000000 } ∧
        (ClaimNextPending false [sampleTask] 200000000000 200000000000).2 =
          [sampleTask].map (fun q => if q.id = r.id
            then { r with status := "running", updatedAt := unixSec 200000000000 } else q)) :=
  ClaimNextPending_lockfree [sampleTask] 200000000000 200000000000 (by decide)

/-! ## No double claim -/

theorem claimSelect_of_single {db : Store} {R : ImageGenerationTask} {now : Int}
    (h : db.filter (eligible (unixSec now)) = [R]) : claimSelect db now = some R := by
  simp [claimSelect, h, firstOrdered]

theorem mem_pending_of_single {db : Store} {R : ImageGenerationTask} {now : Int}
    (h : db.filter (eligible (unixSec now)) = [R]) : R ∈ db ∧ R.status = "pending" := by
  have hmem : R ∈ db.filter (eligible (unixSec now)) := by rw [h]; exact List.mem_singleton_self R
  rw [List.mem_filter] at hmem
  refine ⟨hmem.1, ?_⟩
  have := hmem.2
  simp only [eligible, Bool.and_eq_true, beq_iff_eq] at this
  exact this.1

/-- Once the row is claimed no row is eligible any more. -/
theorem claimSelect_after_claim {db : Store} {R : ImageGenerationTask} {now : Int}
    (h : db.filter (eligible (unixSec now)) = [R]) (stamp : Int) :
    claimSelect (db.map (fun q => if q.id = R.id then claimed R stamp else q)) now = none := by
  unfold claimSelect
  rw [firstOrdered_eq_none, List.filter_eq_nil_iff]
  intro q' hq'
  obtain ⟨q, hq, rfl⟩ := List.mem_map.mp hq'
  by_cases hid : q.id = R.id
  · simp [hid, eligible, claimed]
  · rw [if_neg hid]
    intro he
    have hmem : q ∈ db.filter (eligible (unixSec now)) := List.mem_filter.mpr ⟨hq, he⟩
    rw [h, List.mem_singleton] at hmem
    exact hid (by rw [hmem])

/-- Once the row is claimed the conditional update of a late worker changes nothing. -/
theorem claimUpdate_after_claim (db : Store) (R : ImageGenerationTask) (stamp stamp' : Int) :
    claimUpdate (db.map (fun q => if q.id = R.id then claimed R stamp else q)) R.id stamp' =
      (db.map (fun q => if q.id = R.id then claimed R stamp else q), 0) := by
  have hcond : ∀ q' ∈ db.map (fun q => if q.id = R.id then claimed R stamp else q),
      (q'.id == R.id && q'.status == "pending") = false := by
    intro q' hq'
    obtain ⟨q, _, rfl⟩ := List.mem_map.mp hq'
    by_cases hid : q.id = R.id
    · simp [hid, claimed]
    · simp [hid]
  simp only [claimUpdate, updateWhere]
  congr 1
  · conv => rhs; rw [← List.map_id (db.map (fun q => if q.id = R.id then claimed R stamp else q))]
    apply List.map_congr_left
    intro q' hq'
    simp [hcond q' hq']
  · rw [List.countP_eq_zero]
    intro q' hq'
    simp [hcond q' hq']

theorem ClaimInv_step (n : Nat) (db : Store) (R : ImageGenerationTask)
    (hkey : (db.map (fun r => r.id)).Nodup) (p : Pool) (i : Nat) (now : Int)
    (hone : db.filter (eligible (unixSec now)) = [R]) (hinv : ClaimInv n db R p) :
    ClaimInv n db R (Pool.step n p i now) := by
  unfold Pool.step
  by_cases hi : i < n
  swap
  · rw [if_neg hi]; exact hinv
  rw [if_pos hi]
  obtain ⟨hR, hpend⟩ := mem_pending_of_single hone
  rcases hinv with ⟨hdb, hws⟩ | ⟨w, hw, stamp, hdb, hww, hothers⟩
  · -- nobody has updated yet
    rcases hws i hi with hs | hs
    · left
      simp only [hs, claimStep, hdb, claimSelect_of_single hone]
      refine ⟨trivial, ?_⟩
      intro j hj
      by_cases hji : j = i
      · simp [hji]
      · simp only [if_neg hji]; exact hws j hj
    · right
      obtain ⟨hupd, hcnt⟩ := claimUpdate_of_pending hkey hR hpend now
      refine ⟨i, hi, now, ?_, ?_, ?_⟩
      · simp only [hs, claimStep, hdb, hcnt, if_false, hupd]
      · left
        simp only [hs, claimStep, hdb, hcnt, if_false, if_true]
      · intro j hj hji
        simp only [if_neg hji]
        rcases hws j hj with h | h
        · exact Or.inl h
        · exact Or.inr (Or.inl h)
  · -- worker `w` has updated
    right
    by_cases hiw : i = w
    · subst hiw
      refine ⟨i, hi, stamp, ?_, ?_, ?_⟩
      · rcases hww with h | h
        · simp only [h, claimStep, hdb]
        · simp only [h, claimStep, hdb]
      · right
        rcases hww with h | h
        · simp only [h, claimStep, hdb, if_true]
          rw [claimReread_after_update db R (claimed R stamp) hR rfl]
        · simp only [h, claimStep, if_true]
      · intro j hj hji
        simp only [if_neg hji]
        exact hothers j hj hji
    · have hnew : (claimStep p.db now (p.workers i)).2 = p.db ∧
          ((claimStep p.db now (p.workers i)).1 = ClaimPC.start ∨
           (claimStep p.db now (p.workers i)).1 = ClaimPC.selected R ∨
           (claimStep p.db now (p.workers i)).1 = ClaimPC.returned ClaimResult.null) := by
        rcases hothers i hi hiw with h | h | h
        · simp [h, claimStep, hdb, claimSelect_after_claim hone stamp]
        · simp [h, claimStep, hdb, claimUpdate_after_claim db R stamp now]
        · simp [h, claimStep]
      refine ⟨w, hw, stamp, ?_, ?_, ?_⟩
      · show (claimStep p.db now (p.workers i)).2 = _
        rw [hnew.1, hdb]
      · have hwi : w ≠ i := fun h => hiw h.symm
        simp only [if_neg hwi]
        exact hww
      · intro j hj hjw
        by_cases hji : j = i
        · simp only [hji, if_true]
          exact hnew.2
        · simp only [if_neg hji]
          exact hothers j hj hjw

theorem ClaimInv_run (n : Nat) (db : Store) (R : ImageGenerationTask)
    (hkey : (db.map (fun r => r.id)).Nodup) :
    ∀ (sched : List (Nat × Int)) (p : Pool),
      (∀ e ∈ sched, db.filter (eligible (unixSec e.2)) = [R]) →
      ClaimInv n db R p → ClaimInv n db R (Pool.run n p sched) := by
  intro sched
  induction sched with
  | nil => intro p _ h; exact h
  | cons e rest ih =>
    intro p hone hinv
    obtain ⟨i, now⟩ := e
    simp only [Pool.run]
    apply ih
    · intro e he
      exact hone e (List.mem_cons_of_mem _ he)
    · exact ClaimInv_step n db R hkey p i now (hone (i, now) (List.mem_cons_self _ _)) hinv

theorem stepsLeft_claimStep (db : Store) (now : Int) (pc : ClaimPC) :
    (claimStep db now pc).1.stepsLeft ≤ pc.stepsLeft - 1 := by
  cases pc with
  | start =>
    simp only [claimStep]
    cases claimSelect db now <;> simp [ClaimPC.stepsLeft]
  | selected task =>
    simp only [claimStep]
    by_cases h : (claimUpdate db task.id now).2 = 0 <;> simp [h, ClaimPC.stepsLeft]
  | updated id => simp [claimStep, ClaimPC.stepsLeft]
  | returned res => simp [claimStep, ClaimPC.stepsLeft]

theorem stepsLeft_run (n : Nat) (i : Nat) (hi : i < n) :
    ∀ (sched : List (Nat × Int)) (p : Pool),
      ((Pool.run n p sched).workers i).stepsLeft ≤
        (p.workers i).stepsLeft - sched.countP (fun e => e.1 == i) := by
  intro sched
  induction sched with
  | nil => intro p; simp [Pool.run]
  | cons e rest ih =>
    intro p
    obtain ⟨j, now⟩ := e
    simp only [Pool.run]
    have h := ih (Pool.step n p j now)
    rw [List.countP_cons]
    by_cases hji : j = i
    · subst hji
      have hs : ((Pool.step n p j now).workers j).stepsLeft ≤ (p.workers j).stepsLeft - 1 := by
        simp only [Pool.step, if_pos hi, if_true]
        exact stepsLeft_claimStep p.db now (p.workers j)
      simp only [beq_self_eq_true, if_true]
      omega
    · have hs : (Pool.step n p j now).workers i = p.workers i := by
        unfold Pool.step
        by_cases hj : j < n
        · have hij : i ≠ j := fun h => hji h.symm
          simp only [if_pos hj, if_neg hij]
        · simp only [if_neg hj]
      have hb : ((j, now).1 == i) = false := by simp [hji]
      rw [hs] at h
      simp only [hb, Bool.false_eq_true, if_false]
      omega

theorem returned_of_stepsLeft_zero (pc : ClaimPC) (h : pc.stepsLeft = 0) :
    ∃ res, pc = ClaimPC.returned res := by
  cases pc with
  | returned res => exact ⟨res, rfl⟩
  | start => simp [ClaimPC.stepsLeft] at h
  | selected task => simp [ClaimPC.stepsLeft] at h
  | updated id => simp [ClaimPC.stepsLeft] at h

/-- C8: no double claim.  `n ≥ 1` workers run the lock-free `ClaimNextPending`
against a table keyed by `id` in which, at every clock reading of the run, exactly
one row `R` is eligible.  In every interleaving of their database statements (read,
conditional update, re-read) a worker that has been scheduled three times has
returned; and whenever all workers have returned, exactly one of them has returned
the row, now `running`, every other one has returned null, and the table holds `R`
as claimed by that worker and is otherwise unchanged. -/
theorem no_double_claim (n : Nat) (db : Store) (R : ImageGenerationTask)
    (sched : List (Nat × Int)) (hn : 0 < n)
    (hkey : (db.map (fun r => r.id)).Nodup)
    (hone : ∀ e ∈ sched, db.filter (eligible (unixSec e.2)) = [R]) :
    (∀ i < n, 3 ≤ sched.countP (fun e => e.1 == i) →
      ∃ res, (Pool.run n (Pool.init db) sched).workers i = ClaimPC.returned res) ∧
    ((∀ i < n, ∃ res, (Pool.run n (Pool.init db) sched).workers i = ClaimPC.returned res) →
      ∃ w < n, ∃ stamp,
        (Pool.run n (Pool.init db) sched).workers w =
          ClaimPC.returned (ClaimResult.task
            { R with status := "running", updatedAt := unixSec stamp }) ∧
        (∀ i < n, i ≠ w →
          (Pool.run n (Pool.init db) sched).workers i = ClaimPC.returned ClaimResult.null) ∧
        (Pool.run n (Pool.init db) sched).db =
          db.map (fun q => if q.id = R.id
            then { R with status := "running", updatedAt := unixSec stamp } else q)) := by
  constructor
  · intro i hi hcount
    have h1 := stepsLeft_run n i hi sched (Pool.init db)
    have h3 : ((Pool.init db).workers i).stepsLeft = 3 := rfl
    rw [h3] at h1
    exact returned_of_stepsLeft_zero _ (by omega)
  · intro hdone
    have hinit : ClaimInv n db R (Pool.init db) := Or.inl ⟨rfl, fun _ _ => Or.inl rfl⟩
    have hinv := ClaimInv_run n db R hkey sched (Pool.init db) hone hinit
    rcases hinv with ⟨-, hws⟩ | ⟨w, hw, stamp, hdb, hww, hothers⟩
    · exfalso
      obtain ⟨res, h0⟩ := hdone 0 hn
      rcases hws 0 hn with h | h <;> rw [h] at h0 <;> simp at h0
    · refine ⟨w, hw, stamp, ?_, ?_, hdb⟩
      · rcases hww with h | h
        · obtain ⟨res, h0⟩ := hdone w hw
          rw [h] at h0
          simp at h0
        · exact h
      · intro i hi hiw
        obtain ⟨res, h0⟩ := hdone i hi
        rcases hothers i hi hiw with h | h | h
        · rw [h] at h0; simp at h0
        · rw [h] at h0; simp at h0
        · exact h

theorem no_double_claim_witness :
    ((Pool.run 4 (Pool.init [sampleTask]) sampleSchedule).workers 1 =
        ClaimPC.returned (ClaimResult.task
          { sampleTask with status := "running", updatedAt := 201 }) ∧
      (Pool.run 4 (Pool.init [sampleTask]) sampleSchedule).workers 0 =
        ClaimPC.returned ClaimResult.null) ∧
    ((∀ i < 4, 3 ≤ sampleSchedule.countP (fun e => e.1 == i) →
      ∃ res, (Pool.run 4 (Pool.init [sampleTask]) sampleSchedule).workers i =
        ClaimPC.returned res) ∧
    ((∀ i < 4, ∃ res, (Pool.run 4 (Pool.init [sampleTask]) sampleSchedule).workers i =
        ClaimPC.returned res) →
      ∃ w < 4, ∃ stamp,
        (Pool.run 4 (Pool.init [sampleTask]) sampleSchedule).workers w =
          ClaimPC.returned (ClaimResult.task
            { sampleTask with status := "running", updatedAt := unixSec stamp }) ∧
        (∀ i < 4, i ≠ w →
          (Pool.run 4 (Pool.init [sampleTask]) sampleSchedule).workers i =
            ClaimPC.returned ClaimResult.null) ∧
        (Pool.run 4 (Pool.init [sampleTask]) sampleSchedule).db =
          [sampleTask].map (fun q => if q.id = sampleTask.id
            then { sampleTask with status := "running", updatedAt := unixSec stamp }
            else q))) :=
  ⟨by decide,
   no_double_claim 4 [sampleTask] sampleTask sampleSchedule (by decide) (by decide) (by decide)⟩

/-! ## Invariant 1: open rows have no `completed_at` -/

theorem OpenRowsIncomplete_updateWhere (db : Store) (cond : ImageGenerationTask → Bool)
    (set : ImageGenerationTask → ImageGenerationTask)
    (hset : ∀ r ∈ db, cond r = true →
      ((set r).status = "pending" ∨ (set r).status = "running") → (set r).completedAt = none)
    (hinv : OpenRowsIncomplete db) : OpenRowsIncomplete (updateWhere cond set db).1 := by
  intro r' hr' hopen
  simp only [updateWhere] at hr'
  obtain ⟨r, hr, rfl⟩ := List.mem_map.mp hr'
  by_cases hc : cond r = true
  · rw [if_pos hc] at hopen ⊢
    exact hset r hr hc hopen
  · rw [if_neg hc] at hopen ⊢
    exact hinv r hr hopen

theorem OpenRowsIncomplete_claimUpdate (db : Store) (id : String) (stamp : Int)
    (hinv : OpenRowsIncomplete db) : OpenRowsIncomplete (claimUpdate db id stamp).1 := by
  apply OpenRowsIncomplete_updateWhere _ _ _ _ hinv
  intro r hr hc _
  simp only [Bool.and_eq_true, beq_iff_eq] at hc
  exact hinv r hr (Or.inl hc.2)

/-- The claim C9 as stated fails for `MarkRunning` and for `ScheduleRetry`: on a
table whose only row has succeeded (so the predicate holds), either call puts the row
back into `running` / `pending` while its `completed_at` stays set.  It also fails
for the insert of a pending task that carries a `completed_at`. -/
theorem markRunning_keeps_completedAt :
    OpenRowsIncomplete (MarkSuccess [sampleTask] "t1" ["https://x/1.png"] 300000000000) ∧
    ¬ OpenRowsIncomplete
      (applyOp (MarkSuccess [sampleTask] "t1" ["https://x/1.png"] 300000000000)
        400000000000 400000000000 (StoreOp.markRunning "t1")) ∧
    ¬ OpenRowsIncomplete
      (applyOp (MarkSuccess [sampleTask] "t1" ["https://x/1.png"] 300000000000)
        400000000000 400000000000 (StoreOp.scheduleRetry "t1" 410000000000 "status 503")) ∧
    ¬ OpenRowsIncomplete
      (applyOp [] 400000000000 400000000000
        (StoreOp.insert { sampleTask with completedAt := some 50 })) := by
  unfold OpenRowsIncomplete
  decide

/-- C9 (amended): the predicate "every pending or running row has `completed_at`
null" is preserved by `ClaimNextPending` (both paths), `MarkSuccess`, `MarkFailed`
and `ResetZombieRunning` for all arguments, by the insert of a task that itself
satisfies it, and by `MarkRunning` and `ScheduleRetry` when the rows they address
have `completed_at` null. -/
theorem OpenRowsIncomplete_preserved (db : Store) (op : StoreOp) (now stamp : Int)
    (hinv : OpenRowsIncomplete db) (hop : keepsOpenRowsIncomplete db op) :
    OpenRowsIncomplete (applyOp db now stamp op) := by
  cases op with
  | insert t =>
    simp only [applyOp, Insert]
    split
    · exact hinv
    · intro r hr hopen
      rcases List.mem_append.mp hr with h | h
      · exact hinv r h hopen
      · rw [List.mem_singleton] at h
        subst h
        exact hop hopen
  | claimNextPending skipLocked =>
    simp only [applyOp, ClaimNextPending]
    cases skipLocked with
    | false =>
      simp only [Bool.false_eq_true, if_false, ClaimNextPendingCAS]
      cases hsel : claimSelect db now with
      | none => exact hinv
      | some task =>
        simp only
        split <;> exact OpenRowsIncomplete_claimUpdate db task.id stamp hinv
    | true =>
      simp only [if_true, ClaimNextPendingLocked]
      cases hsel : claimSelect db now with
      | none => exact hinv
      | some task =>
        simp only
        have hmem := (firstOrdered_some _ _ hsel).1
        rw [List.mem_filter] at hmem
        have hp : task.status = "pending" := by
          have := hmem.2
          simp only [eligible, Bool.and_eq_true, beq_iff_eq] at this
          exact this.1
        have hnone : task.completedAt = none := hinv task hmem.1 (Or.inl hp)
        intro r' hr' hopen
        obtain ⟨r, hr, rfl⟩ := List.mem_map.mp hr'
        split at hopen
        · rename_i hc
          rw [if_pos hc]
          exact hnone
        · rename_i hc
          rw [if_neg hc]
          exact hinv r hr hopen
  | markRunning taskID =>
    simp only [applyOp, MarkRunning]
    apply OpenRowsIncomplete_updateWhere _ _ _ _ hinv
    intro r hr hc _
    exact hop r hr (by simpa using hc)
  | markSuccess taskID imageURLs =>
    simp only [applyOp, MarkSuccess]
    apply OpenRowsIncomplete_updateWhere _ _ _ _ hinv
    intro r _ _ hopen
    simp at hopen
  | markFailed taskID errorMsg =>
    simp only [applyOp, MarkFailed]
    apply OpenRowsIncomplete_updateWhere _ _ _ _ hinv
    intro r _ _ hopen
    simp at hopen
  | scheduleRetry taskID nextAttemptAt errorMsg =>
    simp only [applyOp, ScheduleRetry]
    apply OpenRowsIncomplete_updateWhere _ _ _ _ hinv
    intro r hr hc _
    exact hop r hr (by simpa using hc)
  | resetZombieRunning staleAfter =>
    simp only [applyOp, ResetZombieRunning]
    apply OpenRowsIncomplete_updateWhere _ _ _ _ hinv
    intro r hr hc _
    simp only [Bool.and_eq_true, beq_iff_eq] at hc
    exact hinv r hr (Or.inr hc.1)

theorem OpenRowsIncomplete_preserved_witness :
    OpenRowsIncomplete (applyOp [sampleTask] 200000000000 200000000000
      (StoreOp.scheduleRetry "t1" 210000000000 "status 503")) :=
  OpenRowsIncomplete_preserved [sampleTask] (StoreOp.scheduleRetry "t1" 210000000000 "status 503")
    200000000000 200000000000
    (by unfold OpenRowsIncomplete; decide)
    (by unfold keepsOpenRowsIncomplete; decide)

end TaskStore

namespace ImageWorker

open TaskStore

/-! ## Invariant I1: a succeeded task has its images -/

theorem generateOpenAI_nonempty (channel : Channel) (exchange : HttpExchange OpenAIResponse)
    (urls : List String) (h : generateOpenAI channel exchange = Except.ok urls) : urls ≠ [] := by
  unfold generateOpenAI at h
  split at h
  · exact absurd h (by simp)
  · simp only at h
    split at h
    · exact absurd h (by simp)
    · rename_i hlen
      cases h
      intro hnil
      rw [hnil] at hlen
      exact hlen rfl

theorem generateGemini_nonempty (channel : Channel) (exchange : HttpExchange GeminiResponse)
    (urls : List String) (h : generateGemini channel exchange = Except.ok urls) : urls ≠ [] := by
  unfold generateGemini at h
  split at h
  · exact absurd h (by simp)
  · simp only at h
    split at h
    · exact absurd h (by simp)
    · rename_i hlen
      cases h
      intro hnil
      rw [hnil] at hlen
      exact hlen rfl

theorem storeEach_length (storeImage : Nat → String → Except GoError String)
    (images : List String) (i : Nat) :
    (storeEach storeImage i images).length = images.length := by
  induction images generalizing i with
  | nil => rfl
  | cons img rest ih =>
    simp only [storeEach]
    split <;> simp [ih]

theorem StoreGeneratedImages_length (storeImage : Nat → String → Except GoError String)
    (images : List String) :
    (StoreGeneratedImages storeImage images).1.length = images.length ∧
      (StoreGeneratedImages storeImage images).2 = none := by
  unfold StoreGeneratedImages
  split
  · rename_i h
    simp [h]
  · simp [storeEach_length]

theorem Generate_nonempty (c : Constants) (w : World) (task : ImageGenerationTask)
    (urls : List String) (h : Generate c w task = Except.ok urls) : urls ≠ [] := by
  unfold Generate at h
  split at h
  · exact absurd h (by simp)
  split at h
  · exact absurd h (by simp)
  split at h
  · exact absurd h (by simp)
  rename_i channel _
  simp only at h
  split at h
  · exact absurd h (by simp)
  rename_i imageURLs hgen
  have hne : imageURLs ≠ [] := by
    split at hgen
    · exact generateOpenAI_nonempty _ _ _ hgen
    · split at hgen
      · exact generateGemini_nonempty _ _ _ hgen
      · exact generateOpenAI_nonempty _ _ _ hgen
  split at h
  · cases h; exact hne
  · rename_i storeImage _
    have hlen := (StoreGeneratedImages_length storeImage imageURLs).1
    split at h
    · cases h; exact hne
    · rename_i storedURLs hst
      cases h
      rw [hst] at hlen
      intro hnil
      rw [hnil] at hlen
      exact hne (List.length_eq_zero.mp hlen.symm)

theorem SucceededComplete_updateWhere (db : Store) (cond : ImageGenerationTask → Bool)
    (set : ImageGenerationTask → ImageGenerationTask)
    (hset : ∀ r ∈ db, cond r = true → (set r).status = "succeeded" →
      (set r).imageURLs ≠ [] ∧ (set r).completedAt ≠ none)
    (hinv : SucceededComplete db) : SucceededComplete (updateWhere cond set db).1 := by
  intro r' hr' hs
  simp only [updateWhere] at hr'
  obtain ⟨r, hr, rfl⟩ := List.mem_map.mp hr'
  by_cases hc : cond r = true
  · rw [if_pos hc] at hs ⊢
    exact hset r hr hc hs
  · rw [if_neg hc] at hs ⊢
    exact hinv r hr hs

theorem SucceededComplete_MarkFailed (db : Store) (taskID msg : String) (now : Int)
    (hinv : SucceededComplete db) : SucceededComplete (MarkFailed db taskID msg now) := by
  apply SucceededComplete_updateWhere _ _ _ _ hinv
  intro r _ _ hs
  simp at hs

theorem SucceededComplete_processTask (c : Constants) (maxRetries : Int) (w : World) (draw : ℚ)
    (db : Store) (task : ImageGenerationTask) (now : Int) (hinv : SucceededComplete db) :
    SucceededComplete (processTask c maxRetries w draw db task now) := by
  unfold processTask
  split
  · exact SucceededComplete_MarkFailed _ _ _ _ hinv
  split
  · exact SucceededComplete_MarkFailed _ _ _ _ hinv
  split
  · split
    · apply SucceededComplete_updateWhere _ _ _ _ hinv
      intro r _ _ hs
      simp at hs
    · exact SucceededComplete_MarkFailed _ _ _ _ hinv
  · rename_i imageURLs hgen
    apply SucceededComplete_updateWhere _ _ _ _ hinv
    intro r _ _ _
    exact ⟨Generate_nonempty c w task imageURLs hgen, by simp⟩

theorem SucceededComplete_engineStep (c : Constants) (maxRetries : Int) (db : Store) (now : Int)
    (ev : EngineEvent) (hinv : SucceededComplete db) :
    SucceededComplete (engineStep c maxRetries db now ev) := by
  cases ev with
  | create userID req taskID =>
    simp only [engineStep, TaskStore.Insert]
    split
    · exact hinv
    · intro r hr hs
      rcases List.mem_append.mp hr with h | h
      · exact hinv r h hs
      · rw [List.mem_singleton] at h
        subst h
        simp [BeforeCreate, newImageTask] at hs
  | claim skipLocked =>
    simp only [engineStep, ClaimNextPending]
    cases skipLocked with
    | false =>
      simp only [Bool.false_eq_true, if_false, ClaimNextPendingCAS]
      cases hsel : claimSelect db now with
      | none => exact hinv
      | some task =>
        simp only
        have hupd : SucceededComplete (claimUpdate db task.id now).1 := by
          apply SucceededComplete_updateWhere _ _ _ _ hinv
          intro r _ _ hs
          simp at hs
        split <;> exact hupd
    | true =>
      simp only [if_true, ClaimNextPendingLocked]
      cases hsel : claimSelect db now with
      | none => exact hinv
      | some task =>
        simp only
        intro r' hr' hs
        obtain ⟨r, hr, rfl⟩ := List.mem_map.mp hr'
        split at hs
        · simp at hs
        · rename_i hc
          rw [if_neg hc]
          exact hinv r hr hs
  | process task w draw => exact SucceededComplete_processTask c maxRetries w draw db task now hinv
  | sweep staleAfter =>
    simp only [engineStep, ResetZombieRunning]
    apply SucceededComplete_updateWhere _ _ _ _ hinv
    intro r _ _ hs
    simp at hs

theorem SucceededComplete_engineRun (c : Constants) (maxRetries : Int) :
    ∀ (events : List (EngineEvent × Int)) (db : Store),
      SucceededComplete db → SucceededComplete (engineRun c maxRetries db events) := by
  intro events
  induction events with
  | nil => intro db h; exact h
  | cons e rest ih =>
    intro db h
    obtain ⟨ev, now⟩ := e
    simp only [engineRun]
    exact ih _ (SucceededComplete_engineStep c maxRetries db now ev h)

/-- C10: a succeeded task has at least one image URL and a `completed_at`.  In every
table the engine reaches from the empty one by create requests, claims, process
steps and zombie sweeps, each succeeded row has a non-empty URL list and a non-null
`completed_at`; a process step that leaves its task succeeded has stored a non-empty
list (both adapters answer an empty result with an error, and the artifact sink
returns as many URLs as it was given, without error); and `MarkSuccess` sets
`completed_at` on the rows it marks. -/
theorem succeeded_task_has_images (c : Constants) (maxRetries : Int) :
    (∀ events : List (EngineEvent × Int), SucceededComplete (engineRun c maxRetries [] events)) ∧
    (∀ (w : World) (draw : ℚ) (db : Store) (task : ImageGenerationTask) (now : Int),
      ∀ r ∈ processTask c maxRetries w draw db task now,
        r.id = task.id → r.status = "succeeded" → r.imageURLs ≠ [] ∧ r.completedAt ≠ none) ∧
    (∀ (channel : Channel) (exchange : HttpExchange OpenAIResponse),
      generateOpenAI channel exchange ≠ Except.ok []) ∧
    (∀ (channel : Channel) (exchange : HttpExchange GeminiResponse),
      generateGemini channel exchange ≠ Except.ok []) ∧
    (∀ (storeImage : Nat → String → Except GoError String) (images : List String),
      (StoreGeneratedImages storeImage images).1.length = images.length ∧
        (StoreGeneratedImages storeImage images).2 = none) ∧
    (∀ (db : Store) (taskID : String) (imageURLs : List String) (now : Int),
      ∀ r ∈ MarkSuccess db taskID imageURLs now,
        r.id = taskID → r.status = "succeeded" ∧ r.imageURLs = imageURLs ∧
          r.completedAt = some (unixSec now)) := by
  refine ⟨?_, ?_, ?_, ?_, ?_, ?_⟩
  · intro events
    exact SucceededComplete_engineRun c maxRetries events []
      (fun _ h => absurd h (List.not_mem_nil _))
  · intro w draw db task now r' hr' hid hs
    have hfailed : ∀ msg, r' ∈ MarkFailed db task.id msg now → False := by
      intro msg hm
      simp only [MarkFailed, updateWhere] at hm
      obtain ⟨r, _, hrr⟩ := List.mem_map.mp hm
      by_cases hc : r.id = task.id
      · simp [hc] at hrr
        rw [← hrr] at hs
        simp at hs
      · simp [hc] at hrr
        rw [← hrr] at hid
        exact hc hid
    unfold processTask at hr'
    split at hr'
    · exact absurd hr' (fun h => hfailed _ h)
    split at hr'
    · exact absurd hr' (fun h => hfailed _ h)
    split at hr'
    · split at hr'
      · simp only [ScheduleRetry, updateWhere] at hr'
        obtain ⟨r, _, hrr⟩ := List.mem_map.mp hr'
        by_cases hc : r.id = task.id
        · simp [hc] at hrr
          rw [← hrr] at hs
          simp at hs
        · simp [hc] at hrr
          rw [← hrr] at hid
          exact absurd hid hc
      · exact absurd hr' (fun h => hfailed _ h)
    · rename_i imageURLs hgen
      simp only [MarkSuccess, updateWhere] at hr'
      obtain ⟨r, _, hrr⟩ := List.mem_map.mp hr'
      by_cases hc : r.id = task.id
      · simp [hc] at hrr
        rw [← hrr]
        exact ⟨Generate_nonempty c w task imageURLs hgen, by simp⟩
      · simp [hc] at hrr
        rw [← hrr] at hid
        exact absurd hid hc
  · intro channel exchange h
    exact generateOpenAI_nonempty channel exchange [] h rfl
  · intro channel exchange h
    exact generateGemini_nonempty channel exchange [] h rfl
  · exact StoreGeneratedImages_length
  · intro db taskID imageURLs now r' hr' hid
    simp only [MarkSuccess, updateWhere] at hr'
    obtain ⟨r, _, hrr⟩ := List.mem_map.mp hr'
    by_cases hc : r.id = taskID
    · simp [hc] at hrr
      rw [← hrr]
      simp
    · simp [hc] at hrr
      rw [← hrr] at hid
      exact absurd hid hc

/-- The happy path of C10 on concrete data: a create request, a claim and a process
step against a provider that returns one URL leave the task succeeded with that URL
and a `completed_at`. -/
theorem succeeded_task_has_images_witness :
    engineRun sampleConstants 3 []
        [(EngineEvent.create 1
            { model := "m1", prompt := "cat", resolution := "", aspectRatio := "",
              referenceImage := "", count := 0 } "t1", 100000000000),
         (EngineEvent.claim false, 102000000000),
         (EngineEvent.process (claimed sampleTask 102000000000) sampleWorld 0, 103000000000)] =
      [{ sampleTask with status := "succeeded", imageURLs := ["https://x/1.png"],
                         updatedAt := 103, completedAt := some 103 }] ∧
    SucceededComplete (engineRun sampleConstants 3 []
        [(EngineEvent.create 1
            { model := "m1", prompt := "cat", resolution := "", aspectRatio := "",
              referenceImage := "", count := 0 } "t1", 100000000000),
         (EngineEvent.claim false, 102000000000),
         (EngineEvent.process (claimed sampleTask 102000000000) sampleWorld 0, 103000000000)]) :=
  ⟨by decide, (succeeded_task_has_images sampleConstants 3).1 _⟩

end ImageWorker

namespace TaskStore

/-! ## Status and terminal writes, row by row -/

theorem Rowwise_map (R : ImageGenerationTask → ImageGenerationTask → Prop) (db : Store)
    (f : ImageGenerationTask → ImageGenerationTask) (h : ∀ r ∈ db, R r (f r)) :
    Rowwise R db (db.map f) := by
  unfold Rowwise
  induction db with
  | nil => exact List.Forall₂.nil
  | cons a rest ih =>
    exact List.Forall₂.cons (h a (List.mem_cons_self _ _))
      (ih (fun r hr => h r (List.mem_cons_of_mem _ hr)))

/-- The claim C13 as stated fails for `MarkRunning`: applied to the id of a failed
row it makes that row `running`. -/
theorem markRunning_revives_failed :
    (MarkFailed [sampleTask] "t1" "boom" 300000000000).map (fun r => r.status) = ["failed"] ∧
    (MarkRunning (MarkFailed [sampleTask] "t1" "boom" 300000000000) "t1" 400000000000).map
      (fun r => r.status) = ["running"] := by
  decide

/-- C13 (amended): `ClaimNextPending` (either path, table keyed by `id`) sets
`running` only on a row that was `pending` and leaves the status of every other row
as it was; `MarkRunning` sets `running` on every row with the given id, whatever its
status was, and leaves the other rows unchanged. -/
theorem running_only_from_pending_by_claim (db : Store) (skipLocked : Bool) (now stamp : Int)
    (hkey : (db.map (fun r => r.id)).Nodup) :
    Rowwise OnlyPendingToRunning db (ClaimNextPending skipLocked db now stamp).2 ∧
    (∀ taskID : String, MarkRunning db taskID now =
      db.map (fun r => if r.id = taskID
        then { r with status := "running", updatedAt := unixSec now } else r)) := by
  constructor
  · simp only [ClaimNextPending]
    cases skipLocked with
    | false =>
      simp only [Bool.false_eq_true, if_false, ClaimNextPendingCAS]
      have hupd : ∀ id, Rowwise OnlyPendingToRunning db (claimUpdate db id stamp).1 := by
        intro id
        simp only [claimUpdate, updateWhere]
        apply Rowwise_map
        intro r _
        by_cases hc : (r.id == id && r.status == "pending") = true
        · rw [if_pos hc]
          simp only [Bool.and_eq_true, beq_iff_eq] at hc
          exact ⟨rfl, Or.inr ⟨hc.2, rfl⟩⟩
        · rw [if_neg hc]
          exact ⟨rfl, Or.inl rfl⟩
      cases hsel : claimSelect db now with
      | none =>
        simp only
        have := Rowwise_map OnlyPendingToRunning db id (fun r _ => ⟨rfl, Or.inl rfl⟩)
        simpa using this
      | some task =>
        simp only
        split <;> exact hupd task.id
    | true =>
      simp only [if_true, ClaimNextPendingLocked]
      cases hsel : claimSelect db now with
      | none =>
        simp only
        have := Rowwise_map OnlyPendingToRunning db id (fun r _ => ⟨rfl, Or.inl rfl⟩)
        simpa using this
      | some task =>
        simp only
        have hmem := (firstOrdered_some _ _ hsel).1
        rw [List.mem_filter] at hmem
        have hp : task.status = "pending" := by
          have := hmem.2
          simp only [eligible, Bool.and_eq_true, beq_iff_eq] at this
          exact this.1
        apply Rowwise_map
        intro r hr
        by_cases hc : r.id = task.id
        · have hrt := eq_of_id_eq hkey hr hmem.1 hc
          subst hrt
          simp [OnlyPendingToRunning, hp]
        · simp [OnlyPendingToRunning, hc]
  · intro taskID
    simp only [MarkRunning, updateWhere]
    apply List.map_congr_left
    intro r _
    by_cases hc : r.id = taskID <;> simp [hc]

theorem running_only_from_pending_by_claim_witness :
    Rowwise OnlyPendingToRunning [sampleTask]
      (ClaimNextPending false [sampleTask] 200000000000 200000000000).2 ∧
    (∀ taskID : String, MarkRunning [sampleTask] taskID 200000000000 =
      [sampleTask].map (fun r => if r.id = taskID
        then { r with status := "running", updatedAt := unixSec 200000000000 } else r)) :=
  running_only_from_pending_by_claim [sampleTask] false 200000000000 200000000000 (by decide)

/-- Across clock seconds the later call stamps `completed_at` again: `MarkFailed` at
second 300 and again at second 400 leaves `completed_at = 400`, one call at second
300 leaves 300. -/
theorem markFailed_restamps_completedAt :
    (MarkFailed [sampleTask] "t1" "boom" 300000000000).map (fun r => r.completedAt) =
      [some 300] ∧
    (MarkFailed (MarkFailed [sampleTask] "t1" "boom" 300000000000) "t1" "boom"
      400000000000).map (fun r => r.completedAt) = [some 400] := by
  decide

/-- A second `MarkFailed(id, m)` at another clock reading overrides the first: the
table is the one a single call at the second clock reading gives.  Hence every row
agrees with the row after one call on status, error_message, last_error,
next_attempt_at, attempts and image_urls, and on `completed_at` when the two calls
read the same clock second; otherwise `completed_at` is the second of the later
call. -/
theorem MarkFailed_twice (db : Store) (taskID errorMsg : String) (t1 t2 : Int) :
    MarkFailed (MarkFailed db taskID errorMsg t1) taskID errorMsg t2 =
      MarkFailed db taskID errorMsg t2 ∧
    Rowwise SameOutcome (MarkFailed db taskID errorMsg t1)
      (MarkFailed (MarkFailed db taskID errorMsg t1) taskID errorMsg t2) ∧
    (unixSec t1 = unixSec t2 →
      MarkFailed (MarkFailed db taskID errorMsg t1) taskID errorMsg t2 =
        MarkFailed db taskID errorMsg t1) ∧
    (∀ r ∈ MarkFailed (MarkFailed db taskID errorMsg t1) taskID errorMsg t2,
      r.id = taskID → r.completedAt = some (unixSec t2)) := by
  have hover : MarkFailed (MarkFailed db taskID errorMsg t1) taskID errorMsg t2 =
      MarkFailed db taskID errorMsg t2 := by
    simp only [MarkFailed, updateWhere, List.map_map]
    apply List.map_congr_left
    intro r _
    by_cases hc : r.id = taskID <;> simp [hc]
  refine ⟨hover, ?_, ?_, ?_⟩
  · simp only [MarkFailed, updateWhere]
    apply Rowwise_map
    intro r hr
    obtain ⟨r0, _, rfl⟩ := List.mem_map.mp hr
    by_cases hc : r0.id = taskID <;> simp [hc, SameOutcome]
  · intro hsec
    rw [hover]
    simp only [MarkFailed, hsec]
  · intro r hr hid
    rw [hover] at hr
    simp only [MarkFailed, updateWhere] at hr
    obtain ⟨r0, _, rfl⟩ := List.mem_map.mp hr
    by_cases hc : r0.id = taskID
    · simp [hc]
    · simp [hc] at hid

/-- C14: `MarkFailed` is idempotent on the table, hence on every row.  For every
store, task id, message and clock value, applying `MarkFailed(id, m)` twice gives the
table that applying it once gives; in particular every row has the same status,
error_message, last_error, next_attempt_at, completed_at, attempts and image_urls.
The same holds when the second call reads another clock value of the same second. -/
theorem MarkFailed_idempotent (db : Store) (taskID errorMsg : String) (now : Int) :
    MarkFailed (MarkFailed db taskID errorMsg now) taskID errorMsg now =
      MarkFailed db taskID errorMsg now ∧
    (MarkFailed (MarkFailed db taskID errorMsg now) taskID errorMsg now).map
        (fun r => (r.status, r.errorMessage, r.lastError, r.nextAttemptAt, r.completedAt,
          r.attempts, r.imageURLs)) =
      (MarkFailed db taskID errorMsg now).map
        (fun r => (r.status, r.errorMessage, r.lastError, r.nextAttemptAt, r.completedAt,
          r.attempts, r.imageURLs)) ∧
    (∀ later : Int, unixSec later = unixSec now →
      MarkFailed (MarkFailed db taskID errorMsg now) taskID errorMsg later =
        MarkFailed db taskID errorMsg now) := by
  have hsame : ∀ later : Int, unixSec later = unixSec now →
      MarkFailed (MarkFailed db taskID errorMsg now) taskID errorMsg later =
        MarkFailed db taskID errorMsg now :=
    fun later h => (MarkFailed_twice db taskID errorMsg now later).2.2.1 h.symm
  exact ⟨hsame now rfl, by rw [hsame now rfl], hsame⟩

/-- The claim C15 as stated fails when `now - stale_after` is not a whole second: with
`stale_after` = 360.5 s and `now` = 800.3 s the bound is 439.8 s, so a running row
with `updated_at` = 439 s is below it, yet `ResetZombieRunning` returns 0 and leaves
the row running: it compares with `(now - staleAfter).Unix()` = 439. -/
theorem resetZombie_compares_whole_seconds :
    ((439 : Int) * 1000000000 < 800300000000 - 360500000000) ∧
    ResetZombieRunning [{ sampleTask with status := "running", updatedAt := 439 }]
        360500000000 800300000000 800300000000 =
      (0, [{ sampleTask with status := "running", updatedAt := 439 }]) := by
  decide

/-- C15 (amended): `ResetZombieRunning`, with stale threshold `(now - staleAfter).Unix()`
from its first clock reading and `stamp` its second, rewrites exactly the rows that
are `running` with `updated_at` below the threshold, which are the rows with
`updated_at + 1 s ≤ now - staleAfter`: each becomes `pending` with
`next_attempt_at = updated_at = stamp.Unix()` and all other fields (attempts
included) as before, every other row is unchanged, and the count returned is the
number of those rows.  A rewritten row differs from the old one and is eligible for
`ClaimNextPending` at every clock reading from `stamp` on.  A repeated call returns
0 when no further running row has fallen below its threshold, in particular when it
is made at the same clock reading. -/
theorem ResetZombieRunning_exact (db : Store) (staleAfter now stamp : Int) :
    (ResetZombieRunning db staleAfter now stamp).1 =
      db.countP (fun r => r.status == "running" &&
        decide (r.updatedAt < unixSec (now - staleAfter))) ∧
    (ResetZombieRunning db staleAfter now stamp).2 =
      db.map (fun r =>
        if r.status = "running" ∧ r.updatedAt < unixSec (now - staleAfter)
        then { r with status := "pending", nextAttemptAt := some (unixSec stamp),
                      updatedAt := unixSec stamp }
        else r) ∧
    (∀ r : ImageGenerationTask, r.status = "running" →
      ({ r with status := "pending", nextAttemptAt := some (unixSec stamp),
                updatedAt := unixSec stamp } : ImageGenerationTask) ≠ r ∧
      ∀ t, stamp ≤ t →
        eligible (unixSec t)
          { r with status := "pending", nextAttemptAt := some (unixSec stamp),
                   updatedAt := unixSec stamp } = true) ∧
    (∀ now2 stamp2 : Int,
      (∀ r ∈ db, r.status = "running" → unixSec (now - staleAfter) ≤ r.updatedAt →
        unixSec (now2 - staleAfter) ≤ r.updatedAt) →
      (ResetZombieRunning (ResetZombieRunning db staleAfter now stamp).2
        staleAfter now2 stamp2).1 = 0) ∧
    (∀ stamp2 : Int,
      (ResetZombieRunning (ResetZombieRunning db staleAfter now stamp).2
        staleAfter now stamp2).1 = 0) ∧
    (∀ u : Int, u < unixSec (now - staleAfter) ↔
      (u + 1) * 1000000000 ≤ now - staleAfter) := by
  have hrepeat : ∀ now2 stamp2 : Int,
      (∀ r ∈ db, r.status = "running" → unixSec (now - staleAfter) ≤ r.updatedAt →
        unixSec (now2 - staleAfter) ≤ r.updatedAt) →
      (ResetZombieRunning (ResetZombieRunning db staleAfter now stamp).2
        staleAfter now2 stamp2).1 = 0 := by
    intro now2 stamp2 hnew
    simp only [ResetZombieRunning, updateWhere]
    rw [List.countP_eq_zero]
    intro r' hr'
    obtain ⟨r, hr, rfl⟩ := List.mem_map.mp hr'
    by_cases hc : (r.status == "running" &&
        decide (r.updatedAt < unixSec (now - staleAfter))) = true
    · rw [if_pos hc]
      simp
    · rw [if_neg hc]
      simp only [Bool.and_eq_true, beq_iff_eq, decide_eq_true_eq, not_and, not_lt] at hc ⊢
      intro hrun
      exact hnew r hr hrun (hc hrun)
  refine ⟨rfl, ?_, ?_, hrepeat, ?_, ?_⟩
  · simp only [ResetZombieRunning, updateWhere]
    apply List.map_congr_left
    intro r _
    by_cases hs : r.status = "running" <;>
      by_cases hu : r.updatedAt < unixSec (now - staleAfter) <;> simp [hs, hu]
  · intro r hrun
    constructor
    · intro h
      have := congrArg ImageGenerationTask.status h
      simp only at this
      rw [hrun] at this
      exact absurd this (by decide)
    · intro t ht
      have : unixSec stamp ≤ unixSec t := by
        unfold unixSec
        omega
      simp [eligible, this]
  · intro stamp2
    exact hrepeat now stamp2 (fun _ _ _ h => h)
  · intro u
    unfold unixSec
    omega

end TaskStore

namespace ImageWorker

open TaskStore

/-! ## Invariant I2: a failed task has its message -/

theorem append_ne_empty (s t : String) (h : s ≠ "") : s ++ t ≠ "" := by
  intro he
  apply h
  have hd : (s ++ t).data = [] := by rw [he]
  rw [String.data_append] at hd
  exact String.ext (List.append_eq_nil.mp hd).1

theorem selectChannel_ok (c : Constants) (w : World) (modelID : String) (channel : Channel)
    (h : selectChannel c w modelID = Except.ok channel) :
    ∃ id, w.getChannelById id = Except.ok channel := by
  unfold selectChannel at h
  split at h
  · exact absurd h (by simp)
  · rename_i channelId _
    split at h
    · exact absurd h (by simp)
    · rename_i channel' hget
      split at h
      · exact absurd h (by simp)
      · cases h
        exact ⟨channelId, hget⟩

theorem adapterResponse_error_named {α : Type} (apiError : α → Option String)
    (channel : Channel) (exchange : HttpExchange α) (err : GoError)
    (hkey : ∀ e, channel.nextKey = Except.error e → e.msg ≠ "")
    (h : adapterResponse apiError channel exchange = Except.error err) : err.msg ≠ "" := by
  unfold adapterResponse at h
  split at h
  · rename_i e he
    cases h
    exact hkey _ he
  · split at h
    · cases h; exact append_ne_empty _ _ (by decide)
    · cases h; exact append_ne_empty _ _ (by decide)
    · cases h; exact append_ne_empty _ _ (by decide)
    · cases h; exact append_ne_empty _ _ (by decide)
    · split at h
      · cases h
        simp only [errorf, String.append_assoc]
        exact append_ne_empty _ _ (by decide)
      · split at h
        · cases h; exact append_ne_empty _ _ (by decide)
        · split at h
          · cases h; exact append_ne_empty _ _ (by decide)
          · exact absurd h (by simp)

theorem generateOpenAI_error_named (channel : Channel) (exchange : HttpExchange OpenAIResponse)
    (err : GoError) (hkey : ∀ e, channel.nextKey = Except.error e → e.msg ≠ "")
    (h : generateOpenAI channel exchange = Except.error err) : err.msg ≠ "" := by
  unfold generateOpenAI at h
  split at h
  · rename_i e he
    cases h
    exact adapterResponse_error_named _ _ _ _ hkey he
  · simp only at h
    split at h
    · cases h; decide
    · exact absurd h (by simp)

theorem generateGemini_error_named (channel : Channel) (exchange : HttpExchange GeminiResponse)
    (err : GoError) (hkey : ∀ e, channel.nextKey = Except.error e → e.msg ≠ "")
    (h : generateGemini channel exchange = Except.error err) : err.msg ≠ "" := by
  unfold generateGemini at h
  split at h
  · rename_i e he
    cases h
    exact adapterResponse_error_named _ _ _ _ hkey he
  · simp only at h
    split at h
    · cases h; decide
    · exact absurd h (by simp)

/-- Every error `Generate` returns has a non-empty message, when the key-rotation
hook's errors have one. -/
theorem Generate_error_named (c : Constants) (w : World) (task : ImageGenerationTask)
    (err : GoError) (hw : KeyErrorsNamed w) (h : Generate c w task = Except.error err) :
    err.msg ≠ "" := by
  unfold Generate at h
  split at h
  · cases h; decide
  split at h
  · cases h; decide
  split at h
  · cases h; exact append_ne_empty _ _ (by decide)
  rename_i channel hsel
  obtain ⟨id, hget⟩ := selectChannel_ok c w task.modelID channel hsel
  have hkey : ∀ e, channel.nextKey = Except.error e → e.msg ≠ "" :=
    fun e he => hw id channel e hget he
  simp only at h
  split at h
  · rename_i e hgen
    cases h
    split at hgen
    · exact generateOpenAI_error_named _ _ _ hkey hgen
    · split at hgen
      · exact generateGemini_error_named _ _ _ hkey hgen
      · exact generateOpenAI_error_named _ _ _ hkey hgen
  · split at h
    · exact absurd h (by simp)
    · split at h <;> exact absurd h (by simp)

theorem MarkFailed_row (db : Store) (taskID errorMsg : String) (now : Int) :
    ∀ r ∈ MarkFailed db taskID errorMsg now, r.id = taskID →
      r.status = "failed" ∧ r.errorMessage = errorMsg ∧ r.nextAttemptAt = none := by
  intro r' hr' hid
  simp only [MarkFailed, updateWhere] at hr'
  obtain ⟨r, _, rfl⟩ := List.mem_map.mp hr'
  by_cases hc : r.id = taskID
  · simp [hc]
  · simp [hc] at hid

theorem FailedComplete_updateWhere (db : Store) (cond : ImageGenerationTask → Bool)
    (set : ImageGenerationTask → ImageGenerationTask)
    (hset : ∀ r ∈ db, cond r = true → (set r).status = "failed" →
      (set r).errorMessage ≠ "" ∧ (set r).nextAttemptAt = none)
    (hinv : FailedComplete db) : FailedComplete (updateWhere cond set db).1 := by
  intro r' hr' hs
  simp only [updateWhere] at hr'
  obtain ⟨r, hr, rfl⟩ := List.mem_map.mp hr'
  by_cases hc : cond r = true
  · rw [if_pos hc] at hs ⊢
    exact hset r hr hc hs
  · rw [if_neg hc] at hs ⊢
    exact hinv r hr hs

theorem FailedComplete_MarkFailed (db : Store) (taskID msg : String) (now : Int)
    (hmsg : msg ≠ "") (hinv : FailedComplete db) :
    FailedComplete (MarkFailed db taskID msg now) := by
  apply FailedComplete_updateWhere _ _ _ _ hinv
  intro r _ _ _
  exact ⟨hmsg, rfl⟩

theorem FailedComplete_processTask (c : Constants) (maxRetries : Int) (w : World) (draw : ℚ)
    (db : Store) (task : ImageGenerationTask) (now : Int) (hw : KeyErrorsNamed w)
    (hinv : FailedComplete db) :
    FailedComplete (processTask c maxRetries w draw db task now) := by
  unfold processTask
  split
  · exact FailedComplete_MarkFailed _ _ _ _
      (append_ne_empty _ _ (append_ne_empty _ _ (by decide))) hinv
  split
  · exact FailedComplete_MarkFailed _ _ _ _ (append_ne_empty _ _ (by decide)) hinv
  split
  · rename_i err hgen
    split
    · apply FailedComplete_updateWhere _ _ _ _ hinv
      intro r _ _ hs
      simp at hs
    · exact FailedComplete_MarkFailed _ _ _ _ (Generate_error_named c w task err hw hgen) hinv
  · apply FailedComplete_updateWhere _ _ _ _ hinv
    intro r _ _ hs
    simp at hs

theorem FailedComplete_engineStep (c : Constants) (maxRetries : Int) (db : Store) (now : Int)
    (ev : EngineEvent)
    (hw : ∀ task w draw, ev = EngineEvent.process task w draw → KeyErrorsNamed w)
    (hinv : FailedComplete db) : FailedComplete (engineStep c maxRetries db now ev) := by
  cases ev with
  | create userID req taskID =>
    simp only [engineStep, TaskStore.Insert]
    split
    · exact hinv
    · intro r hr hs
      rcases List.mem_append.mp hr with h | h
      · exact hinv r h hs
      · rw [List.mem_singleton] at h
        subst h
        simp [BeforeCreate, newImageTask] at hs
  | claim skipLocked =>
    simp only [engineStep, ClaimNextPending]
    cases skipLocked with
    | false =>
      simp only [Bool.false_eq_true, if_false, ClaimNextPendingCAS]
      cases hsel : claimSelect db now with
      | none => exact hinv
      | some task =>
        simp only
        have hupd : FailedComplete (claimUpdate db task.id now).1 := by
          apply FailedComplete_updateWhere _ _ _ _ hinv
          intro r _ _ hs
          simp at hs
        split <;> exact hupd
    | true =>
      simp only [if_true, ClaimNextPendingLocked]
      cases hsel : claimSelect db now with
      | none => exact hinv
      | some task =>
        simp only
        intro r' hr' hs
        obtain ⟨r, hr, rfl⟩ := List.mem_map.mp hr'
        split at hs
        · simp at hs
        · rename_i hc
          rw [if_neg hc]
          exact hinv r hr hs
  | process task w draw =>
    exact FailedComplete_processTask c maxRetries w draw db task now (hw task w draw rfl) hinv
  | sweep staleAfter =>
    simp only [engineStep, ResetZombieRunning]
    apply FailedComplete_updateWhere _ _ _ _ hinv
    intro r _ _ hs
    simp at hs

theorem FailedComplete_engineRun (c : Constants) (maxRetries : Int) :
    ∀ (events : List (EngineEvent × Int)) (db : Store),
      (∀ e ∈ events, ∀ task w draw, e.1 = EngineEvent.process task w draw → KeyErrorsNamed w) →
      FailedComplete db → FailedComplete (engineRun c maxRetries db events) := by
  intro events
  induction events with
  | nil => intro db _ h; exact h
  | cons e rest ih =>
    intro db hw h
    obtain ⟨ev, now⟩ := e
    simp only [engineRun]
    apply ih
    · intro e he
      exact hw e (List.mem_cons_of_mem _ he)
    · exact FailedComplete_engineStep c maxRetries db now ev
        (hw (ev, now) (List.mem_cons_self _ _)) h

/-- The claim C11 as stated fails for the empty message: `MarkFailed(id, "")` leaves
the row failed with an empty `error_message`. -/
theorem markFailed_empty_message :
    (MarkFailed [sampleTask] "t1" "" 300000000000).map
      (fun r => (r.status, r.errorMessage, r.nextAttemptAt)) = [("failed", "", none)] := by
  decide

/-- C11 (amended): after `MarkFailed(id, msg)` the rows with that id are failed with
`error_message = msg` (non-empty exactly when `msg` is) and `next_attempt_at` null.
A worker process step that leaves its task failed (pre-check, panic shield,
non-retryable or exhausted error) leaves it with a non-empty `error_message` and a
null `next_attempt_at`, and so does every run of the engine from the empty table,
provided the errors of the key-rotation hook, which `Generate` passes on unwrapped,
have a non-empty message. -/
theorem failed_task_has_message (c : Constants) (maxRetries : Int) :
    (∀ (db : Store) (taskID errorMsg : String) (now : Int),
      ∀ r ∈ MarkFailed db taskID errorMsg now, r.id = taskID →
        r.status = "failed" ∧ r.errorMessage = errorMsg ∧ r.nextAttemptAt = none) ∧
    (∀ (w : World) (draw : ℚ) (db : Store) (task : ImageGenerationTask) (now : Int),
      KeyErrorsNamed w →
      ∀ r ∈ processTask c maxRetries w draw db task now,
        r.id = task.id → r.status = "failed" → r.errorMessage ≠ "" ∧ r.nextAttemptAt = none) ∧
    (∀ events : List (EngineEvent × Int),
      (∀ e ∈ events, ∀ task w draw, e.1 = EngineEvent.process task w draw → KeyErrorsNamed w) →
      FailedComplete (engineRun c maxRetries [] events)) := by
  refine ⟨MarkFailed_row, ?_, ?_⟩
  · intro w draw db task now hw r' hr' hid hs
    have hfailed : ∀ msg, msg ≠ "" → r' ∈ MarkFailed db task.id msg now →
        r'.errorMessage ≠ "" ∧ r'.nextAttemptAt = none := by
      intro msg hmsg hm
      obtain ⟨-, he, hn⟩ := MarkFailed_row db task.id msg now r' hm hid
      exact ⟨by rw [he]; exact hmsg, hn⟩
    have hother : ∀ (set : ImageGenerationTask → ImageGenerationTask),
        (∀ r, (set r).status ≠ "failed" ∧ (set r).id = r.id) →
        r' ∈ (updateWhere (fun r => r.id == task.id) set db).1 → False := by
      intro set hset hm
      simp only [updateWhere] at hm
      obtain ⟨r, _, hrr⟩ := List.mem_map.mp hm
      by_cases hc : r.id = task.id
      · simp [hc] at hrr
        rw [← hrr] at hs
        exact (hset r).1 hs
      · simp [hc] at hrr
        rw [← hrr] at hid
        exact hc hid
    unfold processTask at hr'
    split at hr'
    · exact hfailed _ (append_ne_empty _ _ (append_ne_empty _ _ (by decide))) hr'
    split at hr'
    · exact hfailed _ (append_ne_empty _ _ (by decide)) hr'
    split at hr'
    · rename_i err hgen
      split at hr'
      · exact absurd hr' (hother _ (fun r => ⟨by simp, rfl⟩))
      · exact hfailed _ (Generate_error_named c w task err hw hgen) hr'
    · exact absurd hr' (hother _ (fun r => ⟨by simp, rfl⟩))
  · intro events hw
    exact FailedComplete_engineRun c maxRetries events [] hw
      (fun _ h => absurd h (List.not_mem_nil _))

theorem failed_task_has_message_witness :
    processTask sampleConstants 3 unauthorizedWorld 0 [claimed sampleTask 102000000000]
        (claimed sampleTask 102000000000) 103000000000 =
      [{ sampleTask with status := "failed", updatedAt := 103, completedAt := some 103,
                         errorMessage := "request failed with status 401: unauthorized",
                         lastError := "request failed with status 401: unauthorized" }] ∧
    ∀ r ∈ processTask sampleConstants 3 unauthorizedWorld 0 [claimed sampleTask 102000000000]
        (claimed sampleTask 102000000000) 103000000000,
      r.id = (claimed sampleTask 102000000000).id → r.status = "failed" →
        r.errorMessage ≠ "" ∧ r.nextAttemptAt = none :=
  ⟨by decide,
   (failed_task_has_message sampleConstants 3).2.1 unauthorizedWorld 0
    [claimed sampleTask 102000000000] (claimed sampleTask 102000000000) 103000000000
    (by
      intro id channel e hget hkey
      simp only [unauthorizedWorld, sampleWorld, Except.ok.injEq] at hget
      subst hget
      simp at hkey)⟩

end ImageWorker

namespace ImageWorker

open TaskStore

/-! ## The retry classifier on bytes -/

theorem goBytes_append (s t : String) : goBytes (s ++ t) = goBytes s ++ goBytes t := by
  simp [goBytes, String.data_append]

theorem toLower_append (a b : List Nat) : toLower (a ++ b) = toLower a ++ toLower b := by
  simp [toLower]

theorem toLower_length (a : List Nat) : (toLower a).length = a.length := by
  simp [toLower]

/-- The scan of `containsIgnoreCase` finds a window exactly when the needle is an infix. -/
theorem windowScan_iff (s k : List Nat) :
    (List.range (s.length + 1 - k.length)).any (fun i => (s.drop i).take k.length == k) = true
      ↔ k <:+: s := by
  rw [List.any_eq_true]
  constructor
  · rintro ⟨i, -, hi⟩
    have hi2 : (s.drop i).take k.length = k := by simpa using hi
    refine ⟨s.take i, (s.drop i).drop k.length, ?_⟩
    have h1 : (s.drop i).take k.length ++ (s.drop i).drop k.length = s.drop i :=
      List.take_append_drop _ _
    rw [hi2] at h1
    rw [List.append_assoc, h1, List.take_append_drop]
  · rintro ⟨a, b, rfl⟩
    refine ⟨a.length, ?_, ?_⟩
    · rw [List.mem_range]
      simp only [List.length_append]
      omega
    · simp

theorem containsIgnoreCase_iff (s k : List Nat) :
    containsIgnoreCase s k = true ↔ toLower k <:+: toLower s := by
  unfold containsIgnoreCase
  exact windowScan_iff (toLower s) (toLower k)

theorem contains_iff (s k : List Nat) :
    contains s k = true ↔ s = k ∨ (k.length < s.length ∧ toLower k <:+: toLower s) := by
  unfold contains
  rw [Bool.and_eq_true, Bool.or_eq_true, Bool.and_eq_true, containsIgnoreCase_iff]
  simp only [decide_eq_true_eq, beq_iff_eq, ge_iff_le, gt_iff_lt]
  constructor
  · rintro ⟨-, h⟩
    exact h
  · rintro (h | ⟨h1, h2⟩)
    · exact ⟨by rw [h], Or.inl h⟩
    · exact ⟨Nat.le_of_lt h1, Or.inr ⟨h1, h2⟩⟩

/-- A needle without the byte `x` lies on one side of an `x` in the haystack. -/
theorem infix_split_of_not_mem (k a b : List Nat) (x : Nat) (hx : x ∉ k)
    (h : k <:+: a ++ x :: b) : k <:+: a ∨ k <:+: b := by
  obtain ⟨p, q, hpq⟩ := h
  rw [List.append_eq_append_iff] at hpq
  rcases hpq with ⟨a', ha, -⟩ | ⟨c', hc, hq⟩
  · exact Or.inl ⟨p, a', ha.symm⟩
  · cases c' with
    | nil =>
      rw [List.append_nil] at hc
      exact Or.inl ⟨p, [], by rw [List.append_nil]; exact hc⟩
    | cons y c'' =>
      rw [List.cons_append, List.cons.injEq] at hq
      obtain ⟨hy, hb⟩ := hq
      subst hy
      have hc2 : p ++ k = a ++ x :: c'' := hc
      rw [List.append_eq_append_iff] at hc2
      rcases hc2 with ⟨a', -, hk⟩ | ⟨c3, -, hk⟩
      · exact absurd (by rw [hk]; simp) hx
      · cases c3 with
        | nil =>
          rw [List.nil_append] at hk
          exact absurd (by rw [← hk]; simp) hx
        | cons z c4 =>
          rw [List.cons_append, List.cons.injEq] at hk
          exact Or.inr ⟨c4, q, by rw [hb, hk.2]⟩

/-- A needle that does not start with `x` and occurs in `x :: b` occurs in `b`. -/
theorem infix_tail_of_head_ne (k b : List Nat) (x : Nat) (hne : k ≠ [])
    (hx : k.head? ≠ some x) (h : k <:+: x :: b) : k <:+: b := by
  rw [List.infix_cons_iff] at h
  rcases h with h | h
  · obtain ⟨t, ht⟩ := h
    cases k with
    | nil => exact absurd rfl hne
    | cons y k' =>
      rw [List.cons_append, List.cons.injEq] at ht
      exact absurd (by rw [ht.1]; rfl) hx
  · exact h

theorem utf8Bytes_digitChar (d : Nat) (hd : d < 10) : utf8Bytes (Nat.digitChar d) = [48 + d] := by
  revert d
  decide

theorem toDigits_three (n : Nat) (h1 : 100 ≤ n) (h2 : n ≤ 999) :
    Nat.toDigits 10 n =
      [Nat.digitChar (n / 100), Nat.digitChar (n / 10 % 10), Nat.digitChar (n % 10)] := by
  obtain ⟨m, rfl⟩ : ∃ m, n = m + 100 := ⟨n - 100, by omega⟩
  have e1 : (m + 100) / 10 ≠ 0 := by omega
  have e2 : (m + 100) / 10 / 10 ≠ 0 := by omega
  have e3 : (m + 100) / 10 / 10 / 10 = 0 := by omega
  have e4 : (m + 100) / 10 / 10 % 10 = (m + 100) / 100 := by omega
  simp [Nat.toDigits, Nat.toDigitsCore, e1, e2, e3, e4]

theorem goBytes_statusCode (c : Int) (h1 : 100 ≤ c) (h2 : c ≤ 999) :
    goBytes (toString c) =
      [48 + c.toNat / 100, 48 + c.toNat / 10 % 10, 48 + c.toNat % 10] := by
  obtain ⟨n, rfl⟩ : ∃ n : Nat, c = (n : Int) := ⟨c.toNat, by omega⟩
  have hn1 : 100 ≤ n := by omega
  have hn2 : n ≤ 999 := by omega
  have : toString (n : Int) = ⟨Nat.toDigits 10 n⟩ := rfl
  rw [this, toDigits_three n hn1 hn2]
  simp only [goBytes, String.toList, List.flatMap_cons, List.flatMap_nil, List.append_nil,
    Int.toNat_ofNat]
  rw [utf8Bytes_digitChar _ (by omega), utf8Bytes_digitChar _ (by omega),
    utf8Bytes_digitChar _ (by omega)]
  rfl

theorem isRetryableImageError_iff (e : GoError) :
    isRetryableImageError (some e) = true ↔
      e.isDeadlineExceeded = true ∨ e.isNetTimeout = true ∨
        ∃ k ∈ retryableStatusCodes ++ retryableKeywords,
          contains (goBytes e.msg) (goBytes k) = true := by
  unfold isRetryableImageError
  simp only [List.any_eq_true, List.mem_append]
  constructor
  · intro h
    split at h
    · exact Or.inl ‹_›
    · split at h
      · exact Or.inr (Or.inl ‹_›)
      · split at h
        · rename_i hk
          obtain ⟨k, hk1, hk2⟩ := hk
          exact Or.inr (Or.inr ⟨k, Or.inl hk1, hk2⟩)
        · split at h
          · rename_i hk
            obtain ⟨k, hk1, hk2⟩ := hk
            exact Or.inr (Or.inr ⟨k, Or.inr hk1, hk2⟩)
          · exact absurd h (by decide)
  · intro h
    split
    · rfl
    · split
      · rfl
      · split
        · rfl
        · split
          · rfl
          · rename_i h1 h2 h3 h4
            rcases h with h | h | ⟨k, hk | hk, hc⟩
            · exact absurd h h1
            · exact absurd h h2
            · exact absurd ⟨k, hk, hc⟩ h3
            · exact absurd ⟨k, hk, hc⟩ h4

theorem infix_of_foreign_tail (k d : List Nat) (hk : k ≠ []) (hd : ∀ x ∈ d, x ∉ k) :
    ∀ a : List Nat, k <:+: a ++ d → k <:+: a := by
  induction d with
  | nil => intro a h; simpa using h
  | cons x d ih =>
    intro a h
    rcases infix_split_of_not_mem k a d x (hd x (by simp)) h with h1 | h1
    · exact h1
    · have h2 : k <:+: [] := ih (fun y hy => hd y (by simp [hy])) [] (by simpa using h1)
      exact absurd (List.infix_nil.mp h2) hk

theorem range21 : List.range 21 =
    [0, 1, 2, 3, 4, 5, 6, 7, 8, 9, 10, 11, 12, 13, 14, 15, 16, 17, 18, 19, 20] := by decide

theorem statusToken_window (e1 e2 e3 d1 d2 d3 : Nat) :
    [115, 116, 97, 116, 117, 115, 32, e1, e2, e3] <:+:
        [114, 101, 113, 117, 101, 115, 116, 32, 102, 97, 105, 108, 101, 100, 32, 119, 105,
          116, 104, 32, 115, 116, 97, 116, 117, 115, 32, d1, d2, d3]
      ↔ d1 = e1 ∧ d2 = e2 ∧ d3 = e3 := by
  rw [← windowScan_iff]
  simp [range21]

theorem retryableKeys_shape :
    ∀ k ∈ retryableStatusCodes ++ retryableKeywords,
      58 ∉ toLower (goBytes k) ∧ toLower (goBytes k) ≠ [] ∧
        (toLower (goBytes k)).head? ≠ some 32 ∧ (goBytes k).length ≤ 18 := by
  decide

theorem retryableKeywords_no_digit :
    ∀ k ∈ retryableKeywords, ∀ x ∈ toLower (goBytes k), ¬ (48 ≤ x ∧ x ≤ 57) := by
  decide

theorem retryableKeywords_not_in_head :
    ∀ k ∈ retryableKeywords,
      ¬ toLower (goBytes k) <:+: goBytes "request failed with status " := by
  decide

theorem statusHead_bytes : goBytes "request failed with status " =
    [114, 101, 113, 117, 101, 115, 116, 32, 102, 97, 105, 108, 101, 100, 32, 119, 105,
      116, 104, 32, 115, 116, 97, 116, 117, 115, 32] := by
  decide

/-- The bytes of the message an adapter makes for a non-200 response. -/
theorem statusMessage_bytes (c : Int) (body : String) (h1 : 100 ≤ c) (h2 : c ≤ 999) :
    toLower (goBytes ("request failed with status " ++ toString c ++ ": " ++ body)) =
      (goBytes "request failed with status " ++
        [48 + c.toNat / 100, 48 + c.toNat / 10 % 10, 48 + c.toNat % 10]) ++
        58 :: 32 :: toLower (goBytes body) := by
  rw [goBytes_append, goBytes_append, goBytes_append, goBytes_statusCode c h1 h2,
    toLower_append, toLower_append, toLower_append]
  have hP : toLower (goBytes "request failed with status ") =
      goBytes "request failed with status " := by decide
  have hS : toLower (goBytes ": ") = [58, 32] := by decide
  have hD : toLower [48 + c.toNat / 100, 48 + c.toNat / 10 % 10, 48 + c.toNat % 10] =
      [48 + c.toNat / 100, 48 + c.toNat / 10 % 10, 48 + c.toNat % 10] := by
    simp only [toLower, List.map_cons, List.map_nil]
    rw [if_neg (by omega), if_neg (by omega), if_neg (by omega)]
  rw [hP, hS, hD]
  simp

theorem contains_statusMessage (c : Int) (body k : String) (h1 : 100 ≤ c) (h2 : c ≤ 999)
    (hk : k ∈ retryableStatusCodes ++ retryableKeywords)
    (hbody : ¬ toLower (goBytes k) <:+: toLower (goBytes body)) :
    contains (goBytes ("request failed with status " ++ toString c ++ ": " ++ body)) (goBytes k)
        = true ↔
      toLower (goBytes k) <:+: goBytes "request failed with status " ++
        [48 + c.toNat / 100, 48 + c.toNat / 10 % 10, 48 + c.toNat % 10] := by
  obtain ⟨h58, hne, hhead, hlen⟩ := retryableKeys_shape k hk
  have hbytes := statusMessage_bytes c body h1 h2
  have hlenM : 32 ≤ (goBytes ("request failed with status " ++ toString c ++ ": " ++ body)).length := by
    have := congrArg List.length hbytes
    rw [toLower_length] at this
    rw [this, statusHead_bytes]
    simp only [List.length_append, List.length_cons, List.length_nil]
    omega
  rw [contains_iff, hbytes]
  constructor
  · rintro (h | ⟨-, h⟩)
    · rw [h] at hlenM
      omega
    · rcases infix_split_of_not_mem _ _ _ 58 h58 h with h | h
      · exact h
      · exact absurd (infix_tail_of_head_ne _ _ 32 hne hhead h) hbody
  · intro h
    refine Or.inr ⟨by omega, ?_⟩
    exact List.IsInfix.trans h ⟨[], 58 :: 32 :: toLower (goBytes body), by simp⟩

theorem keyword_not_in_statusHead (c : Int) (k : String) (h1 : 100 ≤ c) (h2 : c ≤ 999)
    (hk : k ∈ retryableKeywords) :
    ¬ toLower (goBytes k) <:+: goBytes "request failed with status " ++
        [48 + c.toNat / 100, 48 + c.toNat / 10 % 10, 48 + c.toNat % 10] := by
  intro h
  have hne := (retryableKeys_shape k (List.mem_append_right _ hk)).2.1
  refine retryableKeywords_not_in_head k hk (infix_of_foreign_tail _ _ hne ?_ _ h)
  intro x hx hxk
  have hdig := retryableKeywords_no_digit k hk x hxk
  simp only [List.mem_cons, List.mem_singleton, List.not_mem_nil, or_false] at hx
  omega

theorem statusToken_in_statusHead (c : Int) (h1 : 100 ≤ c) (h2 : c ≤ 999) :
    (toLower (goBytes "status 429") <:+: goBytes "request failed with status " ++
        [48 + c.toNat / 100, 48 + c.toNat / 10 % 10, 48 + c.toNat % 10] ↔ c = 429) ∧
    (toLower (goBytes "status 502") <:+: goBytes "request failed with status " ++
        [48 + c.toNat / 100, 48 + c.toNat / 10 % 10, 48 + c.toNat % 10] ↔ c = 502) ∧
    (toLower (goBytes "status 503") <:+: goBytes "request failed with status " ++
        [48 + c.toNat / 100, 48 + c.toNat / 10 % 10, 48 + c.toNat % 10] ↔ c = 503) ∧
    (toLower (goBytes "status 504") <:+: goBytes "request failed with status " ++
        [48 + c.toNat / 100, 48 + c.toNat / 10 % 10, 48 + c.toNat % 10] ↔ c = 504) ∧
    (toLower (goBytes "status 408") <:+: goBytes "request failed with status " ++
        [48 + c.toNat / 100, 48 + c.toNat / 10 % 10, 48 + c.toNat % 10] ↔ c = 408) := by
  have t1 : toLower (goBytes "status 429") = [115, 116, 97, 116, 117, 115, 32, 52, 50, 57] := by
    decide
  have t2 : toLower (goBytes "status 502") = [115, 116, 97, 116, 117, 115, 32, 53, 48, 50] := by
    decide
  have t3 : toLower (goBytes "status 503") = [115, 116, 97, 116, 117, 115, 32, 53, 48, 51] := by
    decide
  have t4 : toLower (goBytes "status 504") = [115, 116, 97, 116, 117, 115, 32, 53, 48, 52] := by
    decide
  have t5 : toLower (goBytes "status 408") = [115, 116, 97, 116, 117, 115, 32, 52, 48, 56] := by
    decide
  rw [t1, t2, t3, t4, t5, statusHead_bytes]
  simp only [List.cons_append, List.nil_append, statusToken_window]
  refine ⟨?_, ?_, ?_, ?_, ?_⟩ <;> omega

theorem statusMessage_retryable_iff (c : Int) (body : String) (h1 : 100 ≤ c) (h2 : c ≤ 999)
    (hbody : ∀ k ∈ retryableStatusCodes ++ retryableKeywords,
      ¬ toLower (goBytes k) <:+: toLower (goBytes body)) :
    isRetryableImageError
        (some (errorf ("request failed with status " ++ toString c ++ ": " ++ body))) = true ↔
      c = 429 ∨ c = 502 ∨ c = 503 ∨ c = 504 ∨ c = 408 := by
  obtain ⟨k1, k2, k3, k4, k5⟩ := statusToken_in_statusHead c h1 h2
  rw [isRetryableImageError_iff]
  simp only [errorf, Bool.false_eq_true, false_or]
  constructor
  · rintro ⟨k, hk, hc⟩
    rw [contains_statusMessage c body k h1 h2 hk (hbody k hk)] at hc
    rcases List.mem_append.mp hk with hk | hk
    · simp only [retryableStatusCodes, List.mem_cons, List.mem_singleton, List.not_mem_nil,
        or_false] at hk
      rcases hk with rfl | rfl | rfl | rfl | rfl
      · exact Or.inl (k1.mp hc)
      · exact Or.inr (Or.inl (k2.mp hc))
      · exact Or.inr (Or.inr (Or.inl (k3.mp hc)))
      · exact Or.inr (Or.inr (Or.inr (Or.inl (k4.mp hc))))
      · exact Or.inr (Or.inr (Or.inr (Or.inr (k5.mp hc))))
    · exact absurd hc (keyword_not_in_statusHead c k h1 h2 hk)
  · intro h
    have key : ∀ k ∈ retryableStatusCodes,
        toLower (goBytes k) <:+: goBytes "request failed with status " ++
          [48 + c.toNat / 100, 48 + c.toNat / 10 % 10, 48 + c.toNat % 10] →
        ∃ k ∈ retryableStatusCodes ++ retryableKeywords,
          contains (goBytes ("request failed with status " ++ toString c ++ ": " ++ body))
            (goBytes k) = true := by
      intro k hk hin
      have hk2 : k ∈ retryableStatusCodes ++ retryableKeywords := List.mem_append_left _ hk
      exact ⟨k, hk2, (contains_statusMessage c body k h1 h2 hk2 (hbody k hk2)).mpr hin⟩
    rcases h with h | h | h | h | h
    · exact key "status 429" (by decide) (k1.mpr h)
    · exact key "status 502" (by decide) (k2.mpr h)
    · exact key "status 503" (by decide) (k3.mpr h)
    · exact key "status 504" (by decide) (k4.mpr h)
    · exact key "status 408" (by decide) (k5.mpr h)

/-- C17. For a three-digit status code `c` other than 200 and a body in which no
retryable keyword and no retryable status token occurs case-insensitively, both adapters
fail with `request failed with status c: body`, and `isRetryableImageError` accepts that
error exactly when `c` is one of 429, 502, 503, 504, 408. -/
theorem status_error_retryable_iff (c : Int) (body key : String) (channel : Channel)
    (decodedOpenAI : Except GoError OpenAIResponse)
    (decodedGemini : Except GoError GeminiResponse)
    (hc : 100 ≤ c ∧ c ≤ 999) (h200 : c ≠ 200) (hkey : channel.nextKey = Except.ok key)
    (hbody : ∀ k ∈ retryableStatusCodes ++ retryableKeywords,
      ¬ toLower (goBytes k) <:+: toLower (goBytes body)) :
    generateOpenAI channel (HttpExchange.response c body decodedOpenAI) =
        Except.error (errorf ("request failed with status " ++ toString c ++ ": " ++ body)) ∧
      generateGemini channel (HttpExchange.response c body decodedGemini) =
        Except.error (errorf ("request failed with status " ++ toString c ++ ": " ++ body)) ∧
      (isRetryableImageError
          (some (errorf ("request failed with status " ++ toString c ++ ": " ++ body))) = true ↔
        c = 429 ∨ c = 502 ∨ c = 503 ∨ c = 504 ∨ c = 408) := by
  refine ⟨?_, ?_, statusMessage_retryable_iff c body hc.1 hc.2 hbody⟩
  · simp [generateOpenAI, adapterResponse, hkey, h200]
  · simp [generateGemini, adapterResponse, hkey, h200]

theorem status_error_retryable_iff_witness :
    generateOpenAI { id := 7, type := 1, status := 1, nextKey := Except.ok "sk-test" } (HttpExchange.response 503 "upstream busy" (Except.error (errorf "bad json"))) =
        Except.error (errorf ("request failed with status " ++ toString (503 : Int) ++ ": " ++ "upstream busy")) ∧
      generateGemini { id := 7, type := 1, status := 1, nextKey := Except.ok "sk-test" } (HttpExchange.response 503 "upstream busy" (Except.error (errorf "bad json"))) =
        Except.error (errorf ("request failed with status " ++ toString (503 : Int) ++ ": " ++ "upstream busy")) ∧
      (isRetryableImageError
          (some (errorf ("request failed with status " ++ toString (503 : Int) ++ ": " ++ "upstream busy"))) = true ↔
        (503 : Int) = 429 ∨ (503 : Int) = 502 ∨ (503 : Int) = 503 ∨ (503 : Int) = 504 ∨ (503 : Int) = 408) :=
  status_error_retryable_iff 503 "upstream busy" "sk-test" { id := 7, type := 1, status := 1, nextKey := Except.ok "sk-test" } (Except.error (errorf "bad json")) (Except.error (errorf "bad json")) (by decide) (by decide) rfl (by decide)

/-- C16. The helper `contains` is not plain case-insensitive matching: on byte strings of
equal length it compares exactly, so `contains("TIMEOUT", "timeout")` is false although
the lower-cased keyword occurs in the lower-cased message, and an error whose whole
message is `Too Many Requests` is classified non-retryable.  In general `contains(s, k)`
holds exactly when `s = k`, or `s` is longer than `k` and the lower-cased `k` occurs in
the lower-cased `s`; whenever it holds for a keyword, the classifier answers
retryable. -/
theorem contains_exact_on_equal_length :
    (contains (goBytes "TIMEOUT") (goBytes "timeout") = false ∧
      toLower (goBytes "timeout") <:+: toLower (goBytes "TIMEOUT")) ∧
    (isRetryableImageError (some (errorf "Too Many Requests")) = false ∧
      toLower (goBytes "too many requests") <:+: toLower (goBytes "Too Many Requests")) ∧
    (∀ s k : List Nat,
      contains s k = true ↔ s = k ∨ (k.length < s.length ∧ toLower k <:+: toLower s)) ∧
    (∀ (e : GoError) (k : String), k ∈ retryableKeywords →
      contains (goBytes e.msg) (goBytes k) = true → isRetryableImageError (some e) = true) := by
  refine ⟨⟨by decide, by decide⟩, ⟨by decide, by decide⟩, contains_iff, ?_⟩
  intro e k hk hc
  rw [isRetryableImageError_iff]
  exact Or.inr (Or.inr ⟨k, List.mem_append_right _ hk, hc⟩)

/-- The claim C18 as stated fails: the message
`request failed with status 429: insufficient_quota` contains the word `insufficient`,
and `isRetryableImageError` answers retryable for it. -/
theorem retryable_token_beats_insufficient :
    toLower (goBytes "insufficient") <:+:
        toLower (goBytes "request failed with status 429: insufficient_quota") ∧
      isRetryableImageError
        (some (errorf "request failed with status 429: insufficient_quota")) = true := by
  refine ⟨by decide, by decide⟩

/-- C18. An error that is neither `context.DeadlineExceeded` nor a network timeout and
whose message contains, case-insensitively, none of the retryable status tokens and
keywords is non-retryable for `isRetryableImageError`, and `processTask` marks the task
failed with that message instead of scheduling a retry. -/
theorem error_without_retryable_token_fails (c : Constants) (maxRetries : Int) (w : World)
    (draw : ℚ) (db : Store) (task : ImageGenerationTask) (now : Int) (err : GoError)
    (hflags : err.isDeadlineExceeded = false ∧ err.isNetTimeout = false)
    (hnone : ∀ k ∈ retryableStatusCodes ++ retryableKeywords,
      ¬ toLower (goBytes k) <:+: toLower (goBytes err.msg))
    (hattempts : task.attempts < maxRetries) (hpanic : w.panicValue = none)
    (hgen : Generate c w task = Except.error err) :
    isRetryableImageError (some err) = false ∧
      processTask c maxRetries w draw db task now = MarkFailed db task.id err.msg now := by
  have hcls : isRetryableImageError (some err) = false := by
    rw [← Bool.not_eq_true, isRetryableImageError_iff]
    rintro (h | h | ⟨k, hk, hc⟩)
    · rw [hflags.1] at h
      exact absurd h (by decide)
    · rw [hflags.2] at h
      exact absurd h (by decide)
    · rw [contains_iff] at hc
      rcases hc with hc | ⟨-, hc⟩
      · exact hnone k hk (by rw [hc])
      · exact hnone k hk hc
  refine ⟨hcls, ?_⟩
  unfold processTask
  rw [if_neg (not_le.mpr hattempts), hpanic]
  simp only [hgen, hcls, Bool.false_and, Bool.false_eq_true, if_false]

theorem error_without_retryable_token_fails_witness :
    isRetryableImageError (some (errorf "request failed with status 401: unauthorized")) = false ∧
      processTask sampleConstants 3 unauthorizedWorld (1 / 2) [sampleTask] sampleTask 200000000000 =
        MarkFailed [sampleTask] sampleTask.id (errorf "request failed with status 401: unauthorized").msg 200000000000 :=
  error_without_retryable_token_fails sampleConstants 3 unauthorizedWorld (1 / 2) [sampleTask]
    sampleTask 200000000000 (errorf "request failed with status 401: unauthorized")
    ⟨rfl, rfl⟩ (by decide) (by decide) rfl rfl

end ImageWorker

namespace ImageWorker

open TaskStore

/-! ## The backoff delay -/

/-- Dropping the fraction keeps a rational between integer bounds on either side of 0. -/
theorem truncate_bounds (q : ℚ) (a b : Int) (ha : a ≤ 0) (hb : 0 ≤ b) (h1 : (a : ℚ) ≤ q)
    (h2 : q ≤ (b : ℚ)) : a ≤ truncate q ∧ truncate q ≤ b := by
  unfold truncate
  have hden : (0 : Int) < q.den := by exact_mod_cast q.den_pos
  rcases le_or_lt 0 q with hq | hq
  · have hnum : 0 ≤ q.num := Rat.num_nonneg.mpr hq
    rw [Int.tdiv_eq_ediv hnum (le_of_lt hden)]
    have hfl : q.num / (q.den : Int) = ⌊q⌋ := (@Rat.floor_def q).symm
    rw [hfl]
    constructor
    · exact le_trans ha (Int.floor_nonneg.mpr hq)
    · exact Int.floor_le_iff.mpr (lt_of_le_of_lt h2 (by exact_mod_cast lt_add_one (b : ℚ)))
  · have hnum : 0 ≤ -q.num := by
      have := Rat.num_neg.mpr hq
      omega
    have hneg : Int.tdiv q.num q.den = -((-q.num) / (q.den : Int)) := by
      rw [← Int.tdiv_eq_ediv hnum (le_of_lt hden), Int.neg_tdiv, neg_neg]
    have hfl : (-q.num) / (q.den : Int) = ⌊-q⌋ := by
      rw [@Rat.floor_def (-q)]
      simp
    rw [hneg, hfl]
    have h0 : 0 ≤ ⌊-q⌋ := Int.floor_nonneg.mpr (by linarith)
    have h3 : ⌊-q⌋ ≤ -a := by
      apply Int.floor_le_iff.mpr
      push_cast
      linarith
    constructor <;> omega


theorem pickImageTaskRetryDelay_bounds (attempts : Int) (draw : ℚ) (h0 : 0 ≤ draw)
    (h1 : draw < 1) :
    (attempts = 0 → 8 * second ≤ pickImageTaskRetryDelay attempts draw ∧
      pickImageTaskRetryDelay attempts draw ≤ 12 * second) ∧
    (attempts = 1 → 24 * second ≤ pickImageTaskRetryDelay attempts draw ∧
      pickImageTaskRetryDelay attempts draw ≤ 36 * second) ∧
    (attempts ≠ 0 → attempts ≠ 1 → 96 * second ≤ pickImageTaskRetryDelay attempts draw ∧
      pickImageTaskRetryDelay attempts draw ≤ 144 * second) := by
  refine ⟨?_, ?_, ?_⟩
  · intro h
    have hb := truncate_bounds (draw * (((10 * second : Int) : ℚ) * (2 / 10)) * 2 -
      ((10 * second : Int) : ℚ) * (2 / 10)) (-(2 * second)) (2 * second)
      (by unfold second; omega) (by unfold second; omega)
      (by unfold second; push_cast; linarith) (by unfold second; push_cast; linarith)
    simp only [pickImageTaskRetryDelay, h, if_true]
    unfold second at *
    omega
  · intro h
    have hb := truncate_bounds (draw * (((30 * second : Int) : ℚ) * (2 / 10)) * 2 -
      ((30 * second : Int) : ℚ) * (2 / 10)) (-(6 * second)) (6 * second)
      (by unfold second; omega) (by unfold second; omega)
      (by unfold second; push_cast; linarith) (by unfold second; push_cast; linarith)
    have h01 : ¬ (1 : Int) = 0 := by decide
    simp only [pickImageTaskRetryDelay, h, h01, if_true, if_false]
    unfold second at *
    omega
  · intro ha hb1
    have hb := truncate_bounds (draw * (((2 * (60 * second) : Int) : ℚ) * (2 / 10)) * 2 -
      ((2 * (60 * second) : Int) : ℚ) * (2 / 10)) (-(24 * second)) (24 * second)
      (by unfold second; omega) (by unfold second; omega)
      (by unfold second; push_cast; linarith) (by unfold second; push_cast; linarith)
    simp only [pickImageTaskRetryDelay, ha, hb1, if_false]
    unfold second at *
    omega

/-- What `processTask` does with a retryable failure that leaves room for a retry. -/
theorem processTask_schedules (c : Constants) (maxRetries : Int) (w : World) (draw : ℚ)
    (db : Store) (task : ImageGenerationTask) (now : Int) (err : GoError)
    (hpanic : w.panicValue = none) (hgen : Generate c w task = Except.error err)
    (hretry : isRetryableImageError (some err) = true) (hroom : task.attempts + 1 < maxRetries) :
    processTask c maxRetries w draw db task now =
      ScheduleRetry db task.id (now + pickImageTaskRetryDelay (task.attempts + 1) draw)
        err.msg now := by
  unfold processTask
  rw [if_neg (by omega), hpanic]
  simp only [hgen, hretry, Bool.true_and, decide_eq_true_eq, hroom, if_true]

/-- What `processTask` does with a failure that is not retried. -/
theorem processTask_fails (c : Constants) (maxRetries : Int) (w : World) (draw : ℚ)
    (db : Store) (task : ImageGenerationTask) (now : Int) (err : GoError)
    (hattempts : task.attempts < maxRetries) (hpanic : w.panicValue = none)
    (hgen : Generate c w task = Except.error err)
    (hlast : isRetryableImageError (some err) = false ∨ ¬ task.attempts + 1 < maxRetries) :
    processTask c maxRetries w draw db task now = MarkFailed db task.id err.msg now := by
  unfold processTask
  rw [if_neg (by omega), hpanic]
  rcases hlast with h | h
  · simp only [hgen, h, Bool.false_and, Bool.false_eq_true, if_false]
  · simp only [hgen, h, decide_False, Bool.and_false, Bool.false_eq_true, if_false]

/-- C19. The first retry does not use the 10 s base: `processTask` passes
`task.attempts + 1` to `pickImageTaskRetryDelay`, so a task that failed with
`attempts = 0` is rescheduled with the 30 s base (exactly 30 s later at the draw 1/2, and
between 24 s and 36 s later at every draw in [0, 1)), and every later retry uses the
2 min base. -/
theorem first_retry_uses_thirty_second_base :
    processTask sampleConstants 3 busyWorld (1 / 2) [sampleTask] sampleTask 200000000000 =
        ScheduleRetry [sampleTask] "t1" (200000000000 + 30 * second)
          "request failed with status 503: upstream busy" 200000000000 ∧
    (∀ (c : Constants) (maxRetries : Int) (w : World) (draw : ℚ) (db : Store)
        (task : ImageGenerationTask) (now : Int) (err : GoError),
      w.panicValue = none → Generate c w task = Except.error err →
      isRetryableImageError (some err) = true → task.attempts + 1 < maxRetries →
      processTask c maxRetries w draw db task now =
        ScheduleRetry db task.id (now + pickImageTaskRetryDelay (task.attempts + 1) draw)
          err.msg now) ∧
    (∀ (draw : ℚ) (attempts : Int), 0 ≤ draw → draw < 1 → 0 ≤ attempts →
      (attempts = 0 → 24 * second ≤ pickImageTaskRetryDelay (attempts + 1) draw ∧
        pickImageTaskRetryDelay (attempts + 1) draw ≤ 36 * second) ∧
      (1 ≤ attempts → 96 * second ≤ pickImageTaskRetryDelay (attempts + 1) draw ∧
        pickImageTaskRetryDelay (attempts + 1) draw ≤ 144 * second)) := by
  refine ⟨?_, ?_, ?_⟩
  · have h := processTask_schedules sampleConstants 3 busyWorld (1 / 2) [sampleTask] sampleTask
      200000000000 (errorf "request failed with status 503: upstream busy") rfl rfl
      (by decide) (by decide)
    rw [h]
    have hd : pickImageTaskRetryDelay (sampleTask.attempts + 1) (1 / 2) = 30 * second := by
      simp [pickImageTaskRetryDelay, truncate, second, sampleTask]
      norm_num
    rw [hd]
    rfl
  · intro c maxRetries w draw db task now err hpanic hgen hretry hroom
    exact processTask_schedules c maxRetries w draw db task now err hpanic hgen hretry hroom
  · intro draw attempts h0 h1 ha
    have hb := pickImageTaskRetryDelay_bounds (attempts + 1) draw h0 h1
    refine ⟨fun h => hb.2.1 (by omega), fun h => hb.2.2 (by omega) (by omega)⟩

end ImageWorker

namespace ImageWorker

open TaskStore

/-! ## Invariant I3: `attempts` is monotone and bounded -/

theorem ledger_updateWhere (cond : ImageGenerationTask → Bool)
    (set : ImageGenerationTask → ImageGenerationTask) (db : Store)
    (hset : ∀ r ∈ db, cond r = true → (set r).id = r.id ∧ (set r).attempts = r.attempts) :
    ledger (updateWhere cond set db).1 = ledger db := by
  simp only [ledger, updateWhere, List.map_map]
  apply List.map_congr_left
  intro r hr
  by_cases hc : cond r = true
  · simp only [Function.comp, hc, if_true]
    rw [(hset r hr hc).1, (hset r hr hc).2]
  · simp only [Function.comp, hc, if_false]
    simp

theorem ledger_MarkFailed (db : Store) (taskID msg : String) (now : Int) :
    ledger (MarkFailed db taskID msg now) = ledger db :=
  ledger_updateWhere _ _ db (fun _ _ _ => ⟨rfl, rfl⟩)

theorem ledger_MarkSuccess (db : Store) (taskID : String) (urls : List String) (now : Int) :
    ledger (MarkSuccess db taskID urls now) = ledger db :=
  ledger_updateWhere _ _ db (fun _ _ _ => ⟨rfl, rfl⟩)

theorem ledger_ResetZombieRunning (db : Store) (staleAfter now stamp : Int) :
    ledger (ResetZombieRunning db staleAfter now stamp).2 = ledger db :=
  ledger_updateWhere _ _ db (fun _ _ _ => ⟨rfl, rfl⟩)

theorem ledger_claimUpdate (db : Store) (taskID : String) (stamp : Int) :
    ledger (claimUpdate db taskID stamp).1 = ledger db :=
  ledger_updateWhere _ _ db (fun _ _ _ => ⟨rfl, rfl⟩)

theorem ledger_ScheduleRetry (db : Store) (taskID : String) (nextAttemptAt : Int)
    (msg : String) (now : Int) :
    ledger (ScheduleRetry db taskID nextAttemptAt msg now) = (ledger db).map (bump taskID) := by
  simp only [ledger, ScheduleRetry, updateWhere, List.map_map]
  apply List.map_congr_left
  intro r _
  by_cases hc : r.id = taskID
  · simp [Function.comp, bump, hc]
  · simp [Function.comp, bump, hc]

theorem mem_ledger {db : Store} {r : ImageGenerationTask} (hr : r ∈ db) :
    (r.id, r.attempts) ∈ ledger db :=
  List.mem_map.mpr ⟨r, hr, rfl⟩

/-- A claim leaves the ledger as it was and returns a task that the ledger lists. -/
theorem ledger_ClaimNextPending (skipLocked : Bool) (db : Store) (now stamp : Int)
    (hco : ∀ p ∈ ledger db, ∀ q ∈ ledger db, p.1 = q.1 → p.2 = q.2) :
    ledger (ClaimNextPending skipLocked db now stamp).2 = ledger db ∧
      ∀ t, (ClaimNextPending skipLocked db now stamp).1 = ClaimResult.task t →
        (t.id, t.attempts) ∈ ledger db := by
  unfold ClaimNextPending
  cases skipLocked with
  | true =>
    simp only [if_true, ClaimNextPendingLocked]
    cases hsel : claimSelect db now with
    | none => simp
    | some task =>
      have hmem : task ∈ db := by
        have := (firstOrdered_some _ _ hsel).1
        exact (List.mem_filter.mp this).1
      constructor
      · simp only [ledger, List.map_map]
        apply List.map_congr_left
        intro r hr
        by_cases hid : r.id = task.id
        · have := hco _ (mem_ledger hr) _ (mem_ledger hmem) hid
          simp only [Function.comp, hid, beq_self_eq_true, if_true]
          simp only at this
          rw [this]
        · simp [Function.comp, hid]
      · intro t ht
        simp only [ClaimResult.task.injEq] at ht
        subst ht
        exact (mem_ledger hmem : (task.id, task.attempts) ∈ ledger db)
  | false =>
    simp only [Bool.false_eq_true, if_false, ClaimNextPendingCAS]
    cases hsel : claimSelect db now with
    | none => simp
    | some task =>
      simp only
      by_cases h0 : (claimUpdate db task.id stamp).2 = 0
      · simp only [h0, if_true]
        exact ⟨ledger_claimUpdate db task.id stamp, fun t ht => by cases ht⟩
      · simp only [h0, if_false]
        refine ⟨ledger_claimUpdate db task.id stamp, ?_⟩
        intro t ht
        unfold claimReread at ht
        cases hf : (claimUpdate db task.id stamp).1.find? (fun r => r.id == task.id) with
        | none => rw [hf] at ht; cases ht
        | some t' =>
          rw [hf] at ht
          simp only [ClaimResult.task.injEq] at ht
          subst ht
          have := List.mem_of_find?_eq_some hf
          rw [← ledger_claimUpdate db task.id stamp]
          exact mem_ledger this

/-- A process step either leaves the ledger as it was or, with room for a retry, bumps
the held task's id. -/
theorem ledger_processTask (c : Constants) (maxRetries : Int) (w : World) (draw : ℚ)
    (db : Store) (task : ImageGenerationTask) (now : Int) :
    ledger (processTask c maxRetries w draw db task now) = ledger db ∨
      (task.attempts + 1 < maxRetries ∧
        ledger (processTask c maxRetries w draw db task now) =
          (ledger db).map (bump task.id)) := by
  unfold processTask
  split
  · exact Or.inl (ledger_MarkFailed _ _ _ _)
  · split
    · exact Or.inl (ledger_MarkFailed _ _ _ _)
    · split
      · split
        · rename_i h
          simp only [Bool.and_eq_true, decide_eq_true_eq] at h
          exact Or.inr ⟨h.2, ledger_ScheduleRetry _ _ _ _ _⟩
        · exact Or.inl (ledger_MarkFailed _ _ _ _)
      · exact Or.inl (ledger_MarkSuccess _ _ _ _)

theorem ledger_Insert (db : Store) (t : ImageGenerationTask) (now : Int) :
    ledger (TaskStore.Insert db t now).2 = ledger db ∨
      ((∀ p ∈ ledger db, p.1 ≠ t.id) ∧
        ledger (TaskStore.Insert db t now).2 = ledger db ++ [(t.id, t.attempts)]) := by
  unfold TaskStore.Insert
  by_cases h : db.any (fun r => r.id == t.id) = true
  · rw [if_pos h]
    exact Or.inl rfl
  · rw [if_neg h]
    refine Or.inr ⟨?_, ?_⟩
    · intro p hp hid
      obtain ⟨r, hr, rfl⟩ := List.mem_map.mp hp
      exact h (List.any_eq_true.mpr ⟨r, hr, by simpa using hid⟩)
    · simp [ledger, BeforeCreate]

theorem Grows_refl (l : List (String × Int)) : Grows l l :=
  fun p hp => ⟨p, hp, rfl, le_refl _⟩

theorem Grows_trans {l1 l2 l3 : List (String × Int)} (h12 : Grows l1 l2) (h23 : Grows l2 l3) :
    Grows l1 l3 := by
  intro p hp
  obtain ⟨q, hq, hid, hle⟩ := h12 p hp
  obtain ⟨s, hs, hid2, hle2⟩ := h23 q hq
  exact ⟨s, hs, hid2.trans hid, le_trans hle hle2⟩

theorem AttemptsInv_bump (maxRetries : Int) (l : List (String × Int))
    (t : ImageGenerationTask) (hinv : AttemptsInv maxRetries l (some t))
    (hroom : t.attempts + 1 < maxRetries) :
    AttemptsInv maxRetries (l.map (bump t.id)) none ∧ Grows l (l.map (bump t.id)) := by
  obtain ⟨hb, hco, hheld⟩ := hinv
  have ht := hheld t rfl
  refine ⟨⟨?_, ?_, ?_⟩, ?_⟩
  · intro p hp
    obtain ⟨q, hq, rfl⟩ := List.mem_map.mp hp
    by_cases hid : q.1 = t.id
    · have := hco q hq _ ht hid
      have hq2 := hb q hq
      simp only at this
      simp only [bump, hid, beq_self_eq_true, if_true]
      omega
    · simp only [bump, beq_iff_eq, hid, if_false]
      exact hb q hq
  · intro p hp q hq hpq
    obtain ⟨p0, hp0, rfl⟩ := List.mem_map.mp hp
    obtain ⟨q0, hq0, rfl⟩ := List.mem_map.mp hq
    have hid1 : (bump t.id p0).1 = p0.1 := by unfold bump; split <;> rfl
    have hid2 : (bump t.id q0).1 = q0.1 := by unfold bump; split <;> rfl
    have hids : p0.1 = q0.1 := by rw [← hid1, ← hid2]; exact hpq
    have hcnt := hco p0 hp0 q0 hq0 hids
    by_cases hid : p0.1 = t.id
    · have hidq : q0.1 = t.id := by rw [← hids]; exact hid
      simp only [bump, hid, hidq, beq_self_eq_true, if_true]
      omega
    · have hidq : ¬ q0.1 = t.id := by rw [← hids]; exact hid
      simp only [bump, beq_iff_eq, hid, hidq, if_false]
      exact hcnt
  · intro h hh
    cases hh
  · intro p hp
    refine ⟨bump t.id p, List.mem_map.mpr ⟨p, hp, rfl⟩, ?_, ?_⟩
    · unfold bump; split <;> rfl
    · unfold bump
      split
      · simp
      · exact le_refl _

/-- One step of the run keeps the invariant and lets the ledger grow. -/
theorem AttemptsInv_workerStep (c : Constants) (maxRetries : Int) (hmax : 1 ≤ maxRetries)
    (s : WorkerState) (now : Int) (step : WorkerStep)
    (hinv : AttemptsInv maxRetries (ledger s.db) s.held) :
    AttemptsInv maxRetries (ledger (workerStep c maxRetries s now step).db)
        (workerStep c maxRetries s now step).held ∧
      Grows (ledger s.db) (ledger (workerStep c maxRetries s now step).db) := by
  cases step with
  | create userID req taskID =>
    simp only [workerStep]
    rcases ledger_Insert s.db (newImageTask userID req taskID now) now with h | ⟨hfresh, h⟩
    · rw [h]
      exact ⟨hinv, Grows_refl _⟩
    · rw [h]
      obtain ⟨hb, hco, hheld⟩ := hinv
      have hid : (newImageTask userID req taskID now).id = taskID := rfl
      have hat : (newImageTask userID req taskID now).attempts = 0 := rfl
      rw [hid, hat]
      rw [hid] at hfresh
      refine ⟨⟨?_, ?_, ?_⟩, ?_⟩
      · intro p hp
        rcases List.mem_append.mp hp with hp | hp
        · exact hb p hp
        · rw [List.mem_singleton] at hp
          subst hp
          exact ⟨le_refl _, by omega⟩
      · intro p hp q hq hpq
        rcases List.mem_append.mp hp with hp | hp <;> rcases List.mem_append.mp hq with hq | hq
        · exact hco p hp q hq hpq
        · rw [List.mem_singleton] at hq
          subst hq
          exact absurd hpq (hfresh p hp)
        · rw [List.mem_singleton] at hp
          subst hp
          exact absurd hpq.symm (hfresh q hq)
        · rw [List.mem_singleton] at hp hq
          rw [hp, hq]
      · intro h hh
        exact List.mem_append_left _ (hheld h hh)
      · intro p hp
        exact ⟨p, List.mem_append_left _ hp, rfl, le_refl _⟩
  | claim skipLocked =>
    simp only [workerStep]
    cases hheld : s.held with
    | some t =>
      simp only
      rw [hheld] at hinv
      exact ⟨by rw [hheld]; exact hinv, Grows_refl _⟩
    | none =>
      rw [hheld] at hinv
      obtain ⟨hb, hco, -⟩ := hinv
      obtain ⟨hl, ht⟩ := ledger_ClaimNextPending skipLocked s.db now now hco
      simp only
      cases hres : ClaimNextPending skipLocked s.db now now with
      | mk res db =>
        rw [hres] at hl ht
        simp only at hl ht
        cases res with
        | task t =>
          simp only
          rw [hl]
          refine ⟨⟨hb, hco, ?_⟩, Grows_refl _⟩
          intro h hh
          simp only [Option.some.injEq] at hh
          subst hh
          exact ht _ rfl
        | null =>
          simp only
          rw [hl]
          exact ⟨⟨hb, hco, fun h hh => by cases hh⟩, Grows_refl _⟩
        | error msg =>
          simp only
          rw [hl]
          exact ⟨⟨hb, hco, fun h hh => by cases hh⟩, Grows_refl _⟩
  | process w draw =>
    simp only [workerStep]
    cases hheld : s.held with
    | none =>
      simp only
      rw [hheld] at hinv
      exact ⟨by rw [hheld]; exact hinv, Grows_refl _⟩
    | some t =>
      simp only
      rw [hheld] at hinv
      rcases ledger_processTask c maxRetries w draw s.db t now with h | ⟨hroom, h⟩
      · rw [h]
        exact ⟨⟨hinv.1, hinv.2.1, fun h hh => by cases hh⟩, Grows_refl _⟩
      · rw [h]
        exact AttemptsInv_bump maxRetries _ t hinv hroom
  | sweep staleAfter =>
    simp only [workerStep]
    rw [ledger_ResetZombieRunning]
    exact ⟨hinv, Grows_refl _⟩

theorem AttemptsInv_workerRun (c : Constants) (maxRetries : Int) (hmax : 1 ≤ maxRetries)
    (steps : List (WorkerStep × Int)) :
    ∀ s : WorkerState, AttemptsInv maxRetries (ledger s.db) s.held →
      AttemptsInv maxRetries (ledger (workerRun c maxRetries s steps).db)
          (workerRun c maxRetries s steps).held ∧
        Grows (ledger s.db) (ledger (workerRun c maxRetries s steps).db) := by
  induction steps with
  | nil => intro s h; exact ⟨h, Grows_refl _⟩
  | cons x rest ih =>
    intro s h
    obtain ⟨step, now⟩ := x
    have h1 := AttemptsInv_workerStep c maxRetries hmax s now step h
    have h2 := ih _ h1.1
    exact ⟨h2.1, Grows_trans h1.2 h2.2⟩

/-- C12. With `max_retries ≥ 1`, along every sequential run of create, claim, process
and sweep steps from the empty table, a task's `attempts` is never negative, stays below
`max_retries`, and at every later point of the run the task is still in the table with
an `attempts` at least as large. -/
theorem attempts_monotone_and_bounded (c : Constants) (maxRetries : Int)
    (hmax : 1 ≤ maxRetries) (before after : List (WorkerStep × Int)) :
    (∀ r ∈ (workerRun c maxRetries { db := [], held := none } before).db,
      0 ≤ r.attempts ∧ r.attempts < maxRetries ∧ r.attempts ≤ maxRetries) ∧
    (∀ r ∈ (workerRun c maxRetries { db := [], held := none } before).db,
      (∃ q ∈ (workerRun c maxRetries
          (workerRun c maxRetries { db := [], held := none } before) after).db, q.id = r.id) ∧
      ∀ q ∈ (workerRun c maxRetries
          (workerRun c maxRetries { db := [], held := none } before) after).db,
        q.id = r.id → r.attempts ≤ q.attempts) ∧
    (∀ (userID : Int) (req : CreateImageTaskRequest) (taskID : String) (now : Int),
      (newImageTask userID req taskID now).attempts = 0) := by
  have h0 : AttemptsInv maxRetries (ledger ({ db := [], held := none } : WorkerState).db)
      ({ db := [], held := none } : WorkerState).held :=
    ⟨fun p hp => by simp [ledger] at hp, fun p hp => by simp [ledger] at hp,
      fun h hh => by cases hh⟩
  have h1 := AttemptsInv_workerRun c maxRetries hmax before _ h0
  have h2 := AttemptsInv_workerRun c maxRetries hmax after _ h1.1
  refine ⟨?_, ?_, fun _ _ _ _ => rfl⟩
  · intro r hr
    have := h1.1.1 _ (mem_ledger hr)
    simp only at this
    omega
  · intro r hr
    obtain ⟨p, hp, hid, hle⟩ := h2.2 _ (mem_ledger hr)
    obtain ⟨q, hq, rfl⟩ := List.mem_map.mp hp
    simp only at hid hle
    refine ⟨⟨q, hq, hid⟩, ?_⟩
    intro q' hq' hid'
    have := h2.1.2.1 _ (mem_ledger hq) _ (mem_ledger hq') (by simp only; rw [hid, hid'])
    simp only at this
    omega

theorem attempts_monotone_and_bounded_witness :
    ledger (workerRun sampleConstants 3 { db := [], held := none } sampleStepsBefore).db =
        [("t1", 0)] ∧
    ledger (workerRun sampleConstants 3
        (workerRun sampleConstants 3 { db := [], held := none } sampleStepsBefore)
        sampleStepsAfter).db = [("t1", 1)] ∧
    (∀ r ∈ (workerRun sampleConstants 3 { db := [], held := none } sampleStepsBefore).db,
      0 ≤ r.attempts ∧ r.attempts < 3 ∧ r.attempts ≤ 3) ∧
    (∀ r ∈ (workerRun sampleConstants 3 { db := [], held := none } sampleStepsBefore).db,
      (∃ q ∈ (workerRun sampleConstants 3
          (workerRun sampleConstants 3 { db := [], held := none } sampleStepsBefore)
          sampleStepsAfter).db, q.id = r.id) ∧
      ∀ q ∈ (workerRun sampleConstants 3
          (workerRun sampleConstants 3 { db := [], held := none } sampleStepsBefore)
          sampleStepsAfter).db,
        q.id = r.id → r.attempts ≤ q.attempts) ∧
    (∀ (userID : Int) (req : CreateImageTaskRequest) (taskID : String) (now : Int),
      (newImageTask userID req taskID now).attempts = 0) :=
  ⟨by decide, by decide,
    attempts_monotone_and_bounded sampleConstants 3 (by decide) sampleStepsBefore
      sampleStepsAfter⟩

end ImageWorker

namespace ImageWorker

open TaskStore

/-! ## Retry exhaustion -/

theorem Generate_congr (c : Constants) (w : World) (t t' : ImageGenerationTask)
    (hp : t.prompt = t'.prompt) (hm : t.modelID = t'.modelID) :
    Generate c w t = Generate c w t' := by
  unfold Generate
  rw [hp, hm]

theorem unixSec_mono {a b : Int} (h : a ≤ b) : unixSec a ≤ unixSec b := by
  unfold unixSec
  omega

theorem pickImageTaskRetryDelay_le (attempts : Int) (draw : ℚ) (h0 : 0 ≤ draw)
    (h1 : draw < 1) : pickImageTaskRetryDelay attempts draw ≤ 144 * second := by
  have hb := pickImageTaskRetryDelay_bounds attempts draw h0 h1
  by_cases ha : attempts = 0
  · have := (hb.1 ha).2
    unfold second at *
    omega
  · by_cases hb1 : attempts = 1
    · have := (hb.2.1 hb1).2
      unfold second at *
      omega
    · exact (hb.2.2 ha hb1).2

theorem claim_single_due (skipLocked : Bool) (r : ImageGenerationTask) (now stamp : Int)
    (h : eligible (unixSec now) r = true) :
    ClaimNextPending skipLocked [r] now stamp =
      (ClaimResult.task (claimed r stamp), [claimed r stamp]) := by
  have hf : [r].filter (eligible (unixSec now)) = [r] := by simp [h]
  have hsel : claimSelect [r] now = some r := claimSelect_of_single hf
  cases skipLocked with
  | true =>
    simp [ClaimNextPending, ClaimNextPendingLocked, hsel, claimed]
  | false =>
    simp only [ClaimNextPending, Bool.false_eq_true, if_false]
    rw [ClaimNextPendingCAS_of_select (by simp) now stamp hsel]
    simp

theorem claim_single_not_due (skipLocked : Bool) (r : ImageGenerationTask) (now stamp : Int)
    (h : eligible (unixSec now) r = false) :
    ClaimNextPending skipLocked [r] now stamp = (ClaimResult.null, [r]) := by
  have hsel : claimSelect [r] now = none := by simp [claimSelect, h, firstOrdered]
  cases skipLocked with
  | true => simp [ClaimNextPending, ClaimNextPendingLocked, hsel]
  | false => simp [ClaimNextPending, ClaimNextPendingCAS, hsel]

theorem workerTick_not_due (c : Constants) (maxRetries : Int) (skipLocked : Bool)
    (r : ImageGenerationTask) (tk : Tick) (h : eligible (unixSec tk.now) r = false) :
    workerTick c maxRetries skipLocked [r] tk = ([r], false) := by
  unfold workerTick
  rw [claim_single_not_due skipLocked r tk.now tk.now h]

/-- A firing that finds the only task due runs `processTask` once: it reschedules the
task while `attempts + 1 < max_retries` and marks it failed otherwise. -/
theorem workerTick_due (c : Constants) (maxRetries : Int) (skipLocked : Bool)
    (r task0 : ImageGenerationTask) (tk : Tick) (hfail : FailsRetryably c tk.w task0)
    (hp : r.prompt = task0.prompt) (hm : r.modelID = task0.modelID)
    (hlt : r.attempts < maxRetries) (h : eligible (unixSec tk.now) r = true) :
    ∃ e : GoError, workerTick c maxRetries skipLocked [r] tk =
      (if r.attempts + 1 < maxRetries then
          ScheduleRetry [claimed r tk.now] r.id
            (tk.later + pickImageTaskRetryDelay (r.attempts + 1) tk.draw) e.msg tk.later
        else MarkFailed [claimed r tk.now] r.id e.msg tk.later, true) := by
  obtain ⟨hpanic, e, hgen, hretry⟩ := hfail
  refine ⟨e, ?_⟩
  have hgen2 : Generate c tk.w (claimed r tk.now) = Except.error e := by
    rw [Generate_congr c tk.w (claimed r tk.now) task0 hp hm]
    exact hgen
  unfold workerTick
  rw [claim_single_due skipLocked r tk.now tk.now h]
  simp only
  by_cases hroom : r.attempts + 1 < maxRetries
  · rw [if_pos hroom]
    rw [processTask_schedules c maxRetries tk.w tk.draw _ (claimed r tk.now) tk.later e hpanic
      hgen2 hretry hroom]
    rfl
  · rw [if_neg hroom]
    rw [processTask_fails c maxRetries tk.w tk.draw _ (claimed r tk.now) tk.later e hlt hpanic
      hgen2 (Or.inr hroom)]
    rfl

theorem tickRun_not_pending (c : Constants) (maxRetries : Int) (skipLocked : Bool)
    (r : ImageGenerationTask) (hst : r.status ≠ "pending") (ticks : List Tick) :
    tickRun c maxRetries skipLocked [r] ticks = ([r], 0) := by
  induction ticks with
  | nil => rfl
  | cons tk rest ih =>
    have hne : eligible (unixSec tk.now) r = false := by simp [eligible, hst]
    simp only [tickRun, workerTick_not_due c maxRetries skipLocked r tk hne, ih]
    simp

/-- The run of firings from a pending task that has been executed `k` times. -/
theorem tickRun_pending (c : Constants) (maxRetries : Int) (skipLocked : Bool)
    (task0 : ImageGenerationTask) (ticks : List Tick)
    (hfail : ∀ tk ∈ ticks, FailsRetryably c tk.w task0) :
    ∀ (k : Nat) (r : ImageGenerationTask), r.id = task0.id → r.prompt = task0.prompt →
      r.modelID = task0.modelID → r.status = "pending" → r.attempts = (k : Int) →
      (k : Int) < maxRetries →
      ((k : Int) + ((tickRun c maxRetries skipLocked [r] ticks).2 : Int) ≤ maxRetries) ∧
      (∃ q, (tickRun c maxRetries skipLocked [r] ticks).1 = [q] ∧ q.id = task0.id ∧
        ((k : Int) + ((tickRun c maxRetries skipLocked [r] ticks).2 : Int) < maxRetries →
          q.status = "pending" ∧
            q.attempts = (k : Int) + ((tickRun c maxRetries skipLocked [r] ticks).2 : Int)) ∧
        ((k : Int) + ((tickRun c maxRetries skipLocked [r] ticks).2 : Int) = maxRetries →
          q.status = "failed" ∧ q.attempts = maxRetries - 1)) ∧
      (∀ ready : Int, (∀ due, r.nextAttemptAt = some due → due ≤ unixSec ready) →
        Spaced ready ticks →
        ((tickRun c maxRetries skipLocked [r] ticks).2 : Int) =
          min (ticks.length : Int) (maxRetries - k)) := by
  induction ticks with
  | nil =>
    intro k r hid _ _ hst hk hlt
    simp only [tickRun, Nat.cast_zero, add_zero, List.length_nil]
    refine ⟨le_of_lt hlt, ⟨r, rfl, hid, fun _ => ⟨hst, hk⟩, fun h => absurd h (ne_of_lt hlt)⟩, ?_⟩
    intro ready _ _
    omega
  | cons tk rest ih =>
    intro k r hid hp hm hst hk hlt
    have hfail0 := hfail tk (List.mem_cons_self _ _)
    have ih2 := ih (fun t ht => hfail t (List.mem_cons_of_mem _ ht))
    have hltr : r.attempts < maxRetries := by rw [hk]; exact hlt
    by_cases hdue : eligible (unixSec tk.now) r = true
    · obtain ⟨e, he⟩ := workerTick_due c maxRetries skipLocked r task0 tk hfail0 hp hm hltr hdue
      by_cases hroom : r.attempts + 1 < maxRetries
      · rw [if_pos hroom] at he
        obtain ⟨r1, hr1⟩ : ∃ r1 : ImageGenerationTask, r1 =
            { claimed r tk.now with
                status := "pending", attempts := r.attempts + 1, lastError := e.msg,
                nextAttemptAt :=
                  some (unixSec (tk.later + pickImageTaskRetryDelay (r.attempts + 1) tk.draw)),
                updatedAt := unixSec tk.later } := ⟨_, rfl⟩
        have hrow : ScheduleRetry [claimed r tk.now] r.id
            (tk.later + pickImageTaskRetryDelay (r.attempts + 1) tk.draw) e.msg tk.later =
            [r1] := by
          rw [hr1]
          simp [ScheduleRetry, updateWhere, claimed]
        rw [hrow] at he
        have hk1 : ((k + 1 : Nat) : Int) < maxRetries := by push_cast; omega
        have hr1id : r1.id = task0.id := by rw [hr1]; exact hid
        have hr1p : r1.prompt = task0.prompt := by rw [hr1]; exact hp
        have hr1m : r1.modelID = task0.modelID := by rw [hr1]; exact hm
        have hr1s : r1.status = "pending" := by rw [hr1]
        have hr1a : r1.attempts = ((k + 1 : Nat) : Int) := by
          rw [hr1]
          push_cast
          omega
        have hr1n : r1.nextAttemptAt =
            some (unixSec (tk.later + pickImageTaskRetryDelay (r.attempts + 1) tk.draw)) := by
          rw [hr1]
        obtain ⟨h1, ⟨q, hq, hqid, hq1, hq2⟩, h3⟩ := ih2 (k + 1) r1 hr1id hr1p hr1m hr1s hr1a hk1
        simp only [tickRun, he, if_true]
        push_cast at h1 hq1 hq2 h3 ⊢
        refine ⟨by omega, ⟨q, hq, hqid, ?_, ?_⟩, ?_⟩
        · intro h
          have := hq1 (by omega)
          exact ⟨this.1, by omega⟩
        · intro h
          exact hq2 (by omega)
        · intro ready _ hsp
          obtain ⟨_, hd0, hd1, hrest⟩ := hsp
          have := h3 (tk.later + 144 * second) (by
            intro due hdue2
            rw [hr1n] at hdue2
            simp only [Option.some.injEq] at hdue2
            rw [← hdue2]
            apply unixSec_mono
            have := pickImageTaskRetryDelay_le (r.attempts + 1) tk.draw hd0 hd1
            omega) hrest
          simp only [List.length_cons]
          push_cast
          omega
      · rw [if_neg hroom] at he
        have hrow : MarkFailed [claimed r tk.now] r.id e.msg tk.later =
            [{ claimed r tk.now with
                status := "failed", errorMessage := e.msg, lastError := e.msg,
                updatedAt := unixSec tk.later, completedAt := some (unixSec tk.later),
                nextAttemptAt := none }] := by
          simp [MarkFailed, updateWhere, claimed]
        rw [hrow] at he
        simp only [tickRun, he, if_true]
        rw [tickRun_not_pending c maxRetries skipLocked _ (by simp) rest]
        simp only [Nat.cast_add, Nat.cast_one, Nat.cast_zero, add_zero]
        refine ⟨by omega, ⟨_, rfl, hid, ?_, ?_⟩, ?_⟩
        · intro h
          omega
        · intro _
          exact ⟨rfl, by simp only [claimed]; omega⟩
        · intro ready _ _
          simp only [List.length_cons]
          push_cast
          omega
    · have hnd : eligible (unixSec tk.now) r = false := by simpa using hdue
      obtain ⟨h1, h2, h3⟩ := ih2 k r hid hp hm hst hk hlt
      simp only [tickRun, workerTick_not_due c maxRetries skipLocked r tk hnd]
      simp only [Bool.false_eq_true, if_false, zero_add]
      refine ⟨h1, h2, ?_⟩
      intro ready hready hsp
      exfalso
      apply hdue
      obtain ⟨hr, _⟩ := hsp
      simp only [eligible, hst, beq_self_eq_true, Bool.true_and]
      cases hna : r.nextAttemptAt with
      | none => rfl
      | some due =>
        simp only [decide_eq_true_eq]
        exact le_trans (hready due hna) (unixSec_mono hr)

theorem freshTable_eq (userID : Int) (req : CreateImageTaskRequest) (taskID : String)
    (t0 : Int) :
    freshTable userID req taskID t0 = [BeforeCreate (newImageTask userID req taskID t0) t0] := by
  simp [freshTable, TaskStore.Insert]

/-- C20. With `max_retries ≥ 1`, a task stored with `attempts = 0` whose every generation
fails with a retryable error is executed at most `max_retries` times; while it has been
executed fewer times it is pending with `attempts` equal to the number of executions,
and after the `max_retries`-th execution it is failed.  When the ticker keeps firing
after each backoff has passed, the number of executions is the smaller of the number of
firings and `max_retries`.  A retryable failure calls `ScheduleRetry` when
`attempts + 1 < max_retries` and `MarkFailed` otherwise; a failure that is not retryable
calls `MarkFailed` at once. -/
theorem retryable_failures_exhaust_retries (c : Constants) (maxRetries : Int)
    (skipLocked : Bool) (userID : Int) (req : CreateImageTaskRequest) (taskID : String)
    (t0 : Int) (ticks : List Tick) (hmax : 1 ≤ maxRetries)
    (hfail : ∀ tk ∈ ticks, FailsRetryably c tk.w (newImageTask userID req taskID t0)) :
    ((tickRun c maxRetries skipLocked (freshTable userID req taskID t0) ticks).2 : Int)
        ≤ maxRetries ∧
    (∃ q, (tickRun c maxRetries skipLocked (freshTable userID req taskID t0) ticks).1 = [q] ∧
      q.id = taskID ∧
      (((tickRun c maxRetries skipLocked (freshTable userID req taskID t0) ticks).2 : Int)
          < maxRetries →
        q.status = "pending" ∧ q.attempts =
          ((tickRun c maxRetries skipLocked (freshTable userID req taskID t0) ticks).2 : Int)) ∧
      (((tickRun c maxRetries skipLocked (freshTable userID req taskID t0) ticks).2 : Int)
          = maxRetries →
        q.status = "failed" ∧ q.attempts = maxRetries - 1)) ∧
    (∀ ready : Int, Spaced ready ticks →
      ((tickRun c maxRetries skipLocked (freshTable userID req taskID t0) ticks).2 : Int) =
        min (ticks.length : Int) maxRetries) ∧
    (∀ (w : World) (draw : ℚ) (db : Store) (task : ImageGenerationTask) (now : Int)
        (err : GoError),
      task.attempts < maxRetries → w.panicValue = none → Generate c w task = Except.error err →
      (isRetryableImageError (some err) = true → task.attempts + 1 < maxRetries →
        processTask c maxRetries w draw db task now =
          ScheduleRetry db task.id (now + pickImageTaskRetryDelay (task.attempts + 1) draw)
            err.msg now) ∧
      (isRetryableImageError (some err) = true → ¬ task.attempts + 1 < maxRetries →
        processTask c maxRetries w draw db task now = MarkFailed db task.id err.msg now) ∧
      (isRetryableImageError (some err) = false →
        processTask c maxRetries w draw db task now = MarkFailed db task.id err.msg now)) := by
  have hrun := tickRun_pending c maxRetries skipLocked (newImageTask userID req taskID t0) ticks
    hfail 0 (BeforeCreate (newImageTask userID req taskID t0) t0) rfl rfl rfl rfl rfl
    (by push_cast; omega)
  rw [← freshTable_eq] at hrun
  simp only [Nat.cast_zero, zero_add, sub_zero] at hrun
  obtain ⟨h1, ⟨q, hq, hqid, hq1, hq2⟩, h3⟩ := hrun
  refine ⟨h1, ⟨q, hq, hqid, hq1, hq2⟩, ?_, ?_⟩
  · intro ready hsp
    exact h3 ready (fun due hdue => by cases hdue) hsp
  · intro w draw db task now err hlt hpanic hgen
    refine ⟨?_, ?_, ?_⟩
    · intro hretry hroom
      exact processTask_schedules c maxRetries w draw db task now err hpanic hgen hretry hroom
    · intro _ hroom
      exact processTask_fails c maxRetries w draw db task now err hlt hpanic hgen (Or.inr hroom)
    · intro hnot
      exact processTask_fails c maxRetries w draw db task now err hlt hpanic hgen (Or.inl hnot)

theorem busyTicks_fail :
    ∀ tk ∈ busyTicks, FailsRetryably sampleConstants tk.w (newImageTask 1 sampleRequest "t1" 100000000000) := by
  intro tk htk
  simp only [busyTicks, List.mem_cons, List.mem_singleton, List.not_mem_nil, or_false] at htk
  rcases htk with rfl | rfl | rfl <;>
    exact ⟨rfl, errorf "request failed with status 503: upstream busy", rfl, by decide⟩

theorem busyTicks_spaced : Spaced 0 busyTicks := by
  simp only [Spaced, busyTicks, second]
  norm_num

theorem retryable_failures_exhaust_retries_witness :
    ((tickRun sampleConstants 3 false (freshTable 1 sampleRequest "t1" 100000000000)
        busyTicks).2 : Int) = 3 ∧
    (((tickRun sampleConstants 3 false (freshTable 1 sampleRequest "t1" 100000000000) busyTicks).2 : Int)
        ≤ 3 ∧
    (∃ q, (tickRun sampleConstants 3 false (freshTable 1 sampleRequest "t1" 100000000000) busyTicks).1 = [q] ∧
      q.id = "t1" ∧
      (((tickRun sampleConstants 3 false (freshTable 1 sampleRequest "t1" 100000000000) busyTicks).2 : Int)
          < 3 →
        q.status = "pending" ∧ q.attempts =
          ((tickRun sampleConstants 3 false (freshTable 1 sampleRequest "t1" 100000000000) busyTicks).2 : Int)) ∧
      (((tickRun sampleConstants 3 false (freshTable 1 sampleRequest "t1" 100000000000) busyTicks).2 : Int)
          = 3 →
        q.status = "failed" ∧ q.attempts = 3 - 1)) ∧
    (∀ ready : Int, Spaced ready busyTicks →
      ((tickRun sampleConstants 3 false (freshTable 1 sampleRequest "t1" 100000000000) busyTicks).2 : Int) =
        min (busyTicks.length : Int) 3) ∧
    (∀ (w : World) (draw : ℚ) (db : Store) (task : ImageGenerationTask) (now : Int)
        (err : GoError),
      task.attempts < 3 → w.panicValue = none → Generate sampleConstants w task = Except.error err →
      (isRetryableImageError (some err) = true → task.attempts + 1 < 3 →
        processTask sampleConstants 3 w draw db task now =
          ScheduleRetry db task.id (now + pickImageTaskRetryDelay (task.attempts + 1) draw)
            err.msg now) ∧
      (isRetryableImageError (some err) = true → ¬ task.attempts + 1 < 3 →
        processTask sampleConstants 3 w draw db task now = MarkFailed db task.id err.msg now) ∧
      (isRetryableImageError (some err) = false →
        processTask sampleConstants 3 w draw db task now = MarkFailed db task.id err.msg now))) :=
  ⟨by
      have h := (retryable_failures_exhaust_retries sampleConstants 3 false 1 sampleRequest "t1"
        100000000000 busyTicks (by decide) busyTicks_fail).2.2.1 0 busyTicks_spaced
      simpa [busyTicks] using h,
    retryable_failures_exhaust_retries sampleConstants 3 false 1 sampleRequest "t1"
      100000000000 busyTicks (by decide) busyTicks_fail⟩

end ImageWorker

namespace ImageWorker

open TaskStore

/-! ## The stored image count -/

/-- C21. The count stored for a create request is 1 when the supplied count is at most
0, 4 when it is above 4, and the supplied count otherwise, so it lies in 1..4; the
`BeforeCreate` hook and the insert keep it. -/
theorem stored_count_clamped (userID : Int) (req : CreateImageTaskRequest) (taskID : String)
    (now : Int) :
    (newImageTask userID req taskID now).count =
        (if req.count ≤ 0 then 1 else if req.count > 4 then 4 else req.count) ∧
    (1 ≤ (newImageTask userID req taskID now).count ∧
      (newImageTask userID req taskID now).count ≤ 4) ∧
    (BeforeCreate (newImageTask userID req taskID now) now).count =
        (newImageTask userID req taskID now).count ∧
    (∀ db : Store, db.any (fun r => r.id == taskID) = false →
      (TaskStore.Insert db (newImageTask userID req taskID now) now).2 =
        db ++ [BeforeCreate (newImageTask userID req taskID now) now]) := by
  have hcount : (newImageTask userID req taskID now).count =
      (if req.count ≤ 0 then 1 else if req.count > 4 then 4 else req.count) := by
    simp only [newImageTask, applyDefaults]
    by_cases h0 : req.count ≤ 0
    · have h4 : ¬ (1 : Int) > 4 := by decide
      split <;> split <;> simp [h0, h4]
    · by_cases h4 : req.count > 4
      · split <;> split <;> simp [h0, h4]
      · split <;> split <;> simp [h0, h4]
  refine ⟨hcount, ?_, ?_, ?_⟩
  · rw [hcount]
    split
    · decide
    · split <;> omega
  · have h1 : (newImageTask userID req taskID now).count ≠ 0 := by
      rw [hcount]
      split
      · decide
      · split <;> omega
    simp only [BeforeCreate, h1, if_false]
  · intro db hdb
    have hid : (newImageTask userID req taskID now).id = taskID := rfl
    simp only [TaskStore.Insert, hid, hdb, Bool.false_eq_true, if_false]

end ImageWorker

namespace ImageWorker

open TaskStore

/-! ## Storage never fails a generation -/

theorem storeEach_getElem? (storeImage : Nat → String → Except GoError String)
    (images : List String) :
    ∀ (j i : Nat), (storeEach storeImage j images)[i]? =
      images[i]?.map (fun img =>
        match storeImage (j + i) img with
        | Except.error _ => img
        | Except.ok url => url) := by
  induction images with
  | nil => intro j i; simp [storeEach]
  | cons img rest ih =>
    intro j i
    cases i with
    | zero =>
      simp only [storeEach]
      split <;> simp_all
    | succ i =>
      have hji : j + 1 + i = j + (i + 1) := by omega
      simp only [storeEach]
      split <;> simp [ih, hji]

/-- C24. `StoreGeneratedImages` returns no error and a list of the same length whose
element at each position is the stored URL when storing that image succeeded and the
original input when it failed.  The outcome of `Generate` is an error exactly when it
is an error without a storage service, with the same error, and a successful
generation returns as many URLs with storage as without. -/
theorem storage_never_fails_generation (storeImage : Nat → String → Except GoError String)
    (images : List String) :
    (StoreGeneratedImages storeImage images).2 = none ∧
    (StoreGeneratedImages storeImage images).1.length = images.length ∧
    (∀ i : Nat, (StoreGeneratedImages storeImage images).1[i]? =
      images[i]?.map (fun img =>
        match storeImage i img with
        | Except.error _ => img
        | Except.ok url => url)) ∧
    (∀ (c : Constants) (w : World) (task : ImageGenerationTask)
        (storage : Option (Nat → String → Except GoError String)),
      (∀ e, Generate c { w with storage := storage } task = Except.error e ↔
        Generate c { w with storage := none } task = Except.error e) ∧
      (∀ urls, Generate c { w with storage := none } task = Except.ok urls →
        Generate c { w with storage := storage } task =
          Except.ok (match storage with
            | none => urls
            | some f => (StoreGeneratedImages f urls).1))) := by
  refine ⟨(StoreGeneratedImages_length storeImage images).2,
    (StoreGeneratedImages_length storeImage images).1, ?_, ?_⟩
  · intro i
    unfold StoreGeneratedImages
    split
    · rename_i h
      have : images = [] := List.length_eq_zero.mp h
      subst this
      simp
    · simpa using storeEach_getElem? storeImage images 0 i
  · intro c w task storage
    have hsel : ∀ s, selectChannel c { w with storage := s } task.modelID =
        selectChannel c w task.modelID := fun _ => rfl
    unfold Generate
    simp only [hsel]
    by_cases hp : task.prompt = ""
    · simp [hp]
    · by_cases hm : task.modelID = ""
      · simp [hp, hm]
      · simp only [hp, hm, if_false]
        cases hch : selectChannel c w task.modelID with
        | error e => simp
        | ok channel =>
          simp only
          generalize hg : (if channel.type = c.ChannelTypeOpenAI ∨
              channel.type = c.ChannelTypeAzure ∨ channel.type = c.ChannelTypeCustom then
                generateOpenAI channel w.openAI
              else if channel.type = c.ChannelTypeGemini ∨
                  channel.type = c.ChannelTypeVertexAi then generateGemini channel w.gemini
              else generateOpenAI channel w.openAI) = generated
          cases generated with
          | error e => simp
          | ok urls =>
            simp only
            cases storage with
            | none => simp
            | some f =>
              have hn := (StoreGeneratedImages_length f urls).2
              constructor
              · intro e
                cases hst : StoreGeneratedImages f urls with
                | mk stored err =>
                  rw [hst] at hn
                  simp only at hn
                  subst hn
                  simp [hst]
              · intro urls2 h2
                simp only [Except.ok.injEq] at h2
                subst h2
                cases hst : StoreGeneratedImages f urls with
                | mk stored err =>
                  rw [hst] at hn
                  simp only at hn
                  subst hn
                  simp [hst]

end ImageWorker

namespace RateLimit

/-! ## The retained window is half-open -/

/-- The claim C25 as stated fails at the boundary: with a 60 s window and the clock at
100 s, the stored timestamp 40000 ms is exactly one window old and is dropped. -/
theorem prune_drops_timestamp_exactly_window_old :
    unixMilli 100000000000 - durationMilliseconds 60000000000 ≤ 40000 ∧
    40000 ≤ unixMilli 100000000000 ∧
    pruneTimestamps [40000] (unixMilli (100000000000 - 60000000000)) = [] := by
  decide

/-- C25 (amended): on a sorted slot none of whose timestamps is newer than `now`, the
pruning step retains exactly the timestamps `ts` with `windowStart < ts ≤ nowMs`, in
their order, where `windowStart = (now - window).UnixMilli()`; a timestamp equal to
`windowStart` is dropped, and for a window of whole milliseconds `windowStart` is
`nowMs - window`. -/
theorem prune_retains_half_open_window (timestamps : List Int) (window now : Int)
    (hsorted : timestamps.Pairwise (fun a b => a ≤ b))
    (hpast : ∀ ts ∈ timestamps, ts ≤ unixMilli now) :
    pruneTimestamps timestamps (unixMilli (now - window)) =
        timestamps.filter
          (fun ts => decide (unixMilli (now - window) < ts ∧ ts ≤ unixMilli now)) ∧
    (∀ ts, ts ∈ pruneTimestamps timestamps (unixMilli (now - window)) ↔
      ts ∈ timestamps ∧ unixMilli (now - window) < ts ∧ ts ≤ unixMilli now) ∧
    unixMilli (now - window) ∉ pruneTimestamps timestamps (unixMilli (now - window)) ∧
    (window % 1000000 = 0 →
      unixMilli (now - window) = unixMilli now - durationMilliseconds window) := by
  have hf : pruneTimestamps timestamps (unixMilli (now - window)) =
      timestamps.filter
        (fun ts => decide (unixMilli (now - window) < ts ∧ ts ≤ unixMilli now)) := by
    rw [pruneTimestamps_eq_filter _ _ hsorted]
    apply List.filter_congr
    intro ts hts
    have := hpast ts hts
    simp only [newerThan, gt_iff_lt, decide_eq_decide]
    constructor
    · intro h
      exact ⟨h, this⟩
    · intro h
      exact h.1
  refine ⟨hf, ?_, ?_, ?_⟩
  · intro ts
    rw [hf, List.mem_filter]
    simp
  · rw [hf, List.mem_filter]
    simp
  · intro hw
    unfold unixMilli durationMilliseconds
    rw [Int.tdiv_eq_ediv_of_dvd (Int.dvd_of_emod_eq_zero hw)]
    omega

theorem prune_retains_half_open_window_witness :
    pruneTimestamps [40000, 40001, 99000] (unixMilli (100000000000 - 60000000000)) =
        [40000, 40001, 99000].filter
          (fun ts => decide (unixMilli (100000000000 - 60000000000) < ts ∧
            ts ≤ unixMilli 100000000000)) ∧
    (∀ ts, ts ∈ pruneTimestamps [40000, 40001, 99000]
        (unixMilli (100000000000 - 60000000000)) ↔
      ts ∈ [40000, 40001, 99000] ∧ unixMilli (100000000000 - 60000000000) < ts ∧
        ts ≤ unixMilli 100000000000) ∧
    unixMilli (100000000000 - 60000000000) ∉
      pruneTimestamps [40000, 40001, 99000] (unixMilli (100000000000 - 60000000000)) ∧
    ((60000000000 : Int) % 1000000 = 0 →
      unixMilli (100000000000 - 60000000000) =
        unixMilli 100000000000 - durationMilliseconds 60000000000) :=
  prune_retains_half_open_window [40000, 40001, 99000] 60000000000 100000000000
    (by decide) (by decide)

end RateLimit

namespace RateLimit

/-! ## Eviction by the sweeper -/

theorem slotAcquire_of_prune_eq (t1 t2 : List Int) (rpm window now : Int)
    (h : pruneTimestamps t1 (unixMilli (now - window)) =
      pruneTimestamps t2 (unixMilli (now - window))) :
    slotAcquire t1 rpm window now = slotAcquire t2 rpm window now := by
  unfold slotAcquire
  simp only [h]

end RateLimit

namespace ImageWorker

open TaskStore

/-! ## What the adapters send -/

theorem string_append_left_cancel (a b c : String) (h : a ++ b = a ++ c) : b = c := by
  have hd : (a ++ b).data = (a ++ c).data := by rw [h]
  rw [String.data_append, String.data_append] at hd
  exact String.ext (List.append_cancel_left hd)

theorem trimRightSlash_spec (s : String) :
    (trimRightSlash s).data.getLast? ≠ some '/' ∧
      ∃ n, s.data = (trimRightSlash s).data ++ List.replicate n '/' := by
  unfold trimRightSlash
  simp only
  constructor
  · rw [List.getLast?_reverse]
    intro h
    have := List.head?_dropWhile_not (fun c => c == '/') s.data.reverse
    rw [h] at this
    simp at this
  · refine ⟨(s.data.reverse.takeWhile (fun c => c == '/')).length, ?_⟩
    have hall : ∀ c ∈ (s.data.reverse.takeWhile (fun c => c == '/')).reverse, c = '/' := by
      intro c hc
      rw [List.mem_reverse] at hc
      simpa using List.mem_takeWhile_imp hc
    have hrep : (s.data.reverse.takeWhile (fun c => c == '/')).reverse =
        List.replicate (s.data.reverse.takeWhile (fun c => c == '/')).length '/' := by
      rw [List.eq_replicate_iff]
      exact ⟨by simp, hall⟩
    rw [← hrep, ← List.reverse_append, List.takeWhile_append_dropWhile, List.reverse_reverse]

/-- The request `generateOpenAI` builds, branch by branch: it posts to
`<base>/v1/images/edits` exactly when `reference_image` is non-empty and to
`<base>/v1/images/generations` otherwise, `<base>` being the base URL without trailing
slashes.  Both bodies carry `prompt`, `n = count` and, when `resolution` is non-empty,
`size = resolution`.  The generations body also carries `model = model_id` and, when
`aspect_ratio` is non-empty, `aspect_ratio`; the edits body carries
`image = reference_image` and neither `model` nor `aspect_ratio`. -/
theorem openAIRequest_shape (baseURL : String) (task : ImageGenerationTask) :
    ((openAIRequest baseURL task).endpoint = trimRightSlash baseURL ++ "/v1/images/edits" ↔
      task.referenceImage ≠ "") ∧
    ((openAIRequest baseURL task).endpoint =
        trimRightSlash baseURL ++ "/v1/images/generations" ↔ task.referenceImage = "") ∧
    ((trimRightSlash baseURL).data.getLast? ≠ some '/' ∧
      ∃ n, baseURL.data = (trimRightSlash baseURL).data ++ List.replicate n '/') ∧
    getKey (openAIRequest baseURL task).body "prompt" = some (Json.str task.prompt) ∧
    getKey (openAIRequest baseURL task).body "n" = some (Json.num task.count) ∧
    getKey (openAIRequest baseURL task).body "size" =
      (if task.resolution ≠ "" then some (Json.str task.resolution) else none) ∧
    (task.referenceImage = "" →
      getKey (openAIRequest baseURL task).body "model" = some (Json.str task.modelID) ∧
      getKey (openAIRequest baseURL task).body "aspect_ratio" =
        (if task.aspectRatio ≠ "" then some (Json.str task.aspectRatio) else none) ∧
      getKey (openAIRequest baseURL task).body "image" = none) ∧
    (task.referenceImage ≠ "" →
      getKey (openAIRequest baseURL task).body "model" = none ∧
      getKey (openAIRequest baseURL task).body "aspect_ratio" = none ∧
      getKey (openAIRequest baseURL task).body "image" =
        some (Json.str task.referenceImage)) := by
  have hne : ("/v1/images/generations" : String) ≠ "/v1/images/edits" := by decide
  refine ⟨?_, ?_, ⟨?_, ?_⟩, ?_, ?_, ?_, ?_, ?_⟩
  · unfold openAIRequest
    by_cases h : task.referenceImage = ""
    · simp only [h, ne_eq, not_true_eq_false, if_false, iff_false]
      intro he
      exact hne (string_append_left_cancel _ _ _ he)
    · simp [h]
  · unfold openAIRequest
    by_cases h : task.referenceImage = ""
    · simp [h]
    · simp only [h, ne_eq, not_false_eq_true, if_true, iff_false]
      intro he
      exact hne (string_append_left_cancel _ _ _ he).symm
  · exact (trimRightSlash_spec baseURL).1
  · exact (trimRightSlash_spec baseURL).2
  · unfold openAIRequest
    by_cases h : task.referenceImage = "" <;> by_cases hr : task.resolution = "" <;>
      by_cases ha : task.aspectRatio = "" <;> simp [h, hr, ha, getKey, setKey]
  · unfold openAIRequest
    by_cases h : task.referenceImage = "" <;> by_cases hr : task.resolution = "" <;>
      by_cases ha : task.aspectRatio = "" <;> simp [h, hr, ha, getKey, setKey]
  · unfold openAIRequest
    by_cases h : task.referenceImage = "" <;> by_cases hr : task.resolution = "" <;>
      by_cases ha : task.aspectRatio = "" <;> simp [h, hr, ha, getKey, setKey]
  · intro h
    unfold openAIRequest
    by_cases hr : task.resolution = "" <;>
      by_cases ha : task.aspectRatio = "" <;> simp [h, hr, ha, getKey, setKey]
  · intro h
    unfold openAIRequest
    by_cases hr : task.resolution = "" <;> simp [h, hr, getKey, setKey]

/-- C22. The edits branch of `generateOpenAI` drops `model` and `aspect_ratio`.  For a
task with model `m1`, aspect ratio `1:1` and a reference image, the body posted to
`/v1/images/edits` has neither key, while the generations body of the same task
without the reference image carries `model = m1` and `aspect_ratio = 1:1`.  The same
holds for every task: with a reference image the body has no `model` and no
`aspect_ratio`, without one it carries `model = model_id` and, when `aspect_ratio` is
non-empty, `aspect_ratio`. -/
theorem edits_request_omits_model :
    ((openAIRequest "https://api.example.com/"
        { sampleTask with referenceImage := "https://x/ref.png" }).endpoint =
          "https://api.example.com/v1/images/edits" ∧
      (getKey (openAIRequest "https://api.example.com/"
        { sampleTask with referenceImage := "https://x/ref.png" }).body "model").isNone = true ∧
      (getKey (openAIRequest "https://api.example.com/"
        { sampleTask with referenceImage := "https://x/ref.png" }).body
          "aspect_ratio").isNone = true) ∧
    ((openAIRequest "https://api.example.com/" sampleTask).endpoint =
        "https://api.example.com/v1/images/generations" ∧
      getKey (openAIRequest "https://api.example.com/" sampleTask).body "model" =
        some (Json.str "m1") ∧
      getKey (openAIRequest "https://api.example.com/" sampleTask).body "aspect_ratio" =
        some (Json.str "1:1")) ∧
    (∀ (baseURL : String) (task : ImageGenerationTask),
      (task.referenceImage ≠ "" →
        getKey (openAIRequest baseURL task).body "model" = none ∧
        getKey (openAIRequest baseURL task).body "aspect_ratio" = none) ∧
      (task.referenceImage = "" →
        getKey (openAIRequest baseURL task).body "model" = some (Json.str task.modelID) ∧
        getKey (openAIRequest baseURL task).body "aspect_ratio" =
          (if task.aspectRatio ≠ "" then some (Json.str task.aspectRatio) else none))) := by
  refine ⟨by decide, ⟨by decide, rfl, rfl⟩, ?_⟩
  intro baseURL task
  have h := openAIRequest_shape baseURL task
  exact ⟨fun hne => ⟨(h.2.2.2.2.2.2.2 hne).1, (h.2.2.2.2.2.2.2 hne).2.1⟩,
    fun he => ⟨(h.2.2.2.2.2.2.1 he).1, (h.2.2.2.2.2.2.1 he).2.1⟩⟩

end ImageWorker

namespace ImageWorker

open TaskStore

theorem applyDefaults_resolution (req : CreateImageTaskRequest) :
    (applyDefaults req).resolution = (if req.resolution = "" then "1K" else req.resolution) := by
  simp only [applyDefaults]
  split_ifs <;> rfl

theorem geminiRequest_config (baseURL : String) (task : ImageGenerationTask) :
    getKey (geminiRequest baseURL task).body "generationConfig" =
      (if task.resolution ≠ "" ∨ task.aspectRatio ≠ "" ∨ task.count > 1 then
        some (Json.obj [("imageConfig", Json.obj (geminiImageConfig task))])
      else none) := by
  unfold geminiRequest
  by_cases h : task.resolution ≠ "" ∨ task.aspectRatio ≠ "" ∨ task.count > 1
  · simp only [h, if_true]
    simp [getKey, setKey]
  · simp only [h, if_false]
    simp [getKey]

theorem geminiRequest_config_isSome (baseURL : String) (task : ImageGenerationTask) :
    (getKey (geminiRequest baseURL task).body "generationConfig").isSome = true ↔
      task.resolution ≠ "" ∨ task.aspectRatio ≠ "" ∨ task.count > 1 := by
  rw [geminiRequest_config]
  by_cases h : task.resolution ≠ "" ∨ task.aspectRatio ≠ "" ∨ task.count > 1
  · simp only [h, if_true, Option.isSome_some]
  · simp only [h, if_false, Option.isSome_none, Bool.false_eq_true]

/-- The claim C23 as stated fails for the defaults the create handler stores: a task
with resolution `1K`, aspect ratio `1:1` and count 1 is sent with
`generationConfig.imageConfig`. -/
theorem default_task_sent_with_generationConfig :
    sampleTask.resolution = "1K" ∧ sampleTask.aspectRatio = "1:1" ∧ sampleTask.count = 1 ∧
    (getKey (geminiRequest "https://gemini.example.com" sampleTask).body
      "generationConfig").isSome = true ∧
    (getKey (geminiImageConfig sampleTask) "resolution").isSome = true ∧
    (getKey (geminiImageConfig sampleTask) "aspectRatio").isSome = true := by
  decide

/-- C23 (amended): the Gemini-family request body contains
`generationConfig.imageConfig` exactly when `resolution` is non-empty, `aspect_ratio`
is non-empty or `count > 1`; `imageConfig` then carries `resolution` and `aspectRatio`
when they are non-empty and `numberOfImages` when `count > 1`.  Every task the create
handler builds has a non-empty resolution, so it is sent with `generationConfig`. -/
theorem geminiRequest_generationConfig (baseURL : String) (task : ImageGenerationTask) :
    getKey (geminiRequest baseURL task).body "generationConfig" =
      (if task.resolution ≠ "" ∨ task.aspectRatio ≠ "" ∨ task.count > 1 then
        some (Json.obj [("imageConfig", Json.obj (geminiImageConfig task))])
      else none) ∧
    ((getKey (geminiRequest baseURL task).body "generationConfig").isSome = true ↔
      task.resolution ≠ "" ∨ task.aspectRatio ≠ "" ∨ task.count > 1) ∧
    getKey (geminiImageConfig task) "resolution" =
      (if task.resolution ≠ "" then some (Json.str task.resolution) else none) ∧
    getKey (geminiImageConfig task) "aspectRatio" =
      (if task.aspectRatio ≠ "" then some (Json.str task.aspectRatio) else none) ∧
    getKey (geminiImageConfig task) "numberOfImages" =
      (if task.count > 1 then some (Json.num task.count) else none) ∧
    (∀ (userID : Int) (req : CreateImageTaskRequest) (taskID : String) (now : Int),
      (getKey (geminiRequest baseURL (newImageTask userID req taskID now)).body
        "generationConfig").isSome = true) := by
  refine ⟨geminiRequest_config baseURL task, geminiRequest_config_isSome baseURL task,
    ?_, ?_, ?_, ?_⟩
  · unfold geminiImageConfig
    by_cases hr : task.resolution = "" <;> by_cases ha : task.aspectRatio = "" <;>
      by_cases hc : task.count > 1 <;> simp [hr, ha, hc, getKey, setKey]
  · unfold geminiImageConfig
    by_cases hr : task.resolution = "" <;> by_cases ha : task.aspectRatio = "" <;>
      by_cases hc : task.count > 1 <;> simp [hr, ha, hc, getKey, setKey]
  · unfold geminiImageConfig
    by_cases hr : task.resolution = "" <;> by_cases ha : task.aspectRatio = "" <;>
      by_cases hc : task.count > 1 <;> simp [hr, ha, hc, getKey, setKey]
  · intro userID req taskID now
    rw [geminiRequest_config_isSome]
    left
    show (applyDefaults req).resolution ≠ ""
    rw [applyDefaults_resolution]
    split
    · decide
    · assumption

end ImageWorker

namespace ModelRPM

/-! ## Decimal numerals -/

theorem digitChar_value (d : Nat) (hd : d < 10) :
    (Nat.digitChar d).toNat - 48 = d ∧ Nat.digitChar d ≠ ':' ∧ Nat.digitChar d ≠ '-' := by
  revert d
  decide

/-- Reading the digits that `Nat.toDigitsCore` puts in front of `ds` gives back `n`. -/
theorem toDigitsCore_value (fuel : Nat) :
    ∀ (n : Nat) (ds : List Char), n < fuel →
      (Nat.toDigitsCore 10 fuel n ds).foldl (fun a c => 10 * a + (c.toNat - 48)) 0 =
        ds.foldl (fun a c => 10 * a + (c.toNat - 48)) n := by
  induction fuel with
  | zero => intro n ds h; omega
  | succ fuel ih =>
    intro n ds h
    have hd := (digitChar_value (n % 10) (Nat.mod_lt _ (by decide))).1
    simp only [Nat.toDigitsCore]
    by_cases h0 : n / 10 = 0
    · simp only [h0, if_true, List.foldl_cons, hd]
      have : 10 * 0 + n % 10 = n := by omega
      rw [this]
    · simp only [h0, if_false]
      rw [ih (n / 10) _ (by omega)]
      simp only [List.foldl_cons, hd]
      have : 10 * (n / 10) + n % 10 = n := by omega
      rw [this]

theorem toDigitsCore_chars (fuel : Nat) :
    ∀ (n : Nat) (ds : List Char), (∀ c ∈ ds, c ≠ ':' ∧ c ≠ '-') →
      ∀ c ∈ Nat.toDigitsCore 10 fuel n ds, c ≠ ':' ∧ c ≠ '-' := by
  induction fuel with
  | zero => intro n ds h; simpa [Nat.toDigitsCore] using h
  | succ fuel ih =>
    intro n ds h
    have hd := (digitChar_value (n % 10) (Nat.mod_lt _ (by decide))).2
    have hcons : ∀ c ∈ Nat.digitChar (n % 10) :: ds, c ≠ ':' ∧ c ≠ '-' := by
      intro c hc
      rcases List.mem_cons.mp hc with rfl | hc
      · exact hd
      · exact h c hc
    simp only [Nat.toDigitsCore]
    by_cases h0 : n / 10 = 0
    · simpa only [h0, if_true] using hcons
    · simp only [h0, if_false]
      exact ih (n / 10) _ hcons

theorem toDigits_injective (a b : Nat) (h : Nat.toDigits 10 a = Nat.toDigits 10 b) : a = b := by
  have ha := toDigitsCore_value (a + 1) a [] (by omega)
  have hb := toDigitsCore_value (b + 1) b [] (by omega)
  simp only [List.foldl_nil] at ha hb
  unfold Nat.toDigits at h
  rw [← ha, ← hb, h]

theorem toDigits_chars (n : Nat) : ∀ c ∈ Nat.toDigits 10 n, c ≠ ':' ∧ c ≠ '-' :=
  toDigitsCore_chars (n + 1) n [] (fun _ h => absurd h (List.not_mem_nil _))

/-- The decimal numeral of `%d` has no colon. -/
theorem toString_int_no_colon (u : Int) : ':' ∉ (toString u).data := by
  cases u with
  | ofNat n =>
    have : toString (Int.ofNat n) = ⟨Nat.toDigits 10 n⟩ := rfl
    rw [this]
    intro hc
    exact (toDigits_chars n _ hc).1 rfl
  | negSucc n =>
    have : toString (Int.negSucc n) = "-" ++ ⟨Nat.toDigits 10 (n + 1)⟩ := rfl
    rw [this, String.data_append]
    intro hc
    rcases List.mem_append.mp hc with hc | hc
    · revert hc
      decide
    · exact (toDigits_chars (n + 1) _ hc).1 rfl

/-- The decimal numeral of `%d` determines the integer. -/
theorem toString_int_injective (u v : Int) (h : toString u = toString v) : u = v := by
  have hu : ∀ n : Nat, toString (Int.ofNat n) = ⟨Nat.toDigits 10 n⟩ := fun _ => rfl
  have hv : ∀ n : Nat, toString (Int.negSucc n) = "-" ++ ⟨Nat.toDigits 10 (n + 1)⟩ :=
    fun _ => rfl
  have hmix : ∀ a b : Nat, toString (Int.ofNat a) ≠ toString (Int.negSucc b) := by
    intro a b hab
    rw [hu, hv] at hab
    have hd : (⟨Nat.toDigits 10 a⟩ : String).data = ("-" ++ ⟨Nat.toDigits 10 (b + 1)⟩ : String).data := by
      rw [hab]
    rw [String.data_append] at hd
    have hm : '-' ∈ Nat.toDigits 10 a := by
      have hmem : '-' ∈ ("-" : String).data ++ Nat.toDigits 10 (b + 1) :=
        List.mem_append_left _ (by decide)
      have hd2 : Nat.toDigits 10 a = ("-" : String).data ++ Nat.toDigits 10 (b + 1) := hd
      rw [hd2]
      exact hmem
    exact (toDigits_chars a _ hm).2 rfl
  cases u with
  | ofNat a =>
    cases v with
    | ofNat b =>
      rw [hu, hu] at h
      have := toDigits_injective a b (by injection h)
      rw [this]
    | negSucc b => exact absurd h (hmix a b)
  | negSucc a =>
    cases v with
    | ofNat b => exact absurd h.symm (hmix b a)
    | negSucc b =>
      rw [hv, hv] at h
      have hd : ("-" ++ (⟨Nat.toDigits 10 (a + 1)⟩ : String)).data =
          ("-" ++ (⟨Nat.toDigits 10 (b + 1)⟩ : String)).data := by rw [h]
      rw [String.data_append, String.data_append] at hd
      have := toDigits_injective (a + 1) (b + 1) (List.append_cancel_left hd)
      have hab : a = b := by omega
      rw [hab]

/-! ## Keys determine their parts -/

/-- A text without colon followed by a colon is determined by the whole. -/
theorem split_at_colon (d1 d2 r1 r2 : List Char) (h1 : ':' ∉ d1) (h2 : ':' ∉ d2)
    (h : d1 ++ ':' :: r1 = d2 ++ ':' :: r2) : d1 = d2 ∧ r1 = r2 := by
  induction d1 generalizing d2 with
  | nil =>
    cases d2 with
    | nil => simpa using h
    | cons y d2 =>
      simp only [List.nil_append, List.cons_append, List.cons.injEq] at h
      exact absurd (by rw [← h.1]; simp) h2
  | cons x d1 ih =>
    cases d2 with
    | nil =>
      simp only [List.nil_append, List.cons_append, List.cons.injEq] at h
      exact absurd (by rw [h.1]; simp) h1
    | cons y d2 =>
      simp only [List.cons_append, List.cons.injEq] at h
      obtain ⟨hxy, hrest⟩ := h
      have := ih d2 (fun hm => h1 (List.mem_cons_of_mem _ hm))
        (fun hm => h2 (List.mem_cons_of_mem _ hm)) hrest
      exact ⟨by rw [hxy, this.1], this.2⟩

theorem user_model_determined (u1 u2 : Int) (m1 m2 : String)
    (h : (toString u1).data ++ ([':', 'm', 'o', 'd', 'e', 'l', ':'] ++ m1.data) =
      (toString u2).data ++ ([':', 'm', 'o', 'd', 'e', 'l', ':'] ++ m2.data)) :
    u1 = u2 ∧ m1 = m2 := by
  simp only [List.cons_append, List.nil_append] at h
  obtain ⟨hu, hm⟩ := split_at_colon _ _ _ _ (toString_int_no_colon u1)
    (toString_int_no_colon u2) h
  simp only [List.cons.injEq, true_and] at hm
  exact ⟨toString_int_injective u1 u2 (String.ext hu), String.ext hm⟩

theorem acquireWithGroupKey_injective (u1 u2 : Int) (m1 m2 g1 g2 : String)
    (hg1 : ':' ∉ g1.data) (hg2 : ':' ∉ g2.data)
    (h : acquireWithGroupKey u1 m1 g1 = acquireWithGroupKey u2 m2 g2) :
    g1 = g2 ∧ u1 = u2 ∧ m1 = m2 := by
  have hd := congrArg String.data h
  unfold acquireWithGroupKey at hd
  by_cases e1 : g1 = "" <;> by_cases e2 : g2 = ""
  · simp only [e1, e2, ne_eq, not_true_eq_false, if_false, String.data_append] at hd
    rw [List.append_assoc, List.append_assoc, List.append_assoc, List.append_assoc] at hd
    have hd2 := List.append_cancel_left hd
    exact ⟨by rw [e1, e2], user_model_determined u1 u2 m1 m2 hd2⟩
  · exfalso
    simp only [e1, e2, ne_eq, not_true_eq_false, not_false_eq_true, if_false, if_true,
      String.data_append] at hd
    simp at hd
  · exfalso
    simp only [e1, e2, ne_eq, not_true_eq_false, not_false_eq_true, if_false, if_true,
      String.data_append] at hd
    simp at hd
  · simp only [e1, e2, ne_eq, not_false_eq_true, if_true, String.data_append] at hd
    rw [List.append_assoc, List.append_assoc, List.append_assoc, List.append_assoc,
      List.append_assoc, List.append_assoc, List.append_assoc, List.append_assoc] at hd
    have hd2 := List.append_cancel_left hd
    simp only [List.cons_append, List.nil_append] at hd2
    obtain ⟨hg, hrest⟩ := split_at_colon _ _ _ _ hg1 hg2 hd2
    simp only [List.cons.injEq, true_and] at hrest
    have hrest2 : (toString u1).data ++ ([':', 'm', 'o', 'd', 'e', 'l', ':'] ++ m1.data) =
        (toString u2).data ++ ([':', 'm', 'o', 'd', 'e', 'l', ':'] ++ m2.data) := by
      simpa only [List.cons_append, List.nil_append] using hrest
    exact ⟨String.ext hg, user_model_determined u1 u2 m1 m2 hrest2⟩

/-- C27. For group names without a colon (the empty name included), any user ids and
any model ids, `AcquireWithGroup` builds the same key for two calls only when group,
user id and model id agree.  `Acquire` builds the key of `AcquireWithGroup` with the
empty group, so two calls of `Acquire` with one key agree on user id and model id, and
a call of `Acquire` shares its key with a call of `AcquireWithGroup` only when that
call has the empty group. -/
theorem limiter_keys_isolate_principals (u1 u2 : Int) (m1 m2 g1 g2 : String)
    (hg1 : ':' ∉ g1.data) (hg2 : ':' ∉ g2.data) :
    acquireKey u1 m1 = acquireWithGroupKey u1 m1 "" ∧
    (acquireWithGroupKey u1 m1 g1 = acquireWithGroupKey u2 m2 g2 →
      g1 = g2 ∧ u1 = u2 ∧ m1 = m2) ∧
    (acquireKey u1 m1 = acquireKey u2 m2 → u1 = u2 ∧ m1 = m2) ∧
    (acquireKey u1 m1 = acquireWithGroupKey u2 m2 g2 → g2 = "" ∧ u1 = u2 ∧ m1 = m2) := by
  have hempty : ':' ∉ ("" : String).data := by decide
  refine ⟨rfl, acquireWithGroupKey_injective u1 u2 m1 m2 g1 g2 hg1 hg2, ?_, ?_⟩
  · intro h
    exact (acquireWithGroupKey_injective u1 u2 m1 m2 "" "" hempty hempty h).2
  · intro h
    have := acquireWithGroupKey_injective u1 u2 m1 m2 "" g2 hempty hg2 h
    exact ⟨this.1.symm, this.2⟩

theorem limiter_keys_isolate_principals_witness :
    acquireKey 12 "gpt:image" = acquireWithGroupKey 12 "gpt:image" "" ∧
    (acquireWithGroupKey 12 "gpt:image" "vip" = acquireWithGroupKey 12 "gpt:image" "vip" →
      "vip" = "vip" ∧ (12 : Int) = 12 ∧ "gpt:image" = "gpt:image") ∧
    (acquireKey 12 "gpt:image" = acquireKey 12 "gpt:image" →
      (12 : Int) = 12 ∧ "gpt:image" = "gpt:image") ∧
    (acquireKey 12 "gpt:image" = acquireWithGroupKey 12 "gpt:image" "vip" →
      "vip" = "" ∧ (12 : Int) = 12 ∧ "gpt:image" = "gpt:image") :=
  limiter_keys_isolate_principals 12 12 "gpt:image" "gpt:image" "vip" "vip"
    (by decide) (by decide)

end ModelRPM

namespace ImageWorker

open TaskStore

/-! ## Base64 round trip -/

theorem base64Char_spec :
    ∀ v < 64, base64Value (base64Char v) = some v ∧ base64Char v ≠ '=' ∧
      base64Char v ≠ '\n' ∧ base64Char v ≠ '\r' := by
  decide

theorem base64DecodeQuanta_encode :
    ∀ bytes : List Nat, (∀ x ∈ bytes, x < 256) →
      base64DecodeQuanta (base64EncodeChars bytes) = some bytes := by
  intro bytes
  induction bytes using base64EncodeChars.induct with
  | case1 => intro _; rfl
  | case2 a =>
    intro h
    have ha : a < 256 := h a (by simp)
    obtain ⟨h1, -, -, -⟩ := base64Char_spec (a / 4) (by omega)
    obtain ⟨h2, -, -, -⟩ := base64Char_spec (a % 4 * 16) (by omega)
    simp only [base64EncodeChars, base64DecodeQuanta, h1, h2, if_true, and_self]
    have : a / 4 * 4 + a % 4 * 16 / 16 = a := by omega
    rw [this]
  | case3 a b =>
    intro h
    have ha : a < 256 := h a (by simp)
    have hb : b < 256 := h b (by simp)
    obtain ⟨h1, -, -, -⟩ := base64Char_spec (a / 4) (by omega)
    obtain ⟨h2, -, -, -⟩ := base64Char_spec (a % 4 * 16 + b / 16) (by omega)
    obtain ⟨h3, h3e, -, -⟩ := base64Char_spec (b % 16 * 4) (by omega)
    simp only [base64EncodeChars, base64DecodeQuanta, h1, h2, h3, h3e, if_true, if_false]
    have e1 : a / 4 * 4 + (a % 4 * 16 + b / 16) / 16 = a := by omega
    have e2 : (a % 4 * 16 + b / 16) % 16 * 16 + b % 16 * 4 / 4 = b := by omega
    rw [e1, e2]
  | case4 a b c rest ih =>
    intro h
    have ha : a < 256 := h a (by simp)
    have hb : b < 256 := h b (by simp)
    have hc : c < 256 := h c (by simp)
    have hrest := ih (fun x hx => h x (by simp [hx]))
    obtain ⟨h1, -, -, -⟩ := base64Char_spec (a / 4) (by omega)
    obtain ⟨h2, -, -, -⟩ := base64Char_spec (a % 4 * 16 + b / 16) (by omega)
    obtain ⟨h3, h3e, -, -⟩ := base64Char_spec (b % 16 * 4 + c / 64) (by omega)
    obtain ⟨h4, h4e, -, -⟩ := base64Char_spec (c % 64) (by omega)
    simp only [base64EncodeChars, base64DecodeQuanta, h1, h2, h3, h3e, h4, h4e, hrest,
      if_false]
    have e1 : a / 4 * 4 + (a % 4 * 16 + b / 16) / 16 = a := by omega
    have e2 : (a % 4 * 16 + b / 16) % 16 * 16 + (b % 16 * 4 + c / 64) / 4 = b := by omega
    have e3 : (b % 16 * 4 + c / 64) % 4 * 64 + c % 64 = c := by omega
    rw [e1, e2, e3]

theorem base64EncodeChars_no_newline :
    ∀ bytes : List Nat, (∀ x ∈ bytes, x < 256) →
      ∀ ch ∈ base64EncodeChars bytes, ch ≠ '\n' ∧ ch ≠ '\r' := by
  intro bytes
  induction bytes using base64EncodeChars.induct with
  | case1 => intro _ ch hch; simp [base64EncodeChars] at hch
  | case2 a =>
    intro h ch hch
    have ha : a < 256 := h a (by simp)
    have h1 := (base64Char_spec (a / 4) (by omega)).2.2
    have h2 := (base64Char_spec (a % 4 * 16) (by omega)).2.2
    simp only [base64EncodeChars, List.mem_cons, List.mem_singleton, List.not_mem_nil,
      or_false] at hch
    rcases hch with rfl | rfl | rfl | rfl
    · exact h1
    · exact h2
    · decide
    · decide
  | case3 a b =>
    intro h ch hch
    have ha : a < 256 := h a (by simp)
    have hb : b < 256 := h b (by simp)
    have h1 := (base64Char_spec (a / 4) (by omega)).2.2
    have h2 := (base64Char_spec (a % 4 * 16 + b / 16) (by omega)).2.2
    have h3 := (base64Char_spec (b % 16 * 4) (by omega)).2.2
    simp only [base64EncodeChars, List.mem_cons, List.mem_singleton, List.not_mem_nil,
      or_false] at hch
    rcases hch with rfl | rfl | rfl | rfl
    · exact h1
    · exact h2
    · exact h3
    · decide
  | case4 a b c rest ih =>
    intro h ch hch
    have ha : a < 256 := h a (by simp)
    have hb : b < 256 := h b (by simp)
    have hc : c < 256 := h c (by simp)
    have h1 := (base64Char_spec (a / 4) (by omega)).2.2
    have h2 := (base64Char_spec (a % 4 * 16 + b / 16) (by omega)).2.2
    have h3 := (base64Char_spec (b % 16 * 4 + c / 64) (by omega)).2.2
    have h4 := (base64Char_spec (c % 64) (by omega)).2.2
    simp only [base64EncodeChars, List.mem_cons] at hch
    rcases hch with rfl | rfl | rfl | rfl | hch
    · exact h1
    · exact h2
    · exact h3
    · exact h4
    · exact ih (fun x hx => h x (by simp [hx])) ch hch

/-- Decoding what `EncodeToString` gives returns the bytes. -/
theorem base64Decode_encode (bytes : List Nat) (h : ∀ x ∈ bytes, x < 256) :
    base64Decode (base64Encode bytes) = some bytes := by
  unfold base64Decode base64Encode
  have hf : (base64EncodeChars bytes).filter (fun c => c != '\n' && c != '\r') =
      base64EncodeChars bytes := by
    rw [List.filter_eq_self]
    intro ch hch
    have := base64EncodeChars_no_newline bytes h ch hch
    simp [this.1, this.2]
  simp only [hf]
  exact base64DecodeQuanta_encode bytes h

/-- The model of `StdEncoding` on the test vectors of RFC 4648, section 10, and on
inputs with a line break, with missing padding and with trailing text. -/
theorem base64_test_vectors :
    base64Encode [] = "" ∧ base64Encode [102] = "Zg==" ∧ base64Encode [102, 111] = "Zm8=" ∧
    base64Encode [102, 111, 111] = "Zm9v" ∧ base64Encode [102, 111, 111, 98] = "Zm9vYg==" ∧
    base64Encode [102, 111, 111, 98, 97, 114] = "Zm9vYmFy" ∧
    base64Decode "Zm9vYmFy" = some [102, 111, 111, 98, 97, 114] ∧
    base64Decode "Zm9v\nYg==\r\n" = some [102, 111, 111, 98] ∧
    base64Decode "Zg=" = none ∧ base64Decode "Zg==Zg==" = none ∧
    base64Decode "Zm9v!mFy" = none := by
  decide

/-! ## The data URL of the Gemini adapter read back by the sink -/

theorem takeWhile_before_sep (l1 l2 : List Char) (sep : Char) (h : sep ∉ l1) :
    (l1 ++ sep :: l2).takeWhile (fun c => c != sep) = l1 ∧
      (l1 ++ sep :: l2).dropWhile (fun c => c != sep) = sep :: l2 := by
  induction l1 with
  | nil => simp
  | cons x l1 ih =>
    have hx : x ≠ sep := fun e => h (by rw [e]; simp)
    have ih2 := ih (fun hm => h (List.mem_cons_of_mem _ hm))
    simp [List.takeWhile_cons, List.dropWhile_cons, hx, ih2.1, ih2.2]

theorem hasPrefix_append (a b : String) : hasPrefix (a ++ b) a = true := by
  unfold hasPrefix
  rw [List.isPrefixOf_iff_prefix, String.data_append]
  exact List.prefix_append _ _

theorem parseImageData_dataURL (w : SinkWorld) (m : String) (bytes : List Nat)
    (hsemi : ';' ∉ m.data) (hcomma : ',' ∉ m.data) (hbytes : ∀ x ∈ bytes, x < 256) :
    parseImageData w ("data:" ++ m ++ ";base64," ++ base64Encode bytes) =
      Except.ok (bytes, m) := by
  have hdata : ("data:" ++ m ++ ";base64," ++ base64Encode bytes).data =
      (("data:" : String).data ++ m.data ++ (";base64" : String).data) ++
        ',' :: (base64Encode bytes).data := by
    simp only [String.data_append]
    simp
  have hnocomma : ',' ∉ ("data:" : String).data ++ m.data ++ (";base64" : String).data := by
    simp only [List.mem_append, not_or]
    exact ⟨⟨by decide, hcomma⟩, by decide⟩
  have hsplit : splitN2 ("data:" ++ m ++ ";base64," ++ base64Encode bytes) ',' =
      ["data:" ++ m ++ ";base64", base64Encode bytes] := by
    unfold splitN2
    rw [hdata, (takeWhile_before_sep _ _ ',' hnocomma).1,
      (takeWhile_before_sep _ _ ',' hnocomma).2]
    simp only [List.contains_eq_any_beq, List.any_append, List.any_cons, beq_self_eq_true,
      Bool.true_or, Bool.or_true, if_true, List.drop_succ_cons, List.drop_zero]
    congr 1
  have hhead : ("data:" ++ m ++ ";base64").data =
      (("data:" : String).data ++ m.data) ++ ';' :: ("base64" : String).data := by
    simp only [String.data_append]
  have hnosemi : ';' ∉ ("data:" : String).data ++ m.data := by
    simp only [List.mem_append, not_or]
    exact ⟨by decide, hsemi⟩
  have hmime : splitHead ("data:" ++ m ++ ";base64") ';' = "data:" ++ m := by
    unfold splitHead
    rw [hhead, (takeWhile_before_sep _ _ ';' hnosemi).1]
    apply String.ext
    simp only [String.data_append]
  have hcontains : containsChar ("data:" ++ m ++ ";base64") ';' = true := by
    unfold containsChar
    rw [hhead]
    simp
  have htrim : trimPrefix ("data:" ++ m) "data:" = m := by
    unfold trimPrefix
    rw [hasPrefix_append, if_pos rfl]
    apply String.ext
    simp only [String.data_append]
    simp
  have hpre : hasPrefix ("data:" ++ m ++ ";base64," ++ base64Encode bytes) "data:" = true := by
    have : "data:" ++ m ++ ";base64," ++ base64Encode bytes =
        "data:" ++ (m ++ ";base64," ++ base64Encode bytes) := by
      apply String.ext
      simp only [String.data_append, List.append_assoc]
    rw [this]
    exact hasPrefix_append _ _
  unfold parseImageData
  rw [if_pos hpre, hsplit]
  simp only [hcontains, hmime, hasPrefix_append, htrim, if_true,
    base64Decode_encode bytes hbytes]

theorem base64Encode_ne_empty (bytes : List Nat) (h : bytes ≠ []) : base64Encode bytes ≠ "" := by
  intro he
  have hd : (base64Encode bytes).data = [] := by rw [he]
  unfold base64Encode at hd
  simp only at hd
  match bytes, h with
  | [_], _ => simp [base64EncodeChars] at hd
  | [_, _], _ => simp [base64EncodeChars] at hd
  | _ :: _ :: _ :: _, _ => simp [base64EncodeChars] at hd

/-- C28. For a MIME type `m` that is non-empty and has neither `;` nor `,`, and bytes
`b`, `parseImageData` reads the data URL `data:` + `m` + `;base64,` + base64(`b`) back
as the bytes `b` with MIME type `m` and no error; for non-empty `b` this is the URL the
Gemini adapter emits for an `inlineData` part with `mimeType = m` and
`data = base64(b)`. -/
theorem gemini_data_url_round_trips (w : SinkWorld) (m : String) (bytes : List Nat)
    (hm : m ≠ "") (hsemi : ';' ∉ m.data) (hcomma : ',' ∉ m.data)
    (hbytes : ∀ x ∈ bytes, x < 256) :
    parseImageData w ("data:" ++ m ++ ";base64," ++ base64Encode bytes) =
        Except.ok (bytes, m) ∧
    (bytes ≠ [] → ∀ (text : String) (fileData : Option GeminiFileData),
      geminiPartURL { text := text, inlineData := some { mimeType := m, data := base64Encode bytes }, fileData := fileData } =
        some ("data:" ++ m ++ ";base64," ++ base64Encode bytes)) := by
  refine ⟨parseImageData_dataURL w m bytes hsemi hcomma hbytes, ?_⟩
  intro hne text fileData
  have he := base64Encode_ne_empty bytes hne
  simp [geminiPartURL, he, hm]

theorem gemini_data_url_round_trips_witness :
    parseImageData offlineSink ("data:" ++ "image/png" ++ ";base64," ++ base64Encode [104, 105]) =
        Except.ok ([104, 105], "image/png") ∧
    (([104, 105] : List Nat) ≠ [] → ∀ (text : String) (fileData : Option GeminiFileData),
      geminiPartURL { text := text, inlineData := some { mimeType := "image/png", data := base64Encode [104, 105] }, fileData := fileData } =
        some ("data:" ++ "image/png" ++ ";base64," ++ base64Encode [104, 105])) :=
  gemini_data_url_round_trips offlineSink "image/png" [104, 105] (by decide) (by decide)
    (by decide) (by decide)

end ImageWorker
